import Mathlib

/-!
Verification of the coalescing buffer protocol of
`src/am++/counter_coalesced_message_type.hpp` (class
`counter_coalesced_message_type` and its nested `message_buffer`).

The embedding is sequential: every operation (`send`, `flush`, `clear`,
`send_buffer`) is a pure function on an explicit state, and spin loops that
could only terminate through the action of another thread are modelled as
`Option` failure (`none`), since under sequential execution nothing else can
change the observed condition.  Asserts are modelled as guards returning
`none`.  The element type `Arg` is modelled as `Nat`; the shared-pointer
region handles (`data_owner`) are modelled as `Nat` identities handed out by
a fresh-region counter standing for `buf_cache.allocate()`.  Machine words
(`unsigned int`, 32 bits) are modelled as `Nat`; in the sequential model no
operation ever wraps, so no explicit `% 2^32` is needed, and the bit
operations `&&&` are those of the source.

Operations additionally return the list of intermediate states produced by
their sequence of atomic stores (the micro trace), so that properties about
states visible in the middle of an operation, and about the order of stores,
can be stated.
-/

namespace AMPP

/-- C value `UINT_MAX` for a 32-bit `unsigned int` (the literal value of
`2 ^ 32 - 1`; stated as a numeral so the kernel can reduce it, see
`UINT_MAX_def`). -/
def UINT_MAX : Nat := 4294967295

/-- Source line 159: `static const unsigned int sender_active = UINT_MAX - UINT_MAX / 2;`
(the literal value of that expression; the defining equation of the source is
the theorem `sender_active_def`). -/
def sender_active : Nat := 2147483648

/-- Source line 160: `static const unsigned int count_mask = sender_active - 1;`
(the literal value; the defining equation of the source is the theorem
`count_mask_def`). -/
def count_mask : Nat := 2147483647

/-- The nested struct `message_buffer` (source lines 157-227).  `data_owner`
is the identity of the backing region (a fresh number per allocation), and
`data` is the contents of the slot array.  The `false_sharing_padding` member
has no semantics and is omitted. -/
structure message_buffer where
  count_allocated : Nat
  count_written : Nat
  max_count : Nat
  registered_with_td : Bool
  data_owner : Nat
  data : List Nat
deriving Repr, DecidableEq

/-- Source lines 216-218: `empty()` is `count_allocated.load() == 0`. -/
def message_buffer.empty (b : message_buffer) : Bool :=
  b.count_allocated == 0

/-- Source lines 220-226: `clear(new_data_owner)`.  The new region is given
by its identity `o` and its contents `c` (`data` points into the region, so
it is set to the region contents). -/
def message_buffer.clear (b : message_buffer) (o : Nat) (c : List Nat) : message_buffer :=
  { b with
    data_owner := o
    data := c
    registered_with_td := false
    count_written := 0
    count_allocated := 0 }

/-- The states after each of the five stores performed by `clear`, in the
order the source performs them (source lines 221-225): `data_owner`, then
`data`, then `registered_with_td := false`, then `count_written := 0`, then
`count_allocated := 0` last. -/
def clear_trace (b : message_buffer) (o : Nat) (c : List Nat) : List message_buffer :=
  let b1 := { b with data_owner := o }
  let b2 := { b1 with data := c }
  let b3 := { b2 with registered_with_td := false }
  let b4 := { b3 with count_written := 0 }
  let b5 := { b4 with count_allocated := 0 }
  [b1, b2, b3, b4, b5]

/-- Source lines 182-194: the copy constructor.  The three asserts on the
source buffer are modelled as a guard; on success the new buffer has zero
counts and is unregistered, and copies `max_count`, `data_owner`, `data`. -/
def copy_construct (mb : message_buffer) : Option message_buffer :=
  if mb.count_allocated = 0 ∧ mb.count_written = 0 ∧ mb.registered_with_td = false then
    some
      { count_allocated := 0
        count_written := 0
        max_count := mb.max_count
        registered_with_td := false
        data_owner := mb.data_owner
        data := mb.data }
  else none

/-- Source lines 196-208: copy assignment.  Asserts that both the source and
the target are empty; on success copies `max_count`, `data`, `data_owner`
onto the target, leaving the target counts (asserted zero) in place. -/
def copy_assign (tgt : message_buffer) (mb : message_buffer) : Option message_buffer :=
  if (mb.count_allocated = 0 ∧ mb.count_written = 0 ∧ mb.registered_with_td = false) ∧
      (tgt.count_allocated = 0 ∧ tgt.count_written = 0 ∧ tgt.registered_with_td = false) then
    some { tgt with max_count := mb.max_count, data := mb.data, data_owner := mb.data_owner }
  else none

/-- Result of `send_buffer` (source lines 289-307): the returned boolean, the
buffer afterwards, the fresh-region counter afterwards, the batch handed to
the transport (`mt.send(send_data, count, dest, ...)`) if any, and the micro
trace of buffer states. -/
structure SendBufferResult where
  ret : Bool
  buf : message_buffer
  next_region : Nat
  sent : Option (List Nat)
  trace : List message_buffer
deriving Repr, DecidableEq

/-- Source lines 289-307, `send_buffer(buf, my_id, dest)`.
Line 291 asserts the sender_active bit is held on the buffer (guard).
Line 292 computes `count = my_id & count_mask`.
Line 293 returns false when `my_id & sender_active != 0`.
Line 295 asserts `count <= buf.max_count` (guard; the `data_owner` assert of
line 294 is vacuous in the model since region identities are always valid).
Line 296: when `count != 0`, line 297 spins until `count_written == count`
(sequentially this terminates only if it already holds, hence a guard), line
298 asserts `registered_with_td` (guard), lines 299-304 capture the data,
clear the buffer with a freshly allocated region, hand the first `count`
elements to the transport and return true.  Otherwise line 306 returns
false. -/
def send_buffer (buf : message_buffer) (my_id : Nat) (next_region : Nat) :
    Option SendBufferResult :=
  if buf.count_allocated &&& sender_active = 0 then none
  else
    let count := my_id &&& count_mask
    if my_id &&& sender_active ≠ 0 then
      some { ret := false, buf := buf, next_region := next_region, sent := none, trace := [buf] }
    else if buf.max_count < count then none
    else if count = 0 then
      some { ret := false, buf := buf, next_region := next_region, sent := none, trace := [buf] }
    else if buf.count_written ≠ count then none
    else if buf.registered_with_td = false then none
    else
      let new_data : List Nat := List.replicate buf.max_count 0
      some
        { ret := true
          buf := buf.clear next_region new_data
          next_region := next_region + 1
          sent := some (buf.data.take count)
          trace := buf :: clear_trace buf next_region new_data }

/-- Source lines 61-66: `bool execute () {}` of `default_coalescing_heuristic`.
The body is empty: control reaches the end of a value-returning function
without a return statement, so the call yields no defined value.  Modelled as
an `Option Bool` result that is `none` (no value returned). -/
def default_coalescing_heuristic_execute : Option Bool := none

/-- Per-destination sequential state: the destination buffer
(`outgoing_buffers[dest]`), the `last_active[dest]` entry, and the
fresh-region counter of the buffer cache. -/
structure DestState where
  buf : message_buffer
  last_active : Nat
  next_region : Nat
deriving Repr, DecidableEq

/-- Result of one `send(arg, dest)` call: the final state, the micro trace of
buffer states after each atomic action, whether the termination detector was
notified (`mt.message_being_built(dest)`), and the batch handed to the
transport when the full path fired. -/
structure SendResult where
  st : DestState
  trace : List message_buffer
  td_notify : Bool
  sent : Option (List Nat)
deriving Repr, DecidableEq

/-- Source lines 344-389, `send(arg, dest)`, sequential semantics.  The inner
spin loop (lines 348-357) passes exactly when the buffer is open (count field
below `max_count` and sender_active clear); otherwise, sequentially, it spins
forever (`none`).  Because the spin condition was just observed and no other
thread intervenes, the `fetch_add` of line 358 returns the observed value, so
the two `continue` branches (lines 360-361) never fire.  Line 365 writes the
slot; lines 366-374 are the full-buffer path (store `sender_active`, register
with the termination detector, increment `count_written`, call `send_buffer`
with `my_id = max_count`); lines 375-379 the first-slot path; line 381 the
ordinary path.  The heuristic call of line 383 is the default heuristic,
whose intended value false makes the flush of line 385 unreachable (for the
missing return in its source, see C2). -/
def send_step (s : DestState) (arg : Nat) : Option SendResult :=
  let buf := s.buf
  let max_count := buf.max_count
  let x := buf.count_allocated
  if x &&& count_mask < max_count ∧ x &&& sender_active = 0 then
    let my_id := x
    let buf1 : message_buffer := { buf with count_allocated := x + 1 }
    let slot := my_id &&& count_mask
    let buf2 : message_buffer := { buf1 with data := buf1.data.set slot arg }
    if slot = max_count - 1 then
      let buf3 : message_buffer := { buf2 with count_allocated := sender_active }
      let notified := !buf3.registered_with_td
      let buf4 : message_buffer := { buf3 with registered_with_td := true }
      let buf5 : message_buffer := { buf4 with count_written := buf4.count_written + 1 }
      (send_buffer buf5 max_count s.next_region).map fun r =>
        { st := { buf := r.buf, last_active := s.last_active, next_region := r.next_region }
          trace := [buf1, buf2, buf3, buf4, buf5] ++ r.trace
          td_notify := notified
          sent := r.sent }
    else
      let notified := if slot = 0 then !buf2.registered_with_td else false
      let buf3 : message_buffer :=
        { buf2 with
            registered_with_td := if slot = 0 then true else buf2.registered_with_td }
      let buf4 : message_buffer := { buf3 with count_written := buf3.count_written + 1 }
      some
        { st := { buf := buf4, last_active := s.last_active, next_region := s.next_region }
          trace := [buf1, buf2, buf3, buf4]
          td_notify := notified
          sent := none }
  else none

/-- Result of the per-destination body of `flush`: the buffer and
`last_active` entry afterwards, the fresh-region counter, the transmitted
batch if any, and the micro trace. -/
structure FlushDestResult where
  buf : message_buffer
  last_active : Nat
  next_region : Nat
  sent : Option (List Nat)
  trace : List message_buffer
deriving Repr, DecidableEq

/-- Source lines 411-429, the loop body of `flush(alive)` for one destination.
Line 413 loads `my_id = count_allocated`.  Lines 414-417: if it differs from
`last_active[r]`, store it there and skip the destination.  Lines 418-425:
when `0 < my_id < max_count`, CAS `count_allocated` from `my_id` to
`sender_active`; sequentially the value was just loaded and nothing
intervenes, so the weak CAS retry loop succeeds at once.  Lines 426-429: in
that case call `send_buffer` with the captured `my_id`. -/
def flush_dest (s : DestState) : Option FlushDestResult :=
  let buf := s.buf
  let max_count := buf.max_count
  let my_id := buf.count_allocated
  if my_id ≠ s.last_active then
    some
      { buf := buf, last_active := my_id, next_region := s.next_region
        sent := none, trace := [buf] }
  else if 0 < my_id ∧ my_id < max_count then
    let buf1 : message_buffer := { buf with count_allocated := sender_active }
    (send_buffer buf1 my_id s.next_region).map fun r =>
      { buf := r.buf, last_active := s.last_active, next_region := r.next_region
        sent := r.sent, trace := buf1 :: r.trace }
  else
    some
      { buf := buf, last_active := s.last_active, next_region := s.next_region
        sent := none, trace := [buf] }

/-- State of the whole message type for the multi-destination `flush`:
`outgoing_buffers` and `last_active` indexed by rank, the fresh-region
counter, and the list of possible destination ranks
(`get_possible_dests`, enumerated by `rank_from_index`). -/
structure CCState where
  outgoing_buffers : List message_buffer
  last_active : List Nat
  next_region : Nat
  dests : List Nat
deriving Repr, DecidableEq

/-- One iteration of the `flush` loop (source lines 408-429) for rank `r`.
The assert of line 410 (`is_valid_rank`) is the index guard. -/
def flush_one (s : CCState) (r : Nat) : Option (CCState × Option (List Nat)) :=
  match s.outgoing_buffers[r]?, s.last_active[r]? with
  | some buf, some la =>
    (flush_dest { buf := buf, last_active := la, next_region := s.next_region }).map fun res =>
      ({ s with
          outgoing_buffers := s.outgoing_buffers.set r res.buf
          last_active := s.last_active.set r res.last_active
          next_region := res.next_region },
        res.sent)
  | _, _ => none

/-- The `flush` loop over a list of destination ranks, accumulating the
batches handed to the transport as `(rank, batch)` pairs in order. -/
def flush_all : List Nat → CCState → Option (CCState × List (Nat × List Nat))
  | [], s => some (s, [])
  | r :: rest, s =>
    match flush_one s r with
    | none => none
    | some (s1, sent) =>
      match flush_all rest s1 with
      | none => none
      | some (s2, outs) =>
        some (s2, (match sent with | some batch => [(r, batch)] | none => []) ++ outs)

/-- Source lines 404-432, `flush(alive)`.  Line 406: when `*alive` is false,
return false immediately, touching nothing.  Otherwise process every possible
destination in order (lines 408-430) and return true (line 431). -/
def flush (alive : Bool) (s : CCState) : Option (Bool × CCState × List (Nat × List Nat)) :=
  if !alive then some (false, s, [])
  else
    match flush_all s.dests s with
    | none => none
    | some (s1, outs) => some (true, s1, outs)

/-- The three operations a caller can perform on one destination of the
message type: `send(arg, dest)`, the per-destination part of `flush`, and a
`clear` with a fresh region from the cache (as the constructor performs,
source line 266). -/
inductive Op where
  | send (arg : Nat)
  | flush
  | clear
deriving Repr, DecidableEq

/-- Run one operation from a per-destination state, returning the final state
and the micro trace of buffer states after each atomic action. -/
def run_op (s : DestState) : Op → Option (DestState × List message_buffer)
  | .send a => (send_step s a).map fun r => (r.st, r.trace)
  | .flush =>
    (flush_dest s).map fun r =>
      ({ buf := r.buf, last_active := r.last_active, next_region := r.next_region }, r.trace)
  | .clear =>
    some
      ({ buf := s.buf.clear s.next_region (List.replicate s.buf.max_count 0)
         last_active := s.last_active
         next_region := s.next_region + 1 },
        clear_trace s.buf s.next_region (List.replicate s.buf.max_count 0))

/-- The constructor state for one destination (source lines 262-268): a
buffer of capacity `max_count` cleared with a region from the cache, and
`last_active[r] = 0`. -/
def init_state (max_count : Nat) : DestState :=
  { buf :=
      { count_allocated := 0
        count_written := 0
        max_count := max_count
        registered_with_td := false
        data_owner := 0
        data := List.replicate max_count 0 }
    last_active := 0
    next_region := 1 }

/-- States reachable from the constructor state by any sequence of complete
`send`, `flush` and `clear` operations. -/
inductive Reach (max_count : Nat) : DestState → Prop where
  | init : Reach max_count (init_state max_count)
  | step {s t : DestState} {op : Op} {tr : List message_buffer} :
      Reach max_count s → run_op s op = some (t, tr) → Reach max_count t

/-- A buffer state observable at some point of the execution: a state between
two operations, or any micro state of the trace of an operation. -/
def Observable (max_count : Nat) (mb : message_buffer) : Prop :=
  (∃ s, Reach max_count s ∧ mb = s.buf) ∨
  (∃ s op t tr, Reach max_count s ∧ run_op s op = some (t, tr) ∧ mb ∈ tr)

/-!
Concurrent model for the interleaving claims (C6).

One destination buffer; a fixed finite set of agents, each performing a
single `send(arg, dest)` call or a single per-destination `flush` body.  (A
thread that makes several calls in sequence behaves like several agents whose
steps happen to be ordered, so arbitrary interleavings of agents cover all
thread behaviours for the safety properties at issue.)  Each agent is a small
automaton whose program counter marks the position between two atomic
accesses of the source; a step performs exactly one atomic access (or a local
branch fused with the preceding access).  Slot payload values are irrelevant
to the claims and are not tracked; instead every protocol-relevant action is
recorded as a ghost event carrying the buffer generation (number of `clear`
completions so far) at the time it happened.  `count_allocated` is a `Nat`
without wrap; the no-overflow side condition `max_count + #agents ≤
count_mask` (amply true for real thread counts, since `count_mask = 2^31-1`)
keeps every value below `2^32`, where the model agrees with the machine
word.  The `valid` field is a ghost counter of slot reservations granted in
the current generation.  A weak-CAS spurious failure reloads the same
expected value and retries, a stutter that cannot affect safety, so the CAS
is modelled as failing exactly when the compared value differs. -/

/-- Program counters of an agent, between the atomic accesses of
`send` (source lines 344-389), the per-destination `flush` body (lines
411-429) and `send_buffer` (lines 289-307) with `clear` (lines 220-226). -/
inductive APC where
  | sSpin
  | sPassed
  | sWrite (my_id : Nat)
  | sFullStore
  | sFullReg
  | sFullIncr
  | sReg0
  | sIncr
  | fLoad
  | fCheck (my_id : Nat)
  | fStoreLA (my_id : Nat)
  | fCAS (my_id : Nat)
  | sbSpin (g count : Nat)
  | sbClearReg (g count : Nat)
  | sbClearCW (g count : Nat)
  | sbClearCA (g count : Nat)
  | sbTransmit (g count : Nat)
  | done
deriving Repr, DecidableEq

/-- Ghost events of the concurrent model: a slot write (line 365), winning
the full path (the `fetch_add` of line 358 returning count field
`max_count - 1` with the flag clear), a successful flush CAS steal (line
420), a termination-detector notification (lines 368-369 or 376-377), and a
batch handoff to the transport (line 303).  Each records the generation it
happened in and the acting agent. -/
inductive Ev where
  | write (g slot aid : Nat)
  | fullwin (g aid : Nat)
  | steal (g aid : Nat)
  | notify (g aid : Nat)
  | transmit (g aid count : Nat)
deriving Repr, DecidableEq

/-- Shared state of the concurrent model: the three buffer atomics, the
`last_active` word, the ghost generation and valid-reservation counters, the
agent array and the ghost event history. -/
structure CSt where
  ca : Nat
  cw : Nat
  reg : Bool
  la : Nat
  gen : Nat
  valid : Nat
  agents : List APC
  evs : List Ev
deriving Repr, DecidableEq

/-- One atomic step of agent `aid` at program counter `pc` (deterministic;
`none` when the agent is blocked or finished).  Each case performs the
labelled atomic access of the source. -/
def astep (max_count : Nat) (st : CSt) (aid : Nat) : APC → Option (CSt × APC)
  | .sSpin =>
    if st.ca &&& count_mask < max_count ∧ st.ca &&& sender_active = 0 then
      some (st, .sPassed)
    else none
  | .sPassed =>
    let my_id := st.ca
    let st1 := { st with ca := st.ca + 1 }
    if my_id &&& sender_active ≠ 0 then some (st1, .sSpin)
    else if max_count ≤ my_id &&& count_mask then some (st1, .sSpin)
    else if my_id &&& count_mask = max_count - 1 then
      some ({ st1 with valid := st1.valid + 1, evs := st1.evs ++ [.fullwin st.gen aid] },
        .sWrite my_id)
    else some ({ st1 with valid := st1.valid + 1 }, .sWrite my_id)
  | .sWrite my_id =>
    let slot := my_id &&& count_mask
    let st1 := { st with evs := st.evs ++ [.write st.gen slot aid] }
    if slot = max_count - 1 then some (st1, .sFullStore)
    else if slot = 0 then some (st1, .sReg0)
    else some (st1, .sIncr)
  | .sFullStore => some ({ st with ca := sender_active }, .sFullReg)
  | .sFullReg =>
    if st.reg then some (st, .sFullIncr)
    else some ({ st with reg := true, evs := st.evs ++ [.notify st.gen aid] }, .sFullIncr)
  | .sFullIncr => some ({ st with cw := st.cw + 1 }, .sbSpin st.gen max_count)
  | .sReg0 =>
    if st.reg then some (st, .sIncr)
    else some ({ st with reg := true, evs := st.evs ++ [.notify st.gen aid] }, .sIncr)
  | .sIncr => some ({ st with cw := st.cw + 1 }, .done)
  | .fLoad => some (st, .fCheck st.ca)
  | .fCheck my_id =>
    if my_id ≠ st.la then some (st, .fStoreLA my_id)
    else if 0 < my_id ∧ my_id < max_count then some (st, .fCAS my_id)
    else some (st, .done)
  | .fStoreLA my_id => some ({ st with la := my_id }, .done)
  | .fCAS my_id =>
    if st.ca = my_id then
      some ({ st with ca := sender_active, evs := st.evs ++ [.steal st.gen aid] },
        .sbSpin st.gen my_id)
    else if 0 < st.ca ∧ st.ca < max_count then some (st, .fCAS st.ca)
    else some (st, .done)
  | .sbSpin g count => if st.cw = count then some (st, .sbClearReg g count) else none
  | .sbClearReg g count => some ({ st with reg := false }, .sbClearCW g count)
  | .sbClearCW g count => some ({ st with cw := 0 }, .sbClearCA g count)
  | .sbClearCA g count =>
    some ({ st with ca := 0, gen := st.gen + 1, valid := 0 }, .sbTransmit g count)
  | .sbTransmit g count => some ({ st with evs := st.evs ++ [.transmit g aid count] }, .done)
  | .done => none

/-- One interleaving step: some agent (at position `l₁.length`) takes its
atomic step. -/
inductive CStep (max_count : Nat) : CSt → CSt → Prop where
  | mk {s core : CSt} {l₁ l₂ : List APC} {pc pc' : APC} :
      s.agents = l₁ ++ pc :: l₂ →
      astep max_count s l₁.length pc = some (core, pc') →
      CStep max_count s { core with agents := l₁ ++ pc' :: l₂ }

/-- Initial state: a fresh cleared buffer, `nsend` agents about to call
`send` and `nflush` agents about to run the flush body. -/
def cinit (nsend nflush : Nat) : CSt :=
  { ca := 0, cw := 0, reg := false, la := 0, gen := 0, valid := 0
    agents := List.replicate nsend APC.sSpin ++ List.replicate nflush APC.fLoad
    evs := [] }

/-- Reachability under arbitrary interleavings. -/
inductive CReach (max_count : Nat) (s0 : CSt) : CSt → Prop where
  | refl : CReach max_count s0 s0
  | tail {s t : CSt} : CReach max_count s0 s → CStep max_count s t → CReach max_count s0 t

/-- The generation an event belongs to. -/
def evGen : Ev → Nat
  | .write g _ _ => g
  | .fullwin g _ => g
  | .steal g _ => g
  | .notify g _ => g
  | .transmit g _ _ => g

def isFullwinEv (g : Nat) : Ev → Bool
  | .fullwin g' _ => g' == g
  | _ => false

def isStealEv (g : Nat) : Ev → Bool
  | .steal g' _ => g' == g
  | _ => false

/-- A sender-claim event of generation `g`: either winning the full path or
stealing via the flush CAS. -/
def isSenderEv (g : Nat) : Ev → Bool
  | .fullwin g' _ => g' == g
  | .steal g' _ => g' == g
  | _ => false

def isNotifyEv (g : Nat) : Ev → Bool
  | .notify g' _ => g' == g
  | _ => false

def isTransmitEv (g : Nat) : Ev → Bool
  | .transmit g' _ _ => g' == g
  | _ => false

def isTransmitAny : Ev → Bool
  | .transmit _ _ _ => true
  | _ => false

def isWriteEv (g slot : Nat) : Ev → Bool
  | .write g' t _ => g' == g && t == slot
  | _ => false

def isPassed : APC → Bool
  | .sPassed => true
  | _ => false

def isHolder (t : Nat) : APC → Bool
  | .sWrite t' => t' == t
  | _ => false

def isHolderAny : APC → Bool
  | .sWrite _ => true
  | _ => false

/-- Agents that wrote their slot but have not yet incremented
`count_written`. -/
def isPreIncr : APC → Bool
  | .sReg0 => true
  | .sIncr => true
  | .sFullStore => true
  | .sFullReg => true
  | .sFullIncr => true
  | _ => false

def isFullStore : APC → Bool
  | .sFullStore => true
  | _ => false

def isFullTail : APC → Bool
  | .sFullReg => true
  | .sFullIncr => true
  | _ => false

def isFullReg : APC → Bool
  | .sFullReg => true
  | _ => false

def isReg0 : APC → Bool
  | .sReg0 => true
  | _ => false

def isSbSpinAny : APC → Bool
  | .sbSpin _ _ => true
  | _ => false

def isSbClearRegAny : APC → Bool
  | .sbClearReg _ _ => true
  | _ => false

def isSbClearCWAny : APC → Bool
  | .sbClearCW _ _ => true
  | _ => false

def isSbClearCAAny : APC → Bool
  | .sbClearCA _ _ => true
  | _ => false

def isSbTransmit (g : Nat) : APC → Bool
  | .sbTransmit g' _ => g' == g
  | _ => false

/-- The `(generation, count)` locals of an agent inside `send_buffer` before
its transmit step (claimed sender of the current generation). -/
def sbLocal : APC → Option (Nat × Nat)
  | .sbSpin g c => some (g, c)
  | .sbClearReg g c => some (g, c)
  | .sbClearCW g c => some (g, c)
  | .sbClearCA g c => some (g, c)
  | _ => none

/-- The `(generation, count)` locals of an agent about to transmit. -/
def trLocal : APC → Option (Nat × Nat)
  | .sbTransmit g c => some (g, c)
  | _ => none

/-- Phase of the current generation with no sender claimed yet: the raw word
equals the number of granted reservations and is below capacity. -/
def PhaseO (mc : Nat) (s : CSt) : Prop :=
  s.ca = s.valid ∧ s.ca < mc ∧
  s.evs.countP (isSenderEv s.gen) = 0 ∧
  s.agents.countP isFullStore = 0 ∧
  s.agents.countP isFullTail = 0 ∧
  s.agents.countP isSbSpinAny = 0 ∧ s.agents.countP isSbClearRegAny = 0 ∧
  s.agents.countP isSbClearCWAny = 0 ∧ s.agents.countP isSbClearCAAny = 0 ∧
  s.evs.countP (isNotifyEv s.gen) = (if s.reg then 1 else 0) ∧
  s.cw + s.agents.countP isHolderAny + s.agents.countP isPreIncr = s.valid

/-- Phase of the current generation after the full-path win and before the
winner stores `sender_active`: the flag is still clear, the word is at least
`max_count`, and the winner is between its `fetch_add` and the flag store. -/
def PhaseW (mc ns : Nat) (s : CSt) : Prop :=
  mc ≤ s.ca ∧ s.ca + s.agents.countP isPassed ≤ mc + ns ∧
  s.valid = mc ∧
  s.evs.countP (isFullwinEv s.gen) = 1 ∧ s.evs.countP (isStealEv s.gen) = 0 ∧
  s.agents.countP isFullStore + s.agents.countP (isHolder (mc - 1)) = 1 ∧
  s.agents.countP isFullTail = 0 ∧
  s.agents.countP isSbSpinAny = 0 ∧ s.agents.countP isSbClearRegAny = 0 ∧
  s.agents.countP isSbClearCWAny = 0 ∧ s.agents.countP isSbClearCAAny = 0 ∧
  s.evs.countP (isNotifyEv s.gen) = (if s.reg then 1 else 0) ∧
  s.cw + s.agents.countP isHolderAny + s.agents.countP isPreIncr = s.valid

/-- Sub-position of the unique sender of the current generation once the
sender_active flag is set. -/
def SPos (s : CSt) : Prop :=
  (s.agents.countP isFullTail + s.agents.countP isSbSpinAny = 1 ∧
    s.agents.countP isSbClearRegAny = 0 ∧ s.agents.countP isSbClearCWAny = 0 ∧
    s.agents.countP isSbClearCAAny = 0 ∧
    s.evs.countP (isNotifyEv s.gen) = (if s.reg then 1 else 0) ∧
    s.cw + s.agents.countP isHolderAny + s.agents.countP isPreIncr = s.valid) ∨
  (s.agents.countP isFullTail = 0 ∧ s.agents.countP isSbSpinAny = 0 ∧
    s.agents.countP isSbClearRegAny = 1 ∧ s.agents.countP isSbClearCWAny = 0 ∧
    s.agents.countP isSbClearCAAny = 0 ∧
    s.reg = true ∧ s.evs.countP (isNotifyEv s.gen) = 1 ∧
    s.cw = s.valid ∧ s.agents.countP isHolderAny = 0 ∧ s.agents.countP isPreIncr = 0) ∨
  (s.agents.countP isFullTail = 0 ∧ s.agents.countP isSbSpinAny = 0 ∧
    s.agents.countP isSbClearRegAny = 0 ∧ s.agents.countP isSbClearCWAny = 1 ∧
    s.agents.countP isSbClearCAAny = 0 ∧
    s.reg = false ∧ s.evs.countP (isNotifyEv s.gen) = 1 ∧
    s.cw = s.valid ∧ s.agents.countP isHolderAny = 0 ∧ s.agents.countP isPreIncr = 0) ∨
  (s.agents.countP isFullTail = 0 ∧ s.agents.countP isSbSpinAny = 0 ∧
    s.agents.countP isSbClearRegAny = 0 ∧ s.agents.countP isSbClearCWAny = 0 ∧
    s.agents.countP isSbClearCAAny = 1 ∧
    s.reg = false ∧ s.evs.countP (isNotifyEv s.gen) = 1 ∧
    s.cw = 0 ∧ s.agents.countP isHolderAny = 0 ∧ s.agents.countP isPreIncr = 0)

/-- Phase of the current generation once `sender_active` is set: exactly one
sender (by full win or steal) working through `send_buffer` and `clear`. -/
def PhaseS (mc ns : Nat) (s : CSt) : Prop :=
  sender_active ≤ s.ca ∧ s.ca + s.agents.countP isPassed ≤ sender_active + ns ∧
  ((s.evs.countP (isFullwinEv s.gen) = 1 ∧ s.evs.countP (isStealEv s.gen) = 0 ∧
      s.valid = mc) ∨
    (s.evs.countP (isFullwinEv s.gen) = 0 ∧ s.evs.countP (isStealEv s.gen) = 1 ∧
      0 < s.valid ∧ s.valid < mc ∧ s.agents.countP isFullTail = 0)) ∧
  s.agents.countP isFullStore = 0 ∧
  s.agents.countP (isHolder (mc - 1)) = 0 ∧
  SPos s

/-- Global inductive invariant of the concurrent model. -/
structure CInv (mc ns : Nat) (s : CSt) : Prop where
  hlen : s.agents.length = ns
  hev_le : ∀ ev ∈ s.evs, evGen ev ≤ s.gen
  hev_tr : ∀ ev ∈ s.evs, isTransmitAny ev = true → evGen ev < s.gen
  hist : ∀ g, g < s.gen →
    s.evs.countP (isSenderEv g) = 1 ∧
    s.evs.countP (isNotifyEv g) = 1 ∧
    s.evs.countP (isTransmitEv g) + s.agents.countP (isSbTransmit g) = 1 ∧
    ∀ t, s.evs.countP (isWriteEv g t) ≤ 1
  hsb : ∀ pc ∈ s.agents, ∀ g c, sbLocal pc = some (g, c) → g = s.gen ∧ c = s.valid
  htr : ∀ pc ∈ s.agents, ∀ g c, trLocal pc = some (g, c) → g < s.gen
  hslot : ∀ t,
    s.evs.countP (isWriteEv s.gen t) + s.agents.countP (isHolder t) =
      (if t < s.valid then 1 else 0)
  hreg0 : s.reg = false → 0 < s.valid →
    s.agents.countP isSbClearRegAny = 0 → s.agents.countP isSbClearCWAny = 0 →
    s.agents.countP isSbClearCAAny = 0 →
    0 < s.agents.countP (isHolder 0) + s.agents.countP isReg0 +
      s.agents.countP isFullStore + s.agents.countP isFullReg
  hvalid : s.valid ≤ mc
  hphase : PhaseO mc s ∨ PhaseW mc ns s ∨ PhaseS mc ns s

/-- Boundary invariant of the sequential protocol: between two operations the
buffer capacity is fixed, the sender_active bit is clear with the raw word at
most `max_count`, every allocated slot is written, and a nonempty buffer is
registered with the termination detector. -/
def BInv (max_count : Nat) (s : DestState) : Prop :=
  s.buf.max_count = max_count ∧
  s.buf.count_allocated ≤ max_count ∧
  s.buf.count_written = s.buf.count_allocated ∧
  (s.buf.count_allocated ≠ 0 → s.buf.registered_with_td = true)

/-- The buffer micro state refuting C8: reached inside the second `send` to a
capacity-2 buffer, right after the full path stored `sender_active` (zeroing
the count field) and before `count_written` was incremented and the buffer
cleared; here `count_written = 1` exceeds the zeroed count field. -/
def c8_bad : message_buffer :=
  { count_allocated := sender_active, count_written := 1, max_count := 2
    registered_with_td := true, data_owner := 0, data := [5, 6] }

/-- The state after one `send 5` on a fresh capacity-2 destination. -/
def c8_mid : DestState :=
  { buf :=
      { count_allocated := 1, count_written := 1, max_count := 2
        registered_with_td := true, data_owner := 0, data := [5, 0] }
    last_active := 0
    next_region := 1 }

/-- Buffer used by the counterexample of C1: sender_active held, one slot
written and published. -/
def c1_buf : message_buffer :=
  { count_allocated := sender_active, count_written := 1, max_count := 4
    registered_with_td := true, data_owner := 1, data := [5, 0, 0, 0] }

/-- Buffer used by the witness of C1: sender_active held, two slots written,
matching the flush call site that stole a partial count of 2. -/
def c1_wbuf : message_buffer :=
  { count_allocated := sender_active, count_written := 2, max_count := 4
    registered_with_td := true, data_owner := 1, data := [7, 8, 0, 0] }

/-- Buffer used by the counterexample of C3: sender_active held, nothing
written. -/
def c3_buf : message_buffer :=
  { count_allocated := sender_active, count_written := 0, max_count := 4
    registered_with_td := false, data_owner := 1, data := [0, 0, 0, 0] }

/-- Per-destination state used by the witness of C4: a buffer holding 2 of 4
slots, both published, sender_active clear, registered, with
`last_active = 0` (differing from the count). -/
def c4_state : DestState :=
  { buf :=
      { count_allocated := 2, count_written := 2, max_count := 4
        registered_with_td := true, data_owner := 1, data := [10, 20, 0, 0] }
    last_active := 0
    next_region := 7 }

/-- An empty buffer for the witness of C10. -/
def c10_empty : message_buffer :=
  { count_allocated := 0, count_written := 0, max_count := 3
    registered_with_td := false, data_owner := 2, data := [1, 2, 3] }

/-- A non-empty buffer for the witness of C10. -/
def c10_full : message_buffer :=
  { count_allocated := 2, count_written := 2, max_count := 3
    registered_with_td := true, data_owner := 2, data := [1, 2, 3] }

/- ------------------------------------------------------------------ -/
/- Theorems. -/
/- ------------------------------------------------------------------ -/

theorem UINT_MAX_def : UINT_MAX = 2 ^ 32 - 1 := by norm_num [UINT_MAX]

theorem sender_active_def : sender_active = UINT_MAX - UINT_MAX / 2 := by decide

theorem count_mask_def : count_mask = sender_active - 1 := by decide

theorem sender_active_eq : sender_active = 2 ^ 31 := by norm_num [sender_active]

theorem count_mask_eq : count_mask = 2 ^ 31 - 1 := by norm_num [count_mask]

theorem and_count_mask (v : Nat) : v &&& count_mask = v % 2 ^ 31 := by
  rw [count_mask_eq]
  exact Nat.and_pow_two_sub_one_eq_mod v 31

theorem and_count_mask_of_le {v : Nat} (h : v ≤ count_mask) : v &&& count_mask = v := by
  rw [and_count_mask]
  exact Nat.mod_eq_of_lt (by rw [count_mask_eq] at h; omega)

theorem and_sender_active_of_le {v : Nat} (h : v ≤ count_mask) : v &&& sender_active = 0 := by
  have hv : v < 2 ^ 31 := by rw [count_mask_eq] at h; omega
  rw [sender_active_eq, Nat.and_two_pow]
  simp [Nat.testBit_eq_false_of_lt hv]

theorem and_sender_active_div (v : Nat) : v &&& sender_active = 2 ^ 31 * (v / 2 ^ 31 % 2) := by
  rw [sender_active_eq, Nat.and_two_pow, Nat.testBit_to_div_mod]
  rcases Nat.mod_two_eq_zero_or_one (v / 2 ^ 31) with h | h <;> rw [h] <;> simp

theorem sa_and_sa : sender_active &&& sender_active = sender_active := by decide

theorem sa_and_cm : sender_active &&& count_mask = 0 := by decide

theorem clear_trace_last (b : message_buffer) (o : Nat) (c : List Nat) :
    (clear_trace b o c).getLast? = some (b.clear o c) := by
  simp [clear_trace, message_buffer.clear]

theorem clear_ignores_count_allocated (b : message_buffer) (v o : Nat) (c : List Nat) :
    ({ b with count_allocated := v } : message_buffer).clear o c = b.clear o c := rfl

/-- The success case of `send_buffer`: with the sender_active bit held on the
buffer, a `my_id` with the flag clear and a nonzero count field within
capacity, all slots published and the termination detector registered, the
call transmits exactly the first `count` slots, clears the buffer with a
fresh region, and returns true. -/
theorem send_buffer_success (buf : message_buffer) (my_id nr : Nat)
    (hheld : ¬buf.count_allocated &&& sender_active = 0)
    (hflag : my_id &&& sender_active = 0)
    (hcnt : my_id &&& count_mask ≠ 0)
    (hle : my_id &&& count_mask ≤ buf.max_count)
    (hcw : buf.count_written = my_id &&& count_mask)
    (hreg : buf.registered_with_td = true) :
    send_buffer buf my_id nr =
      some
        { ret := true
          buf := buf.clear nr (List.replicate buf.max_count 0)
          next_region := nr + 1
          sent := some (buf.data.take (my_id &&& count_mask))
          trace := buf :: clear_trace buf nr (List.replicate buf.max_count 0) } := by
  simp only [send_buffer]
  rw [if_neg hheld, if_neg (by simp [hflag]), if_neg (Nat.not_lt.mpr hle), if_neg hcnt,
    if_neg (by simp [hcw]), if_neg (by simp [hreg])]

/-- C1 (counterexample): as stated, the claim requires `my_id` to have the
sender_active bit set; but on such an argument `send_buffer` returns false at
once (source line 293) and transmits nothing, instead of stripping the bit
and transmitting the count-field number of slots with result true.  Concrete
input: buffer with the sender_active bit held and one published slot,
`my_id = sender_active + 1` (flag set, count field 1). -/
theorem C1_counterexample :
    c1_buf.count_allocated &&& sender_active ≠ 0 ∧
    (sender_active + 1) &&& sender_active ≠ 0 ∧
    (sender_active + 1) &&& count_mask = 1 ∧
    send_buffer c1_buf (sender_active + 1) 2 =
      some { ret := false, buf := c1_buf, next_region := 2, sent := none, trace := [c1_buf] } := by
  decide

/-- C1 (amended): `send_buffer`, called with the sender_active bit held on
the buffer and an argument `my_id` whose sender_active bit is clear and whose
count field is nonzero and within capacity, with those slots published and
the buffer registered with the termination detector, transmits exactly the
count-field number of slots to the transport, clears the buffer with a fresh
region, and returns true.  (Both call sites pass such flag-clear arguments:
`max_count` on the full-buffer path of `send`, and the stolen partial count
on the flush path.) -/
theorem C1_send_buffer_transmits (buf : message_buffer) (my_id nr : Nat)
    (hheld : buf.count_allocated &&& sender_active ≠ 0)
    (hflag : my_id &&& sender_active = 0)
    (hcnt : my_id &&& count_mask ≠ 0)
    (hle : my_id &&& count_mask ≤ buf.max_count)
    (hcw : buf.count_written = my_id &&& count_mask)
    (hreg : buf.registered_with_td = true) :
    send_buffer buf my_id nr =
      some
        { ret := true
          buf := buf.clear nr (List.replicate buf.max_count 0)
          next_region := nr + 1
          sent := some (buf.data.take (my_id &&& count_mask))
          trace := buf :: clear_trace buf nr (List.replicate buf.max_count 0) } :=
  send_buffer_success buf my_id nr hheld hflag hcnt hle hcw hreg

/-- C1 (witness): the amended theorem applied at the flush call site shape:
a buffer holding the sender_active bit with 2 published slots, stolen count
`my_id = 2`. -/
theorem C1_witness :
    send_buffer c1_wbuf 2 5 =
      some
        { ret := true
          buf := c1_wbuf.clear 5 (List.replicate c1_wbuf.max_count 0)
          next_region := 6
          sent := some (c1_wbuf.data.take (2 &&& count_mask))
          trace := c1_wbuf :: clear_trace c1_wbuf 5 (List.replicate c1_wbuf.max_count 0) } :=
  C1_send_buffer_transmits c1_wbuf 2 5 (by decide) (by decide) (by decide) (by decide)
    (by decide) (by decide)

/-- C2 (code_bug): the claim (and the spec) say the default coalescing
heuristic always returns false; the source body of
`default_coalescing_heuristic::execute` is empty (`bool execute () {}`), so
the call returns no value at all (control falls off the end of a
value-returning function).  In particular it does not return false. -/
theorem C2_default_heuristic_execute_returns_nothing :
    default_coalescing_heuristic_execute = none ∧
    default_coalescing_heuristic_execute ≠ some false := by
  decide

/-- C3 (counterexample): with the sender_active bit held and a `my_id` whose
count field is zero, `send_buffer` returns false but does NOT clear the
buffer: the state is unchanged and `count_allocated` still holds
sender_active (nonzero), so producers are not released. -/
theorem C3_counterexample :
    c3_buf.count_allocated &&& sender_active ≠ 0 ∧
    (0 : Nat) &&& count_mask = 0 ∧
    send_buffer c3_buf 0 9 =
      some { ret := false, buf := c3_buf, next_region := 9, sent := none, trace := [c3_buf] } ∧
    c3_buf.count_allocated ≠ 0 := by
  decide

/-- C3 (amended): if `send_buffer` is invoked while the sender_active bit is
set on the buffer with a `my_id` whose count field is zero, it returns false
and leaves the buffer completely unchanged: no clear happens,
`count_allocated` keeps the sender_active bit, and producers remain
excluded. -/
theorem C3_zero_count_no_clear (buf : message_buffer) (my_id nr : Nat)
    (hheld : buf.count_allocated &&& sender_active ≠ 0)
    (hcnt : my_id &&& count_mask = 0) :
    send_buffer buf my_id nr =
      some { ret := false, buf := buf, next_region := nr, sent := none, trace := [buf] } := by
  by_cases hflag : my_id &&& sender_active = 0
  · simp only [send_buffer]
    rw [if_neg hheld, if_neg (by simp [hflag]), hcnt,
      if_neg (by omega : ¬buf.max_count < 0), if_pos rfl]
  · simp only [send_buffer]
    rw [if_neg hheld, if_pos hflag]

/-- C3 (witness): the amended theorem at the concrete buffer of the
counterexample. -/
theorem C3_witness :
    send_buffer c3_buf 0 9 =
      some { ret := false, buf := c3_buf, next_region := 9, sent := none, trace := [c3_buf] } :=
  C3_zero_count_no_clear c3_buf 0 9 (by decide) (by decide)

/-- C4 (confirmed): for a destination whose buffer holds `k` elements with
`0 < k < max_count` and sender_active clear (all `k` published, registered):
a flush cycle that observes a count different from `last_active` only stores
the new count into `last_active` and transmits nothing; the next flush cycle
with no intervening send observes the same count, atomically exchanges
`count_allocated` for sender_active (visible as the first micro state of its
trace) and transmits exactly those `k` elements. -/
theorem C4_flush_two_cycle_transmits (s : DestState) (k : Nat)
    (hk : s.buf.count_allocated = k)
    (h0 : 0 < k)
    (hmax : k < s.buf.max_count)
    (hm : s.buf.max_count ≤ count_mask)
    (hcw : s.buf.count_written = k)
    (hreg : s.buf.registered_with_td = true)
    (hne : s.last_active ≠ k) :
    flush_dest s =
      some
        { buf := s.buf, last_active := k, next_region := s.next_region
          sent := none, trace := [s.buf] } ∧
    flush_dest { buf := s.buf, last_active := k, next_region := s.next_region } =
      some
        { buf := s.buf.clear s.next_region (List.replicate s.buf.max_count 0)
          last_active := k
          next_region := s.next_region + 1
          sent := some (s.buf.data.take k)
          trace :=
            { s.buf with count_allocated := sender_active } ::
              { s.buf with count_allocated := sender_active } ::
                clear_trace { s.buf with count_allocated := sender_active } s.next_region
                  (List.replicate s.buf.max_count 0) } := by
  have hkle : k ≤ count_mask := le_trans (le_of_lt hmax) hm
  have hkcm : k &&& count_mask = k := and_count_mask_of_le hkle
  have hsb :=
    send_buffer_success { s.buf with count_allocated := sender_active } k s.next_region
      (by simpa [sa_and_sa] using (by decide : sender_active ≠ 0))
      (and_sender_active_of_le hkle)
      (by rw [hkcm]; omega)
      (by rw [hkcm]; exact le_of_lt hmax)
      (by rw [hkcm]; exact hcw)
      hreg
  constructor
  · simp only [flush_dest]
    rw [hk, if_pos (Ne.symm hne)]
  · simp only [flush_dest]
    rw [hk]
    rw [if_neg (by simp), if_pos ⟨h0, hmax⟩, hsb, hkcm]
    simp only [Option.map_some', clear_ignores_count_allocated]

/-- C4 (witness): the theorem at a concrete state: 2 of 4 slots held and
published, last_active initially 0. -/
theorem C4_witness :
    flush_dest c4_state =
      some
        { buf := c4_state.buf, last_active := 2, next_region := c4_state.next_region
          sent := none, trace := [c4_state.buf] } ∧
    flush_dest { buf := c4_state.buf, last_active := 2, next_region := c4_state.next_region } =
      some
        { buf := c4_state.buf.clear c4_state.next_region
            (List.replicate c4_state.buf.max_count 0)
          last_active := 2
          next_region := c4_state.next_region + 1
          sent := some (c4_state.buf.data.take 2)
          trace :=
            { c4_state.buf with count_allocated := sender_active } ::
              { c4_state.buf with count_allocated := sender_active } ::
                clear_trace { c4_state.buf with count_allocated := sender_active }
                  c4_state.next_region
                  (List.replicate c4_state.buf.max_count 0) } :=
  C4_flush_two_cycle_transmits c4_state 2 (by decide) (by decide) (by decide) (by decide)
    (by decide) (by decide) (by decide)

/-- C5 (confirmed): `flush(alive)` with `*alive` false returns false, leaves
the state untouched and hands nothing to the transport; with `*alive` true it
processes every possible destination in order (the fold of the per-rank flush
body over the whole destination list) and returns true. -/
theorem C5_flush_alive_gate (s : CCState) :
    flush false s = some (false, s, []) ∧
    flush true s = (flush_all s.dests s).map (fun p => (true, p.1, p.2)) := by
  constructor
  · rfl
  · cases h : flush_all s.dests s <;> simp [flush, h]

end AMPP

namespace AMPP

/-- C7 (confirmed): after `clear(new_region)` completes, `data_owner` holds
the new region, `data` points to its storage, `registered_with_td` is false,
`count_written` is 0, `count_allocated` is 0 (so `empty()` is true and
producers may allocate again), and in the store order of the source the
store to `count_allocated` comes last: every micro state before the final
one keeps the old `count_allocated`, and the state just before the final
store already has all four other stores applied. -/
theorem C7_clear_spec (b : message_buffer) (o : Nat) (c : List Nat) :
    (b.clear o c).data_owner = o ∧
    (b.clear o c).data = c ∧
    (b.clear o c).registered_with_td = false ∧
    (b.clear o c).count_written = 0 ∧
    (b.clear o c).count_allocated = 0 ∧
    (b.clear o c).empty = true ∧
    (b.clear o c).max_count = b.max_count ∧
    (clear_trace b o c).getLast? = some (b.clear o c) ∧
    (∀ mb ∈ (clear_trace b o c).dropLast, mb.count_allocated = b.count_allocated) ∧
    (clear_trace b o c)[3]? =
      some { b with data_owner := o, data := c, registered_with_td := false, count_written := 0 } := by
  refine ⟨rfl, rfl, rfl, rfl, rfl, rfl, rfl, ?_, ?_, ?_⟩
  · simp [clear_trace, message_buffer.clear]
  · simp [clear_trace]
  · rfl

/-- C9 (confirmed): with `sender_active = UINT_MAX - UINT_MAX / 2` (the top
bit of the 32-bit word) and `count_mask = sender_active - 1` (all remaining
bits), the two are disjoint bit regions, every word value decomposes uniquely
into a flag part (0 or `sender_active`) plus a count field at most
`count_mask`, and the value `sender_active` itself has count field 0, so
storing `sender_active` into `count_allocated` zeros the count. -/
theorem C9_bit_layout (v : Nat) (hv : v < 2 ^ 32) :
    sender_active &&& count_mask = 0 ∧
    (v &&& sender_active = 0 ∨ v &&& sender_active = sender_active) ∧
    v &&& count_mask ≤ count_mask ∧
    v = (v &&& sender_active) + (v &&& count_mask) ∧
    (∀ f c, (f = 0 ∨ f = sender_active) → c ≤ count_mask → v = f + c →
      f = v &&& sender_active ∧ c = v &&& count_mask) := by
  have h1 := and_count_mask v
  have h2 := and_sender_active_div v
  have e31 : (2 : Nat) ^ 31 = 2147483648 := by norm_num
  have e32 : (2 : Nat) ^ 32 = 4294967296 := by norm_num
  have hsa : sender_active = 2147483648 := by rw [sender_active_eq, e31]
  have hcm : count_mask = 2147483647 := by rw [count_mask_eq, e31]
  rw [e31] at h1 h2
  rw [e32] at hv
  refine ⟨sa_and_cm, ?_, ?_, ?_, ?_⟩
  · rw [h2, hsa]; omega
  · rw [h1, hcm]; omega
  · rw [h1, h2]; omega
  · intro f c hf hc hvfc
    rw [hsa] at hf
    rw [hcm] at hc
    rw [h1, h2]
    omega

/-- C9 (witness): the bit-layout theorem at the concrete word value
`2^31 + 7` (flag set, count field 7). -/
theorem C9_witness :
    sender_active &&& count_mask = 0 ∧
    ((2147483655 : Nat) &&& sender_active = 0 ∨
      (2147483655 : Nat) &&& sender_active = sender_active) ∧
    (2147483655 : Nat) &&& count_mask ≤ count_mask ∧
    (2147483655 : Nat) = (2147483655 &&& sender_active) + (2147483655 &&& count_mask) ∧
    (∀ f c, (f = 0 ∨ f = sender_active) → c ≤ count_mask → 2147483655 = f + c →
      f = 2147483655 &&& sender_active ∧ c = 2147483655 &&& count_mask) :=
  C9_bit_layout 2147483655 (by norm_num)

/-- C10 (confirmed): a `message_buffer` may only be copy-constructed from, or
copy-assigned between, empty buffers: copy construction succeeds only when
the source has zero counts and is unregistered, assignment only when source
and target both do, the result always starts with zero counts and an
unregistered state regardless of the data pointer of the source, and on a
non-empty source both operations fail their asserts. -/
theorem C10_copy_only_empty (src tgt b : message_buffer) :
    (copy_construct src = some b →
      (src.count_allocated = 0 ∧ src.count_written = 0 ∧ src.registered_with_td = false) ∧
      b.count_allocated = 0 ∧ b.count_written = 0 ∧ b.registered_with_td = false ∧
      b.max_count = src.max_count) ∧
    (copy_assign tgt src = some b →
      ((src.count_allocated = 0 ∧ src.count_written = 0 ∧ src.registered_with_td = false) ∧
        (tgt.count_allocated = 0 ∧ tgt.count_written = 0 ∧ tgt.registered_with_td = false)) ∧
      b.count_allocated = 0 ∧ b.count_written = 0 ∧ b.registered_with_td = false) ∧
    (¬(src.count_allocated = 0 ∧ src.count_written = 0 ∧ src.registered_with_td = false) →
      copy_construct src = none ∧ copy_assign tgt src = none) := by
  refine ⟨?_, ?_, ?_⟩
  · intro h
    by_cases hc : src.count_allocated = 0 ∧ src.count_written = 0 ∧ src.registered_with_td = false
    · simp only [copy_construct, if_pos hc, Option.some_inj] at h
      exact ⟨hc, by rw [← h], by rw [← h], by rw [← h], by rw [← h]⟩
    · simp [copy_construct, hc] at h
  · intro h
    by_cases hc : (src.count_allocated = 0 ∧ src.count_written = 0 ∧
        src.registered_with_td = false) ∧
        tgt.count_allocated = 0 ∧ tgt.count_written = 0 ∧ tgt.registered_with_td = false
    · simp only [copy_assign, if_pos hc, Option.some_inj] at h
      refine ⟨hc, ?_, ?_, ?_⟩ <;> rw [← h] <;> simp [hc.2.1, hc.2.2.1, hc.2.2.2]
    · simp [copy_assign, hc] at h
  · intro h
    constructor
    · simp only [copy_construct]
      rw [if_neg h]
    · simp only [copy_assign]
      rw [if_neg (fun hh => h hh.1)]

/-- C10 (witness): the theorem applied at a concrete empty buffer (successful
copy construction yields the empty state) and at a concrete non-empty buffer
(both operations fail). -/
theorem C10_witness :
    (((c10_empty.count_allocated = 0 ∧ c10_empty.count_written = 0 ∧
        c10_empty.registered_with_td = false) ∧
      c10_empty.count_allocated = 0 ∧ c10_empty.count_written = 0 ∧
        c10_empty.registered_with_td = false ∧
      c10_empty.max_count = c10_empty.max_count)) ∧
    (copy_construct c10_full = none ∧ copy_assign c10_empty c10_full = none) :=
  ⟨(C10_copy_only_empty c10_empty c10_empty c10_empty).1 (by decide),
    (C10_copy_only_empty c10_full c10_empty c10_empty).2.2 (by decide)⟩

theorem zero_and_cm : (0 : Nat) &&& count_mask = 0 :=
  and_count_mask_of_le (Nat.zero_le _)

theorem and_sa_of_ge {v : Nat} (h1 : sender_active ≤ v) (h2 : v ≤ sender_active + count_mask) :
    v &&& sender_active = sender_active := by
  have h := and_sender_active_div v
  have e31 : (2 : Nat) ^ 31 = 2147483648 := by norm_num
  rw [e31] at h
  have hsa : sender_active = 2147483648 := by norm_num [sender_active]
  have hcm : count_mask = 2147483647 := by norm_num [count_mask]
  rw [hsa] at h1
  rw [hsa, hcm] at h2
  have hd : v / 2147483648 = 1 := by omega
  rw [h, hd, hsa]

theorem countP_mid {α : Type} (p : α → Bool) (l₁ l₂ : List α) (a : α) :
    (l₁ ++ a :: l₂).countP p = l₁.countP p + l₂.countP p + (if p a then 1 else 0) := by
  simp [List.countP_append, List.countP_cons]
  omega

theorem countP_snoc {α : Type} (p : α → Bool) (l : List α) (a : α) :
    (l ++ [a]).countP p = l.countP p + (if p a then 1 else 0) := by
  simp [List.countP_append, List.countP_cons]

theorem length_mid {α : Type} (l₁ l₂ : List α) (a b : α) :
    (l₁ ++ a :: l₂).length = (l₁ ++ b :: l₂).length := by
  simp

theorem countP_sender_split (g : Nat) (l : List Ev) :
    l.countP (isSenderEv g) = l.countP (isFullwinEv g) + l.countP (isStealEv g) := by
  induction l with
  | nil => rfl
  | cons e l ih =>
    simp only [List.countP_cons, ih]
    cases e <;> simp [isSenderEv, isFullwinEv, isStealEv] <;> omega

theorem countP_zero_of_gen_lt {g : Nat} {l : List Ev} {p : Nat → Ev → Bool}
    (hp : ∀ ev, p g ev = true → evGen ev = g)
    (hle : ∀ ev ∈ l, evGen ev ≤ g - 1) (hg : 0 < g) : l.countP (p g) = 0 := by
  rw [List.countP_eq_zero]
  intro ev hev hpe
  have := hp ev hpe
  have := hle ev hev
  omega

/-- Predicate picking the agent states that carry no protocol obligations:
neither a reserved slot, nor a pending increment, nor sender duties. -/
def neutralPC : APC → Bool
  | .sSpin => true
  | .fLoad => true
  | .fCheck _ => true
  | .fStoreLA _ => true
  | .fCAS _ => true
  | .done => true
  | _ => false

theorem neutral_counts {pc : APC} (h : neutralPC pc = true) :
    isPassed pc = false ∧ isHolderAny pc = false ∧ isPreIncr pc = false ∧
    isFullStore pc = false ∧ isFullTail pc = false ∧ isReg0 pc = false ∧
    isSbSpinAny pc = false ∧ isSbClearRegAny pc = false ∧ isSbClearCWAny pc = false ∧
    isSbClearCAAny pc = false ∧ (∀ t, isHolder t pc = false) ∧
    (∀ g, isSbTransmit g pc = false) ∧ sbLocal pc = none ∧ trLocal pc = none ∧
    isFullReg pc = false := by
  cases pc <;>
    simp_all [neutralPC, isPassed, isHolderAny, isPreIncr, isFullStore, isFullTail, isReg0,
      isSbSpinAny, isSbClearRegAny, isSbClearCWAny, isSbClearCAAny, isHolder, isSbTransmit,
      sbLocal, trLocal, isFullReg]

theorem cinv_swap_neutral {mc ns : Nat} {s : CSt} {l₁ l₂ : List APC} {pc pc' : APC}
    (inv : CInv mc ns s) (hag : s.agents = l₁ ++ pc :: l₂)
    (hn : neutralPC pc = true) (hn' : neutralPC pc' = true) (la' : Nat) :
    CInv mc ns { s with la := la', agents := l₁ ++ pc' :: l₂ } := by
  obtain ⟨n1, n2, n3, n4, n5, n6, n7, n8, n9, n10, n11, n12, n13, n14, n15⟩ :=
    neutral_counts hn
  obtain ⟨m1, m2, m3, m4, m5, m6, m7, m8, m9, m10, m11, m12, m13, m14, m15⟩ :=
    neutral_counts hn'
  have hcnt : ∀ p : APC → Bool, p pc = false → p pc' = false →
      (l₁ ++ pc' :: l₂).countP p = s.agents.countP p := by
    intro p h1 h2
    rw [hag, countP_mid, countP_mid, h1, h2]
  have hmem : ∀ q ∈ l₁ ++ pc' :: l₂, q = pc' ∨ q ∈ s.agents := by
    intro q hq
    rw [List.mem_append, List.mem_cons] at hq
    rcases hq with h | h | h
    · exact Or.inr (by rw [hag]; exact List.mem_append.mpr (Or.inl h))
    · exact Or.inl h
    · exact Or.inr (by rw [hag]; exact List.mem_append.mpr (Or.inr (List.mem_cons_of_mem _ h)))
  refine ⟨?_, inv.hev_le, inv.hev_tr, ?_, ?_, ?_, ?_, ?_, inv.hvalid, ?_⟩
  · rw [← inv.hlen, hag]; exact length_mid l₁ l₂ pc' pc
  · intro g hg
    obtain ⟨a, b, c, d⟩ := inv.hist g hg
    exact ⟨a, b, by rw [hcnt (isSbTransmit g) (n12 g) (m12 g)]; exact c, d⟩
  · intro q hq g c hql
    rcases hmem q hq with rfl | h
    · rw [m13] at hql; exact absurd hql (by simp)
    · exact inv.hsb q h g c hql
  · intro q hq g c hql
    rcases hmem q hq with rfl | h
    · rw [m14] at hql; exact absurd hql (by simp)
    · exact inv.htr q h g c hql
  · intro t
    rw [hcnt (isHolder t) (n11 t) (m11 t)]
    exact inv.hslot t
  · intro hr hv h1 h2 h3
    rw [hcnt isSbClearRegAny n8 m8] at h1
    rw [hcnt isSbClearCWAny n9 m9] at h2
    rw [hcnt isSbClearCAAny n10 m10] at h3
    rw [hcnt (isHolder 0) (n11 0) (m11 0), hcnt isReg0 n6 m6, hcnt isFullStore n4 m4,
      hcnt isFullReg n15 m15]
    exact inv.hreg0 hr hv h1 h2 h3
  · rcases inv.hphase with hp | hp | hp
    · left
      obtain ⟨a1, a2, a3, a4, a5, a6, a7, a8, a9, a10, a11⟩ := hp
      exact ⟨a1, a2, a3,
        by rw [hcnt isFullStore n4 m4]; exact a4,
        by rw [hcnt isFullTail n5 m5]; exact a5,
        by rw [hcnt isSbSpinAny n7 m7]; exact a6,
        by rw [hcnt isSbClearRegAny n8 m8]; exact a7,
        by rw [hcnt isSbClearCWAny n9 m9]; exact a8,
        by rw [hcnt isSbClearCAAny n10 m10]; exact a9,
        a10,
        by rw [hcnt isHolderAny n2 m2, hcnt isPreIncr n3 m3]; exact a11⟩
    · right; left
      obtain ⟨a1, a2, a3, a4, a5, a6, a7, a8, a9, a10, a11, a12, a13⟩ := hp
      exact ⟨a1, by rw [hcnt isPassed n1 m1]; exact a2, a3, a4, a5,
        by rw [hcnt isFullStore n4 m4, hcnt (isHolder (mc - 1)) (n11 _) (m11 _)]; exact a6,
        by rw [hcnt isFullTail n5 m5]; exact a7,
        by rw [hcnt isSbSpinAny n7 m7]; exact a8,
        by rw [hcnt isSbClearRegAny n8 m8]; exact a9,
        by rw [hcnt isSbClearCWAny n9 m9]; exact a10,
        by rw [hcnt isSbClearCAAny n10 m10]; exact a11,
        a12,
        by rw [hcnt isHolderAny n2 m2, hcnt isPreIncr n3 m3]; exact a13⟩
    · right; right
      obtain ⟨a1, a2, a3, a4, a4b, a5⟩ := hp
      have ha3 : (s.evs.countP (isFullwinEv s.gen) = 1 ∧
          s.evs.countP (isStealEv s.gen) = 0 ∧ s.valid = mc) ∨
          (s.evs.countP (isFullwinEv s.gen) = 0 ∧ s.evs.countP (isStealEv s.gen) = 1 ∧
          0 < s.valid ∧ s.valid < mc ∧ (l₁ ++ pc' :: l₂).countP isFullTail = 0) := by
        rcases a3 with ⟨c1, c2, c3⟩ | ⟨c1, c2, c3, c4, c5⟩
        · exact Or.inl ⟨c1, c2, c3⟩
        · exact Or.inr ⟨c1, c2, c3, c4, by rw [hcnt isFullTail n5 m5]; exact c5⟩
      refine ⟨a1, by rw [hcnt isPassed n1 m1]; exact a2, ha3,
        by rw [hcnt isFullStore n4 m4]; exact a4,
        by rw [hcnt (isHolder (mc - 1)) (n11 _) (m11 _)]; exact a4b, ?_⟩
      rcases a5 with b | b | b | b
      · left
        obtain ⟨b1, b2, b3, b4, b5, b6⟩ := b
        exact ⟨by rw [hcnt isFullTail n5 m5, hcnt isSbSpinAny n7 m7]; exact b1,
          by rw [hcnt isSbClearRegAny n8 m8]; exact b2,
          by rw [hcnt isSbClearCWAny n9 m9]; exact b3,
          by rw [hcnt isSbClearCAAny n10 m10]; exact b4,
          b5,
          by rw [hcnt isHolderAny n2 m2, hcnt isPreIncr n3 m3]; exact b6⟩
      · right; left
        obtain ⟨b1, b2, b3, b4, b5, b6, b7, b8, b9, b10⟩ := b
        exact ⟨by rw [hcnt isFullTail n5 m5]; exact b1,
          by rw [hcnt isSbSpinAny n7 m7]; exact b2,
          by rw [hcnt isSbClearRegAny n8 m8]; exact b3,
          by rw [hcnt isSbClearCWAny n9 m9]; exact b4,
          by rw [hcnt isSbClearCAAny n10 m10]; exact b5,
          b6, b7, b8,
          by rw [hcnt isHolderAny n2 m2]; exact b9,
          by rw [hcnt isPreIncr n3 m3]; exact b10⟩
      · right; right; left
        obtain ⟨b1, b2, b3, b4, b5, b6, b7, b8, b9, b10⟩ := b
        exact ⟨by rw [hcnt isFullTail n5 m5]; exact b1,
          by rw [hcnt isSbSpinAny n7 m7]; exact b2,
          by rw [hcnt isSbClearRegAny n8 m8]; exact b3,
          by rw [hcnt isSbClearCWAny n9 m9]; exact b4,
          by rw [hcnt isSbClearCAAny n10 m10]; exact b5,
          b6, b7, b8,
          by rw [hcnt isHolderAny n2 m2]; exact b9,
          by rw [hcnt isPreIncr n3 m3]; exact b10⟩
      · right; right; right
        obtain ⟨b1, b2, b3, b4, b5, b6, b7, b8, b9, b10⟩ := b
        exact ⟨by rw [hcnt isFullTail n5 m5]; exact b1,
          by rw [hcnt isSbSpinAny n7 m7]; exact b2,
          by rw [hcnt isSbClearRegAny n8 m8]; exact b3,
          by rw [hcnt isSbClearCWAny n9 m9]; exact b4,
          by rw [hcnt isSbClearCAAny n10 m10]; exact b5,
          b6, b7, b8,
          by rw [hcnt isHolderAny n2 m2]; exact b9,
          by rw [hcnt isPreIncr n3 m3]; exact b10⟩

theorem sa_sa_ne_zero : ¬sender_active &&& sender_active = 0 := by
  rw [sa_and_sa]; decide

theorem binv_step {max_count : Nat} (h0 : 0 < max_count) (hm : max_count ≤ count_mask)
    {s t : DestState} {op : Op} {tr : List message_buffer}
    (hs : BInv max_count s) (hrun : run_op s op = some (t, tr)) :
    BInv max_count t ∧
      ∀ mb ∈ tr, mb.count_allocated &&& sender_active = 0 →
        mb.count_written ≤ mb.count_allocated &&& count_mask ∧
        mb.count_allocated &&& count_mask ≤ max_count := by
  obtain ⟨hmc, hle, hcw, hreg⟩ := hs
  have hca_cm : s.buf.count_allocated &&& count_mask = s.buf.count_allocated :=
    and_count_mask_of_le (le_trans hle hm)
  have hca_sa : s.buf.count_allocated &&& sender_active = 0 :=
    and_sender_active_of_le (le_trans hle hm)
  have keyA : s.buf.count_written ≤ s.buf.count_allocated &&& count_mask ∧
      s.buf.count_allocated &&& count_mask ≤ max_count := by
    rw [hca_cm]; exact ⟨le_of_eq hcw, hle⟩
  have keyB : (0 : Nat) ≤ s.buf.count_allocated &&& count_mask ∧
      s.buf.count_allocated &&& count_mask ≤ max_count := by
    rw [hca_cm]; exact ⟨Nat.zero_le _, hle⟩
  have keyC : (0 : Nat) ≤ (0 : Nat) &&& count_mask ∧ (0 : Nat) &&& count_mask ≤ max_count := by
    rw [zero_and_cm]; exact ⟨le_refl 0, Nat.zero_le _⟩
  cases op with
  | clear =>
    simp only [run_op] at hrun
    cases hrun
    refine ⟨⟨hmc, Nat.zero_le _, rfl, fun h => absurd rfl h⟩, ?_⟩
    intro mb hmb hfl
    simp only [clear_trace, List.mem_cons, List.not_mem_nil, or_false] at hmb
    rcases hmb with rfl | rfl | rfl | rfl | rfl
    exacts [keyA, keyA, keyA, keyB, keyC]
  | flush =>
    simp only [run_op, flush_dest] at hrun
    split at hrun
    · simp only [Option.map_some'] at hrun
      cases hrun
      refine ⟨⟨hmc, hle, hcw, hreg⟩, ?_⟩
      intro mb hmb hfl
      simp only [List.mem_singleton] at hmb
      subst hmb
      exact keyA
    · split at hrun
      · rename_i hne h2
        have hmy0 : s.buf.count_allocated ≠ 0 := Nat.pos_iff_ne_zero.mp h2.1
        have hsb :=
          send_buffer_success { s.buf with count_allocated := sender_active }
            s.buf.count_allocated s.next_region
            sa_sa_ne_zero
            hca_sa
            (by rw [hca_cm]; exact hmy0)
            (by rw [hca_cm]; exact le_of_lt h2.2)
            (by rw [hca_cm]; exact hcw)
            (hreg hmy0)
        rw [hsb] at hrun
        simp only [Option.map_some'] at hrun
        cases hrun
        refine ⟨⟨hmc, Nat.zero_le _, rfl, fun h => absurd rfl h⟩, ?_⟩
        intro mb hmb hfl
        simp only [clear_trace, List.mem_cons, List.not_mem_nil, or_false] at hmb
        rcases hmb with rfl | rfl | rfl | rfl | rfl | rfl | rfl
        exacts [(sa_sa_ne_zero hfl).elim, (sa_sa_ne_zero hfl).elim, (sa_sa_ne_zero hfl).elim,
          (sa_sa_ne_zero hfl).elim, (sa_sa_ne_zero hfl).elim, (sa_sa_ne_zero hfl).elim, keyC]
      · simp only [Option.map_some'] at hrun
        cases hrun
        refine ⟨⟨hmc, hle, hcw, hreg⟩, ?_⟩
        intro mb hmb hfl
        simp only [List.mem_singleton] at hmb
        subst hmb
        exact keyA
  | send a =>
    simp only [run_op, send_step] at hrun
    split at hrun
    · rename_i hopen
      obtain ⟨hlt, -⟩ := hopen
      rw [hca_cm] at hlt
      have hsucc_le : s.buf.count_allocated + 1 ≤ max_count := by rw [← hmc]; exact hlt
      have hsucc_cm : (s.buf.count_allocated + 1) &&& count_mask = s.buf.count_allocated + 1 :=
        and_count_mask_of_le (le_trans hsucc_le hm)
      have key1 : s.buf.count_written ≤ (s.buf.count_allocated + 1) &&& count_mask ∧
          (s.buf.count_allocated + 1) &&& count_mask ≤ max_count := by
        rw [hsucc_cm]; omega
      have key2 : s.buf.count_written + 1 ≤ (s.buf.count_allocated + 1) &&& count_mask ∧
          (s.buf.count_allocated + 1) &&& count_mask ≤ max_count := by
        rw [hsucc_cm]; omega
      split at hrun
      · rename_i hfull
        rw [hca_cm] at hfull
        have hcw5 : s.buf.count_written + 1 = s.buf.max_count := by omega
        have hmax_cm : s.buf.max_count &&& count_mask = s.buf.max_count :=
          and_count_mask_of_le (by rw [hmc]; exact hm)
        have hsb :=
          send_buffer_success
            { s.buf with
                count_allocated := sender_active
                data := s.buf.data.set (s.buf.count_allocated &&& count_mask) a
                registered_with_td := true
                count_written := s.buf.count_written + 1 }
            s.buf.max_count s.next_region
            sa_sa_ne_zero
            (by rw [hmc]; exact and_sender_active_of_le hm)
            (by rw [hmax_cm, hmc]; omega)
            (by rw [hmax_cm])
            (by rw [hmax_cm]; exact hcw5)
            rfl
        rw [hsb] at hrun
        simp only [Option.map_some'] at hrun
        cases hrun
        refine ⟨⟨hmc, Nat.zero_le _, rfl, fun h => absurd rfl h⟩, ?_⟩
        intro mb hmb hfl
        simp only [clear_trace, List.mem_append, List.mem_cons, List.not_mem_nil, or_false] at hmb
        rcases hmb with (rfl | rfl | rfl | rfl | rfl) | rfl | rfl | rfl | rfl | rfl | rfl
        exacts [key1, key1, (sa_sa_ne_zero hfl).elim, (sa_sa_ne_zero hfl).elim,
          (sa_sa_ne_zero hfl).elim, (sa_sa_ne_zero hfl).elim, (sa_sa_ne_zero hfl).elim,
          (sa_sa_ne_zero hfl).elim, (sa_sa_ne_zero hfl).elim, (sa_sa_ne_zero hfl).elim, keyC]
      · rename_i hnotfull
        simp only [Option.map_some'] at hrun
        cases hrun
        constructor
        · refine ⟨hmc, hsucc_le, ?_, ?_⟩
          · show s.buf.count_written + 1 = s.buf.count_allocated + 1
            omega
          · intro
            show (if s.buf.count_allocated &&& count_mask = 0 then true
                else s.buf.registered_with_td) = true
            split
            · rfl
            · rename_i hz
              rw [hca_cm] at hz
              exact hreg hz
        · intro mb hmb hfl
          simp only [List.mem_cons, List.not_mem_nil, or_false] at hmb
          rcases hmb with rfl | rfl | rfl | rfl
          exacts [key1, key1, key1, key2]
    · simp at hrun

theorem binv_reach {max_count : Nat} (h0 : 0 < max_count) (hm : max_count ≤ count_mask)
    {s : DestState} (h : Reach max_count s) : BInv max_count s := by
  induction h with
  | init => exact ⟨rfl, Nat.zero_le _, rfl, fun h => absurd rfl h⟩
  | step hre hrun ih => exact (binv_step h0 hm ih hrun).1

/-- C8 (counterexample): the invariant `count_written ≤ (count_allocated &
count_mask)` does NOT hold in every reachable state.  With `max_count = 2`,
after `send 5` and inside the second `send 6`, the full path stores
`sender_active` into `count_allocated` (zeroing the count field) before
incrementing `count_written`; the intermediate state has `count_written = 1`
but count field 0. -/
theorem C8_counterexample :
    Observable 2 c8_bad ∧
    ¬(c8_bad.count_written ≤ c8_bad.count_allocated &&& count_mask ∧
      c8_bad.count_allocated &&& count_mask ≤ c8_bad.max_count) := by
  constructor
  · right
    exact ⟨c8_mid, Op.send 6, _, _,
      @Reach.step 2 (init_state 2) c8_mid (Op.send 5) _ Reach.init rfl, rfl, by decide⟩
  · decide

/-- C8 (amended): in every state reachable by any sequence of `send`, `flush`
and `clear` operations on a message buffer, including every micro state
inside an operation, IF the sender_active bit of `count_allocated` is clear
then `count_written ≤ (count_allocated & count_mask) ≤ max_count`.  (While a
sender holds the buffer, the count field is zeroed and `count_written` may
exceed it, as the counterexample shows.) -/
theorem C8_invariant_flag_clear (max_count : Nat) (h0 : 0 < max_count)
    (hm : max_count ≤ count_mask) (mb : message_buffer)
    (hobs : Observable max_count mb)
    (hflag : mb.count_allocated &&& sender_active = 0) :
    mb.count_written ≤ mb.count_allocated &&& count_mask ∧
    mb.count_allocated &&& count_mask ≤ max_count := by
  rcases hobs with ⟨s, hre, rfl⟩ | ⟨s, op, t, tr, hre, hrun, hmem⟩
  · obtain ⟨hmc, hle, hcw, hreg⟩ := binv_reach h0 hm hre
    rw [and_count_mask_of_le (le_trans hle hm)]
    omega
  · exact (binv_step h0 hm (binv_reach h0 hm hre) hrun).2 mb hmem hflag

/-- C8 (witness): the amended invariant applied at `max_count = 2` to the
observable initial buffer state. -/
theorem C8_witness :
    (init_state 2).buf.count_written ≤ (init_state 2).buf.count_allocated &&& count_mask ∧
    (init_state 2).buf.count_allocated &&& count_mask ≤ 2 :=
  C8_invariant_flag_clear 2 (by decide) (by decide) (init_state 2).buf
    (Or.inl ⟨init_state 2, Reach.init, rfl⟩) (by decide)

theorem countP_mid_swap {α : Type} (p : α → Bool) (l₁ l₂ : List α) (a b : α) :
    (l₁ ++ b :: l₂).countP p + (if p a then 1 else 0) =
      (l₁ ++ a :: l₂).countP p + (if p b then 1 else 0) := by
  rw [countP_mid, countP_mid]
  omega

theorem countP_mid_swap_eq {α : Type} (p : α → Bool) (l₁ l₂ : List α) {a b : α}
    (h : p a = p b) :
    (l₁ ++ b :: l₂).countP p = (l₁ ++ a :: l₂).countP p := by
  have := countP_mid_swap p l₁ l₂ a b
  rw [h] at this
  omega

theorem countP_pos_of_mid {α : Type} (p : α → Bool) (l₁ l₂ : List α) {a : α}
    (h : p a = true) : 0 < (l₁ ++ a :: l₂).countP p := by
  rw [countP_mid, h]
  simp

theorem mem_mid_cases {α : Type} {l₁ l₂ : List α} {b q : α} (hq : q ∈ l₁ ++ b :: l₂) (a : α) :
    q = b ∨ q ∈ l₁ ++ a :: l₂ := by
  rw [List.mem_append, List.mem_cons] at hq
  rcases hq with h | h | h
  · exact Or.inr (List.mem_append.mpr (Or.inl h))
  · exact Or.inl h
  · exact Or.inr (List.mem_append.mpr (Or.inr (List.mem_cons_of_mem _ h)))

theorem cinv_init (mc nsend nflush : Nat) (h0 : 0 < mc) :
    CInv mc (nsend + nflush) (cinit nsend nflush) := by
  have hmem : ∀ pc ∈ (cinit nsend nflush).agents, pc = APC.sSpin ∨ pc = APC.fLoad := by
    intro pc hpc
    simp only [cinit, List.mem_append] at hpc
    rcases hpc with h | h
    · exact Or.inl (List.eq_of_mem_replicate h)
    · exact Or.inr (List.eq_of_mem_replicate h)
  have hz : ∀ p : APC → Bool, p APC.sSpin = false → p APC.fLoad = false →
      (cinit nsend nflush).agents.countP p = 0 := by
    intro p h1 h2
    rw [List.countP_eq_zero]
    intro pc hpc
    rcases hmem pc hpc with rfl | rfl <;> simp [h1, h2]
  refine ⟨?_, ?_, ?_, ?_, ?_, ?_, ?_, ?_, ?_, ?_⟩
  · simp [cinit]
  · intro ev hev; simp [cinit] at hev
  · intro ev hev; simp [cinit] at hev
  · intro g hg; exact absurd hg (by simp [cinit])
  · intro pc hpc g c hql
    rcases hmem pc hpc with rfl | rfl <;> simp [sbLocal] at hql
  · intro pc hpc g c hql
    rcases hmem pc hpc with rfl | rfl <;> simp [trLocal] at hql
  · intro t
    rw [hz (isHolder t) rfl rfl]
    simp [cinit]
  · intro _ hv
    exact absurd hv (by simp [cinit])
  · simp [cinit]
  · left
    refine ⟨rfl, h0, ?_, hz isFullStore rfl rfl, hz isFullTail rfl rfl,
      hz isSbSpinAny rfl rfl, hz isSbClearRegAny rfl rfl, hz isSbClearCWAny rfl rfl,
      hz isSbClearCAAny rfl rfl, ?_, ?_⟩
    · simp [cinit]
    · simp [cinit]
    · rw [hz isHolderAny rfl rfl, hz isPreIncr rfl rfl]
      simp [cinit]

theorem hlen_swap {s : CSt} {l₁ l₂ : List APC} {pc : APC} (hag : s.agents = l₁ ++ pc :: l₂)
    (pc' : APC) {ns : Nat} (h : s.agents.length = ns) : (l₁ ++ pc' :: l₂).length = ns := by
  rw [← h, hag]
  exact length_mid l₁ l₂ pc' pc

theorem ca_flag_clear_O {mc ns : Nat} {s : CSt} (hb : mc + ns ≤ count_mask)
    (hp : PhaseO mc s) : s.ca &&& count_mask = s.ca ∧ s.ca &&& sender_active = 0 := by
  have hle : s.ca ≤ count_mask := le_trans (le_of_lt hp.2.1) (by omega)
  exact ⟨and_count_mask_of_le hle, and_sender_active_of_le hle⟩

theorem ca_flag_clear_W {mc ns : Nat} {s : CSt} (hb : mc + ns ≤ count_mask)
    (hp : PhaseW mc ns s) : s.ca &&& count_mask = s.ca ∧ s.ca &&& sender_active = 0 := by
  have hle : s.ca ≤ count_mask := by
    have h2 := hp.2.1
    omega
  exact ⟨and_count_mask_of_le hle, and_sender_active_of_le hle⟩

theorem ca_flag_set_S {mc ns : Nat} {s : CSt} (hb : mc + ns ≤ count_mask)
    (hp : PhaseS mc ns s) : s.ca &&& sender_active = sender_active := by
  have h1 := hp.1
  have h2 := hp.2.1
  exact and_sa_of_ge h1 (by omega)

theorem sa_pos : 0 < sender_active := by decide

theorem step_neutral_dispatch {mc ns : Nat} {s core : CSt} {l₁ l₂ : List APC}
    {pc pc' : APC}
    (inv : CInv mc ns s) (hag : s.agents = l₁ ++ pc :: l₂)
    (hn : neutralPC pc = true)
    (hstep : astep mc s l₁.length pc = some (core, pc'))
    (hwhich : pc = APC.fLoad ∨ (∃ m, pc = APC.fCheck m) ∨ (∃ m, pc = APC.fStoreLA m) ∨
      (∃ m, pc = APC.fCAS m ∧ s.ca ≠ m) ∨ pc = APC.done) :
    CInv mc ns { core with agents := l₁ ++ pc' :: l₂ } := by
  rcases hwhich with rfl | ⟨m, rfl⟩ | ⟨m, rfl⟩ | ⟨m, rfl, hne⟩ | rfl
  · simp only [astep] at hstep
    cases hstep
    exact cinv_swap_neutral inv hag hn (by rfl) s.la
  · simp only [astep] at hstep
    split at hstep
    · cases hstep
      exact cinv_swap_neutral inv hag hn (by rfl) s.la
    · split at hstep <;> cases hstep <;> exact cinv_swap_neutral inv hag hn (by rfl) s.la
  · simp only [astep] at hstep
    cases hstep
    exact cinv_swap_neutral inv hag hn (by rfl) m
  · simp only [astep] at hstep
    rw [if_neg hne] at hstep
    split at hstep <;> cases hstep <;> exact cinv_swap_neutral inv hag hn (by rfl) s.la
  · simp only [astep] at hstep
    exact absurd hstep (by simp)

theorem countP_snoc_false {α : Type} (p : α → Bool) (l : List α) {a : α}
    (h : p a = false) : (l ++ [a]).countP p = l.countP p := by
  rw [countP_snoc, h]
  simp

theorem countP_snoc_true {α : Type} (p : α → Bool) (l : List α) {a : α}
    (h : p a = true) : (l ++ [a]).countP p = l.countP p + 1 := by
  rw [countP_snoc, h]
  simp

theorem no_sb_of_zero {s : CSt} (h6 : s.agents.countP isSbSpinAny = 0)
    (h7 : s.agents.countP isSbClearRegAny = 0) (h8 : s.agents.countP isSbClearCWAny = 0)
    (h9 : s.agents.countP isSbClearCAAny = 0) :
    ∀ q ∈ s.agents, ∀ g c, sbLocal q = some (g, c) → False := by
  rw [List.countP_eq_zero] at h6 h7 h8 h9
  intro q hq g c hql
  cases q <;> simp [sbLocal] at hql <;>
    first
      | exact (by simpa [isSbSpinAny] using h6 _ hq)
      | exact (by simpa [isSbClearRegAny] using h7 _ hq)
      | exact (by simpa [isSbClearCWAny] using h8 _ hq)
      | exact (by simpa [isSbClearCAAny] using h9 _ hq)

theorem SPos_transport {s t : CSt}
    (hreg : t.reg = s.reg) (hgen : t.gen = s.gen) (hcw : t.cw = s.cw)
    (hvalid : t.valid = s.valid)
    (hne : t.evs.countP (isNotifyEv s.gen) = s.evs.countP (isNotifyEv s.gen))
    (h1 : t.agents.countP isFullTail = s.agents.countP isFullTail)
    (h2 : t.agents.countP isSbSpinAny = s.agents.countP isSbSpinAny)
    (h3 : t.agents.countP isSbClearRegAny = s.agents.countP isSbClearRegAny)
    (h4 : t.agents.countP isSbClearCWAny = s.agents.countP isSbClearCWAny)
    (h5 : t.agents.countP isSbClearCAAny = s.agents.countP isSbClearCAAny)
    (h6 : t.agents.countP isHolderAny = s.agents.countP isHolderAny)
    (h7 : t.agents.countP isPreIncr = s.agents.countP isPreIncr)
    (hp : SPos s) : SPos t := by
  unfold SPos at hp ⊢
  rw [hreg, hgen, hcw, hvalid, hne, h1, h2, h3, h4, h5, h6, h7]
  exact hp

theorem step_sSpin {mc ns : Nat} (hb : mc + ns ≤ count_mask) {s core : CSt}
    {l₁ l₂ : List APC} {pc' : APC}
    (inv : CInv mc ns s) (hag : s.agents = l₁ ++ APC.sSpin :: l₂)
    (hstep : astep mc s l₁.length APC.sSpin = some (core, pc')) :
    CInv mc ns { core with agents := l₁ ++ pc' :: l₂ } := by
  simp only [astep] at hstep
  split at hstep
  · cases hstep
    rename_i hopen
    have hO : PhaseO mc s := by
      rcases inv.hphase with hp | hp | hp
      · exact hp
      · exfalso
        have := (ca_flag_clear_W hb hp).1
        rw [this] at hopen
        exact absurd hopen.1 (not_lt.mpr hp.1)
      · exfalso
        have := ca_flag_set_S hb hp
        rw [hopen.2] at this
        exact absurd this (by decide)
    have hEq : ∀ p : APC → Bool, p APC.sSpin = p APC.sPassed →
        (l₁ ++ APC.sPassed :: l₂).countP p = s.agents.countP p := by
      intro p h
      rw [hag]
      exact countP_mid_swap_eq p l₁ l₂ h
    have hmem : ∀ q ∈ l₁ ++ APC.sPassed :: l₂, q = APC.sPassed ∨ q ∈ s.agents := by
      intro q hq
      rcases mem_mid_cases hq APC.sSpin with h | h
      · exact Or.inl h
      · exact Or.inr (hag ▸ h)
    refine ⟨hlen_swap hag _ inv.hlen, inv.hev_le, inv.hev_tr, ?_, ?_, ?_, ?_, ?_, inv.hvalid, ?_⟩
    · intro g hg
      obtain ⟨a, b, c, d⟩ := inv.hist g hg
      exact ⟨a, b, by rw [hEq (isSbTransmit g) rfl]; exact c, d⟩
    · intro q hq g c hql
      rcases hmem q hq with rfl | h
      · simp [sbLocal] at hql
      · exact inv.hsb q h g c hql
    · intro q hq g c hql
      rcases hmem q hq with rfl | h
      · simp [trLocal] at hql
      · exact inv.htr q h g c hql
    · intro t
      rw [hEq (isHolder t) rfl]
      exact inv.hslot t
    · intro hr hv h1 h2 h3
      rw [hEq isSbClearRegAny rfl] at h1
      rw [hEq isSbClearCWAny rfl] at h2
      rw [hEq isSbClearCAAny rfl] at h3
      rw [hEq (isHolder 0) rfl, hEq isReg0 rfl, hEq isFullStore rfl, hEq isFullReg rfl]
      exact inv.hreg0 hr hv h1 h2 h3
    · left
      obtain ⟨a1, a2, a3, a4, a5, a6, a7, a8, a9, a10, a11⟩ := hO
      exact ⟨a1, a2, a3,
        by rw [hEq isFullStore rfl]; exact a4,
        by rw [hEq isFullTail rfl]; exact a5,
        by rw [hEq isSbSpinAny rfl]; exact a6,
        by rw [hEq isSbClearRegAny rfl]; exact a7,
        by rw [hEq isSbClearCWAny rfl]; exact a8,
        by rw [hEq isSbClearCAAny rfl]; exact a9,
        a10,
        by rw [hEq isHolderAny rfl, hEq isPreIncr rfl]; exact a11⟩
  · exact absurd hstep (by simp)

theorem step_sPassed {mc ns : Nat} (hb : mc + ns ≤ count_mask) {s core : CSt}
    {l₁ l₂ : List APC} {pc' : APC}
    (inv : CInv mc ns s) (hag : s.agents = l₁ ++ APC.sPassed :: l₂)
    (hstep : astep mc s l₁.length APC.sPassed = some (core, pc')) :
    CInv mc ns { core with agents := l₁ ++ pc' :: l₂ } := by
  have hPpos : 0 < s.agents.countP isPassed := by
    rw [hag]; exact countP_pos_of_mid isPassed l₁ l₂ rfl
  have hPns : s.agents.countP isPassed ≤ ns :=
    le_trans (List.countP_le_length _) (le_of_eq inv.hlen)
  simp only [astep] at hstep
  split at hstep
  case isTrue hflag =>
    -- losing fetch_add: the flag was set; back to the spin loop
    cases hstep
    have hS : PhaseS mc ns s := by
      rcases inv.hphase with hp | hp | hp
      · exact absurd (ca_flag_clear_O hb hp).2 hflag
      · exact absurd (ca_flag_clear_W hb hp).2 hflag
      · exact hp
    have hEq : ∀ p : APC → Bool, p APC.sPassed = p APC.sSpin →
        (l₁ ++ APC.sSpin :: l₂).countP p = s.agents.countP p := fun p h => by
      rw [hag]; exact countP_mid_swap_eq p l₁ l₂ h
    have hPd : (l₁ ++ APC.sSpin :: l₂).countP isPassed + 1 = s.agents.countP isPassed := by
      rw [hag, countP_mid, countP_mid]
      simp [isPassed]
    have hmem : ∀ q ∈ l₁ ++ APC.sSpin :: l₂, q = APC.sSpin ∨ q ∈ s.agents := fun q hq => by
      rcases mem_mid_cases hq APC.sPassed with h | h
      · exact Or.inl h
      · exact Or.inr (hag ▸ h)
    refine ⟨hlen_swap hag _ inv.hlen, inv.hev_le, inv.hev_tr, ?_, ?_, ?_, ?_, ?_, inv.hvalid, ?_⟩
    · intro g hg
      obtain ⟨a, b, c, d⟩ := inv.hist g hg
      exact ⟨a, b, by rw [hEq (isSbTransmit g) rfl]; exact c, d⟩
    · intro q hq g c hql
      rcases hmem q hq with rfl | h
      · simp [sbLocal] at hql
      · exact inv.hsb q h g c hql
    · intro q hq g c hql
      rcases hmem q hq with rfl | h
      · simp [trLocal] at hql
      · exact inv.htr q h g c hql
    · intro t
      rw [hEq (isHolder t) rfl]
      exact inv.hslot t
    · intro hr hv h1 h2 h3
      rw [hEq isSbClearRegAny rfl] at h1
      rw [hEq isSbClearCWAny rfl] at h2
      rw [hEq isSbClearCAAny rfl] at h3
      rw [hEq (isHolder 0) rfl, hEq isReg0 rfl, hEq isFullStore rfl, hEq isFullReg rfl]
      exact inv.hreg0 hr hv h1 h2 h3
    · right; right
      obtain ⟨a1, a2, a3, a4, a4b, a5⟩ := hS
      have ha3 : (s.evs.countP (isFullwinEv s.gen) = 1 ∧
          s.evs.countP (isStealEv s.gen) = 0 ∧ s.valid = mc) ∨
          (s.evs.countP (isFullwinEv s.gen) = 0 ∧ s.evs.countP (isStealEv s.gen) = 1 ∧
          0 < s.valid ∧ s.valid < mc ∧
          (l₁ ++ APC.sSpin :: l₂).countP isFullTail = 0) := by
        rcases a3 with ⟨c1, c2, c3⟩ | ⟨c1, c2, c3, c4, c5⟩
        · exact Or.inl ⟨c1, c2, c3⟩
        · exact Or.inr ⟨c1, c2, c3, c4, by rw [hEq isFullTail rfl]; exact c5⟩
      refine ⟨le_trans a1 (Nat.le_succ _), ?_,
        ha3, by rw [hEq isFullStore rfl]; exact a4,
        by rw [hEq (isHolder (mc - 1)) rfl]; exact a4b, ?_⟩
      · show s.ca + 1 + (l₁ ++ APC.sSpin :: l₂).countP isPassed ≤ sender_active + ns
        omega
      · exact SPos_transport (s := s) rfl rfl rfl rfl rfl (hEq isFullTail rfl)
          (hEq isSbSpinAny rfl)
          (hEq isSbClearRegAny rfl) (hEq isSbClearCWAny rfl) (hEq isSbClearCAAny rfl)
          (hEq isHolderAny rfl) (hEq isPreIncr rfl) a5
  case isFalse hflag =>
  have hflag0 : s.ca &&& sender_active = 0 := not_not.mp hflag
  split at hstep
  case isTrue hge =>
    -- losing fetch_add: the count field was already at capacity; back to the spin loop
    cases hstep
    have hW : PhaseW mc ns s := by
      rcases inv.hphase with hp | hp | hp
      · exfalso
        rw [(ca_flag_clear_O hb hp).1] at hge
        exact absurd hp.2.1 (not_lt.mpr hge)
      · exact hp
      · exfalso
        rw [ca_flag_set_S hb hp] at hflag0
        exact absurd hflag0 (by decide)
    have hEq : ∀ p : APC → Bool, p APC.sPassed = p APC.sSpin →
        (l₁ ++ APC.sSpin :: l₂).countP p = s.agents.countP p := fun p h => by
      rw [hag]; exact countP_mid_swap_eq p l₁ l₂ h
    have hPd : (l₁ ++ APC.sSpin :: l₂).countP isPassed + 1 = s.agents.countP isPassed := by
      rw [hag, countP_mid, countP_mid]
      simp [isPassed]
    have hmem : ∀ q ∈ l₁ ++ APC.sSpin :: l₂, q = APC.sSpin ∨ q ∈ s.agents := fun q hq => by
      rcases mem_mid_cases hq APC.sPassed with h | h
      · exact Or.inl h
      · exact Or.inr (hag ▸ h)
    refine ⟨hlen_swap hag _ inv.hlen, inv.hev_le, inv.hev_tr, ?_, ?_, ?_, ?_, ?_, inv.hvalid, ?_⟩
    · intro g hg
      obtain ⟨a, b, c, d⟩ := inv.hist g hg
      exact ⟨a, b, by rw [hEq (isSbTransmit g) rfl]; exact c, d⟩
    · intro q hq g c hql
      rcases hmem q hq with rfl | h
      · simp [sbLocal] at hql
      · exact inv.hsb q h g c hql
    · intro q hq g c hql
      rcases hmem q hq with rfl | h
      · simp [trLocal] at hql
      · exact inv.htr q h g c hql
    · intro t
      rw [hEq (isHolder t) rfl]
      exact inv.hslot t
    · intro hr hv h1 h2 h3
      rw [hEq isSbClearRegAny rfl] at h1
      rw [hEq isSbClearCWAny rfl] at h2
      rw [hEq isSbClearCAAny rfl] at h3
      rw [hEq (isHolder 0) rfl, hEq isReg0 rfl, hEq isFullStore rfl, hEq isFullReg rfl]
      exact inv.hreg0 hr hv h1 h2 h3
    · right; left
      obtain ⟨a1, a2, a3, a4, a5, a6, a7, a8, a9, a10, a11, a12, a13⟩ := hW
      refine ⟨le_trans a1 (Nat.le_succ _), ?_, a3, a4, a5,
        by rw [hEq isFullStore rfl, hEq (isHolder (mc - 1)) rfl]; exact a6,
        by rw [hEq isFullTail rfl]; exact a7,
        by rw [hEq isSbSpinAny rfl]; exact a8,
        by rw [hEq isSbClearRegAny rfl]; exact a9,
        by rw [hEq isSbClearCWAny rfl]; exact a10,
        by rw [hEq isSbClearCAAny rfl]; exact a11,
        a12,
        by rw [hEq isHolderAny rfl, hEq isPreIncr rfl]; exact a13⟩
      show s.ca + 1 + (l₁ ++ APC.sSpin :: l₂).countP isPassed ≤ mc + ns
      omega
  case isFalse hge =>
  split at hstep
  case isTrue hwin =>
    -- winning fetch_add of the last slot: the full path is claimed
    cases hstep
    have hO : PhaseO mc s := by
      rcases inv.hphase with hp | hp | hp
      · exact hp
      · exfalso
        rw [(ca_flag_clear_W hb hp).1] at hge
        exact hge hp.1
      · exfalso
        rw [ca_flag_set_S hb hp] at hflag0
        exact absurd hflag0 (by decide)
    have hmc0 : 0 < mc := lt_of_le_of_lt (Nat.zero_le _) hO.2.1
    have hca_cm : s.ca &&& count_mask = s.ca := (ca_flag_clear_O hb hO).1
    have hca_eq : s.ca = mc - 1 := by rw [← hca_cm]; exact hwin
    have hvalid_eq : s.valid = s.ca := hO.1.symm
    have hEq : ∀ p : APC → Bool, p APC.sPassed = p (APC.sWrite s.ca) →
        (l₁ ++ APC.sWrite s.ca :: l₂).countP p = s.agents.countP p := fun p h => by
      rw [hag]; exact countP_mid_swap_eq p l₁ l₂ h
    have hPd : (l₁ ++ APC.sWrite s.ca :: l₂).countP isPassed + 1 =
        s.agents.countP isPassed := by
      rw [hag, countP_mid, countP_mid]
      simp [isPassed]
    have hHol : ∀ t, (l₁ ++ APC.sWrite s.ca :: l₂).countP (isHolder t) =
        s.agents.countP (isHolder t) + (if s.ca = t then 1 else 0) := by
      intro t
      rw [hag, countP_mid, countP_mid]
      by_cases h : s.ca = t
      · subst h
        simp [isHolder]
      · simp [isHolder, h]
    have hHolAny : (l₁ ++ APC.sWrite s.ca :: l₂).countP isHolderAny =
        s.agents.countP isHolderAny + 1 := by
      rw [hag, countP_mid, countP_mid]
      simp [isHolderAny, isPassed]
    have hmem : ∀ q ∈ l₁ ++ APC.sWrite s.ca :: l₂, q = APC.sWrite s.ca ∨ q ∈ s.agents :=
      fun q hq => by
      rcases mem_mid_cases hq APC.sPassed with h | h
      · exact Or.inl h
      · exact Or.inr (hag ▸ h)
    obtain ⟨o1, o2, o3, o4, o5, o6, o7, o8, o9, o10, o11⟩ := hO
    have hsplit := countP_sender_split s.gen s.evs
    refine ⟨hlen_swap hag _ inv.hlen, ?_, ?_, ?_, ?_, ?_, ?_, ?_, ?_, ?_⟩
    · intro ev hev
      rw [List.mem_append] at hev
      rcases hev with h | h
      · exact inv.hev_le ev h
      · simp at h; subst h; simp [evGen]
    · intro ev hev
      rw [List.mem_append] at hev
      rcases hev with h | h
      · exact inv.hev_tr ev h
      · simp at h; subst h; simp [isTransmitAny]
    · intro g hg
      have hg2 : g < s.gen := hg
      obtain ⟨a, b, c, d⟩ := inv.hist g hg2
      have hgb : (s.gen == g) = false := beq_eq_false_iff_ne.mpr (by omega)
      refine ⟨?_, ?_, ?_, ?_⟩
      · show (s.evs ++ [Ev.fullwin s.gen l₁.length]).countP (isSenderEv g) = 1
        rw [countP_snoc_false _ _ (by simp only [isSenderEv]; exact hgb)]
        exact a
      · show (s.evs ++ [Ev.fullwin s.gen l₁.length]).countP (isNotifyEv g) = 1
        rw [countP_snoc_false _ _ (by simp only [isNotifyEv])]
        exact b
      · show (s.evs ++ [Ev.fullwin s.gen l₁.length]).countP (isTransmitEv g) +
            (l₁ ++ APC.sWrite s.ca :: l₂).countP (isSbTransmit g) = 1
        rw [countP_snoc_false _ _ (by simp only [isTransmitEv]),
          hEq (isSbTransmit g) rfl]
        exact c
      · intro t
        show (s.evs ++ [Ev.fullwin s.gen l₁.length]).countP (isWriteEv g t) ≤ 1
        rw [countP_snoc_false _ _ (by simp only [isWriteEv])]
        exact d t
    · intro q hq g c hql
      rcases hmem q hq with rfl | h
      · simp [sbLocal] at hql
      · exact absurd (no_sb_of_zero o6 o7 o8 o9 q h g c hql) not_false
    · intro q hq g c hql
      rcases hmem q hq with rfl | h
      · simp [trLocal] at hql
      · exact inv.htr q h g c hql
    · intro t
      show (s.evs ++ [Ev.fullwin s.gen l₁.length]).countP (isWriteEv s.gen t) +
          (l₁ ++ APC.sWrite s.ca :: l₂).countP (isHolder t) =
          (if t < s.valid + 1 then 1 else 0)
      rw [countP_snoc_false _ _ (by simp only [isWriteEv]), hHol t]
      by_cases h : s.ca = t
      · subst h
        have hold := inv.hslot s.ca
        rw [if_neg (by omega : ¬(s.ca < s.valid))] at hold
        rw [if_pos rfl, if_pos (by omega : s.ca < s.valid + 1)]
        omega
      · rw [if_neg h]
        have hold := inv.hslot t
        by_cases ht : t < s.valid
        · rw [if_pos ht] at hold
          rw [if_pos (by omega : t < s.valid + 1)]
          omega
        · rw [if_neg ht] at hold
          rw [if_neg (by omega : ¬(t < s.valid + 1))]
          omega
    · intro hr hv h1 h2 h3
      have hr2 : s.reg = false := hr
      have h1b : (l₁ ++ APC.sWrite s.ca :: l₂).countP isSbClearRegAny = 0 := h1
      have h2b : (l₁ ++ APC.sWrite s.ca :: l₂).countP isSbClearCWAny = 0 := h2
      have h3b : (l₁ ++ APC.sWrite s.ca :: l₂).countP isSbClearCAAny = 0 := h3
      rw [hEq isSbClearRegAny rfl] at h1b
      rw [hEq isSbClearCWAny rfl] at h2b
      rw [hEq isSbClearCAAny rfl] at h3b
      show 0 < (l₁ ++ APC.sWrite s.ca :: l₂).countP (isHolder 0) +
          (l₁ ++ APC.sWrite s.ca :: l₂).countP isReg0 +
          (l₁ ++ APC.sWrite s.ca :: l₂).countP isFullStore +
          (l₁ ++ APC.sWrite s.ca :: l₂).countP isFullReg
      rw [hHol 0, hEq isReg0 rfl, hEq isFullStore rfl, hEq isFullReg rfl]
      by_cases h : s.ca = 0
      · simp [h]
      · have hv2 : 0 < s.valid := by omega
        have := inv.hreg0 hr2 hv2 h1b h2b h3b
        omega
    · show s.valid + 1 ≤ mc
      omega
    · right; left
      refine ⟨?_, ?_, ?_, ?_, ?_, ?_, ?_, ?_, ?_, ?_, ?_, ?_, ?_⟩
      · show mc ≤ s.ca + 1
        omega
      · show s.ca + 1 + (l₁ ++ APC.sWrite s.ca :: l₂).countP isPassed ≤ mc + ns
        omega
      · show s.valid + 1 = mc
        omega
      · show (s.evs ++ [Ev.fullwin s.gen l₁.length]).countP (isFullwinEv s.gen) = 1
        rw [countP_snoc_true _ _ (by simp only [isFullwinEv]; exact beq_self_eq_true s.gen)]
        omega
      · show (s.evs ++ [Ev.fullwin s.gen l₁.length]).countP (isStealEv s.gen) = 0
        rw [countP_snoc_false _ _ (by simp only [isStealEv])]
        omega
      · show (l₁ ++ APC.sWrite s.ca :: l₂).countP isFullStore +
            (l₁ ++ APC.sWrite s.ca :: l₂).countP (isHolder (mc - 1)) = 1
        rw [hEq isFullStore rfl, hHol (mc - 1)]
        have hmt := inv.hslot (mc - 1)
        rw [if_neg (by omega : ¬(mc - 1 < s.valid))] at hmt
        rw [if_pos hca_eq]
        omega
      · show (l₁ ++ APC.sWrite s.ca :: l₂).countP isFullTail = 0
        rw [hEq isFullTail rfl]; exact o5
      · show (l₁ ++ APC.sWrite s.ca :: l₂).countP isSbSpinAny = 0
        rw [hEq isSbSpinAny rfl]; exact o6
      · show (l₁ ++ APC.sWrite s.ca :: l₂).countP isSbClearRegAny = 0
        rw [hEq isSbClearRegAny rfl]; exact o7
      · show (l₁ ++ APC.sWrite s.ca :: l₂).countP isSbClearCWAny = 0
        rw [hEq isSbClearCWAny rfl]; exact o8
      · show (l₁ ++ APC.sWrite s.ca :: l₂).countP isSbClearCAAny = 0
        rw [hEq isSbClearCAAny rfl]; exact o9
      · show (s.evs ++ [Ev.fullwin s.gen l₁.length]).countP (isNotifyEv s.gen) =
            (if s.reg then 1 else 0)
        rw [countP_snoc_false _ _ (by simp only [isNotifyEv])]
        exact o10
      · show s.cw + (l₁ ++ APC.sWrite s.ca :: l₂).countP isHolderAny +
            (l₁ ++ APC.sWrite s.ca :: l₂).countP isPreIncr = s.valid + 1
        rw [hHolAny, hEq isPreIncr rfl]
        omega
  case isFalse hwin =>
    -- winning fetch_add of an ordinary slot
    cases hstep
    have hO : PhaseO mc s := by
      rcases inv.hphase with hp | hp | hp
      · exact hp
      · exfalso
        rw [(ca_flag_clear_W hb hp).1] at hge
        exact hge hp.1
      · exfalso
        rw [ca_flag_set_S hb hp] at hflag0
        exact absurd hflag0 (by decide)
    have hca_cm : s.ca &&& count_mask = s.ca := (ca_flag_clear_O hb hO).1
    have hca_ne : ¬s.ca = mc - 1 := by rw [← hca_cm]; exact hwin
    have hca_lt : s.ca < mc := hO.2.1
    have hvalid_eq : s.valid = s.ca := hO.1.symm
    have hEq : ∀ p : APC → Bool, p APC.sPassed = p (APC.sWrite s.ca) →
        (l₁ ++ APC.sWrite s.ca :: l₂).countP p = s.agents.countP p := fun p h => by
      rw [hag]; exact countP_mid_swap_eq p l₁ l₂ h
    have hPd : (l₁ ++ APC.sWrite s.ca :: l₂).countP isPassed + 1 =
        s.agents.countP isPassed := by
      rw [hag, countP_mid, countP_mid]
      simp [isPassed]
    have hHol : ∀ t, (l₁ ++ APC.sWrite s.ca :: l₂).countP (isHolder t) =
        s.agents.countP (isHolder t) + (if s.ca = t then 1 else 0) := by
      intro t
      rw [hag, countP_mid, countP_mid]
      by_cases h : s.ca = t
      · subst h
        simp [isHolder]
      · simp [isHolder, h]
    have hHolAny : (l₁ ++ APC.sWrite s.ca :: l₂).countP isHolderAny =
        s.agents.countP isHolderAny + 1 := by
      rw [hag, countP_mid, countP_mid]
      simp [isHolderAny, isPassed]
    have hmem : ∀ q ∈ l₁ ++ APC.sWrite s.ca :: l₂, q = APC.sWrite s.ca ∨ q ∈ s.agents :=
      fun q hq => by
      rcases mem_mid_cases hq APC.sPassed with h | h
      · exact Or.inl h
      · exact Or.inr (hag ▸ h)
    obtain ⟨o1, o2, o3, o4, o5, o6, o7, o8, o9, o10, o11⟩ := hO
    refine ⟨hlen_swap hag _ inv.hlen, inv.hev_le, inv.hev_tr, ?_, ?_, ?_, ?_, ?_, ?_, ?_⟩
    · intro g hg
      have hg2 : g < s.gen := hg
      obtain ⟨a, b, c, d⟩ := inv.hist g hg2
      exact ⟨a, b, by
        show s.evs.countP (isTransmitEv g) +
          (l₁ ++ APC.sWrite s.ca :: l₂).countP (isSbTransmit g) = 1
        rw [hEq (isSbTransmit g) rfl]; exact c, d⟩
    · intro q hq g c hql
      rcases hmem q hq with rfl | h
      · simp [sbLocal] at hql
      · exact absurd (no_sb_of_zero o6 o7 o8 o9 q h g c hql) not_false
    · intro q hq g c hql
      rcases hmem q hq with rfl | h
      · simp [trLocal] at hql
      · exact inv.htr q h g c hql
    · intro t
      show s.evs.countP (isWriteEv s.gen t) +
          (l₁ ++ APC.sWrite s.ca :: l₂).countP (isHolder t) =
          (if t < s.valid + 1 then 1 else 0)
      rw [hHol t]
      by_cases h : s.ca = t
      · subst h
        have hold := inv.hslot s.ca
        rw [if_neg (by omega : ¬(s.ca < s.valid))] at hold
        rw [if_pos rfl, if_pos (by omega : s.ca < s.valid + 1)]
        omega
      · rw [if_neg h]
        have hold := inv.hslot t
        by_cases ht : t < s.valid
        · rw [if_pos ht] at hold
          rw [if_pos (by omega : t < s.valid + 1)]
          omega
        · rw [if_neg ht] at hold
          rw [if_neg (by omega : ¬(t < s.valid + 1))]
          omega
    · intro hr hv h1 h2 h3
      have hr2 : s.reg = false := hr
      have h1b : (l₁ ++ APC.sWrite s.ca :: l₂).countP isSbClearRegAny = 0 := h1
      have h2b : (l₁ ++ APC.sWrite s.ca :: l₂).countP isSbClearCWAny = 0 := h2
      have h3b : (l₁ ++ APC.sWrite s.ca :: l₂).countP isSbClearCAAny = 0 := h3
      rw [hEq isSbClearRegAny rfl] at h1b
      rw [hEq isSbClearCWAny rfl] at h2b
      rw [hEq isSbClearCAAny rfl] at h3b
      show 0 < (l₁ ++ APC.sWrite s.ca :: l₂).countP (isHolder 0) +
          (l₁ ++ APC.sWrite s.ca :: l₂).countP isReg0 +
          (l₁ ++ APC.sWrite s.ca :: l₂).countP isFullStore +
          (l₁ ++ APC.sWrite s.ca :: l₂).countP isFullReg
      rw [hHol 0, hEq isReg0 rfl, hEq isFullStore rfl, hEq isFullReg rfl]
      by_cases h : s.ca = 0
      · simp [h]
      · have hv2 : 0 < s.valid := by omega
        have := inv.hreg0 hr2 hv2 h1b h2b h3b
        omega
    · show s.valid + 1 ≤ mc
      omega
    · left
      refine ⟨?_, ?_, o3, ?_, ?_, ?_, ?_, ?_, ?_, o10, ?_⟩
      · show s.ca + 1 = s.valid + 1
        omega
      · show s.ca + 1 < mc
        omega
      · show (l₁ ++ APC.sWrite s.ca :: l₂).countP isFullStore = 0
        rw [hEq isFullStore rfl]; exact o4
      · show (l₁ ++ APC.sWrite s.ca :: l₂).countP isFullTail = 0
        rw [hEq isFullTail rfl]; exact o5
      · show (l₁ ++ APC.sWrite s.ca :: l₂).countP isSbSpinAny = 0
        rw [hEq isSbSpinAny rfl]; exact o6
      · show (l₁ ++ APC.sWrite s.ca :: l₂).countP isSbClearRegAny = 0
        rw [hEq isSbClearRegAny rfl]; exact o7
      · show (l₁ ++ APC.sWrite s.ca :: l₂).countP isSbClearCWAny = 0
        rw [hEq isSbClearCWAny rfl]; exact o8
      · show (l₁ ++ APC.sWrite s.ca :: l₂).countP isSbClearCAAny = 0
        rw [hEq isSbClearCAAny rfl]; exact o9
      · show s.cw + (l₁ ++ APC.sWrite s.ca :: l₂).countP isHolderAny +
            (l₁ ++ APC.sWrite s.ca :: l₂).countP isPreIncr = s.valid + 1
        rw [hHolAny, hEq isPreIncr rfl]
        omega

theorem countP_le_countP {α : Type} {p q : α → Bool} (l : List α)
    (h : ∀ a, p a = true → q a = true) : l.countP p ≤ l.countP q := by
  induction l with
  | nil => simp
  | cons x l ih =>
    rw [List.countP_cons, List.countP_cons]
    have h1 : (if p x then 1 else 0) ≤ (if q x then 1 else 0) := by
      by_cases hx : p x = true
      · rw [if_pos hx, if_pos (h x hx)]
      · rw [if_neg hx]
        omega
    omega

theorem holder_le_holderAny (m : Nat) (l : List APC) :
    l.countP (isHolder m) ≤ l.countP isHolderAny :=
  countP_le_countP l (fun a ha => by cases a <;> simp_all [isHolder, isHolderAny])

theorem step_sWrite_nonfull {mc ns : Nat} {s : CSt} {l₁ l₂ : List APC} {m : Nat} {pc' : APC}
    (inv : CInv mc ns s) (hag : s.agents = l₁ ++ APC.sWrite m :: l₂)
    (hnf : ¬m = mc - 1)
    (hpc : (m = 0 ∧ pc' = APC.sReg0) ∨ (¬m = 0 ∧ pc' = APC.sIncr))
    (hmval : m < s.valid)
    (hholm1 : s.agents.countP (isHolder m) = 1) :
    CInv mc ns { s with
      evs := s.evs ++ [Ev.write s.gen m l₁.length]
      agents := l₁ ++ pc' :: l₂ } := by
  have hpcf : isPassed pc' = false ∧ (∀ t, isHolder t pc' = false) ∧
      isHolderAny pc' = false ∧ isPreIncr pc' = true ∧ isFullStore pc' = false ∧
      isFullTail pc' = false ∧ isFullReg pc' = false ∧ isSbSpinAny pc' = false ∧
      isSbClearRegAny pc' = false ∧ isSbClearCWAny pc' = false ∧
      isSbClearCAAny pc' = false ∧ (∀ g, isSbTransmit g pc' = false) ∧
      sbLocal pc' = none ∧ trLocal pc' = none := by
    rcases hpc with ⟨_, rfl⟩ | ⟨_, rfl⟩ <;>
      exact ⟨rfl, fun t => rfl, rfl, rfl, rfl, rfl, rfl, rfl, rfl, rfl, rfl,
        fun g => rfl, rfl, rfl⟩
  obtain ⟨f1, f2, f3, f4, f5, f6, f7, f8, f9, f10, f11, f12, f13, f14⟩ := hpcf
  have hEq : ∀ p : APC → Bool, p (APC.sWrite m) = false → p pc' = false →
      (l₁ ++ pc' :: l₂).countP p = s.agents.countP p := by
    intro p h1 h2
    rw [hag, countP_mid, countP_mid, h1, h2]
  have hHol : ∀ t, (l₁ ++ pc' :: l₂).countP (isHolder t) +
      (if m = t then 1 else 0) = s.agents.countP (isHolder t) := by
    intro t
    rw [hag, countP_mid, countP_mid, f2 t]
    by_cases h : m = t
    · subst h
      simp [isHolder]
    · simp [isHolder, h]
  have hHolAny : (l₁ ++ pc' :: l₂).countP isHolderAny + 1 =
      s.agents.countP isHolderAny := by
    rw [hag, countP_mid, countP_mid, f3]
    simp [isHolderAny]
  have hPre : (l₁ ++ pc' :: l₂).countP isPreIncr = s.agents.countP isPreIncr + 1 := by
    rw [hag, countP_mid, countP_mid, f4]
    simp [isPreIncr]
  have hR0 : (l₁ ++ pc' :: l₂).countP isReg0 =
      s.agents.countP isReg0 + (if m = 0 then 1 else 0) := by
    rcases hpc with ⟨h0, rfl⟩ | ⟨h0, rfl⟩
    · rw [hag, countP_mid, countP_mid, if_pos h0]
      simp [isReg0]
    · rw [hag, countP_mid, countP_mid, if_neg h0]
      simp [isReg0]
  have hmem : ∀ q ∈ l₁ ++ pc' :: l₂, q = pc' ∨ q ∈ s.agents := fun q hq => by
    rcases mem_mid_cases hq (APC.sWrite m) with h | h
    · exact Or.inl h
    · exact Or.inr (hag ▸ h)
  have hholAny_pos : 0 < s.agents.countP isHolderAny := by
    have := holder_le_holderAny m s.agents
    omega
  refine ⟨hlen_swap hag _ inv.hlen, ?_, ?_, ?_, ?_, ?_, ?_, ?_, inv.hvalid, ?_⟩
  · intro ev hev
    rw [List.mem_append] at hev
    rcases hev with h | h
    · exact inv.hev_le ev h
    · simp at h; subst h; simp [evGen]
  · intro ev hev
    rw [List.mem_append] at hev
    rcases hev with h | h
    · exact inv.hev_tr ev h
    · simp at h; subst h; simp [isTransmitAny]
  · intro g hg
    have hg2 : g < s.gen := hg
    have hgb : (s.gen == g) = false := beq_eq_false_iff_ne.mpr (by omega)
    obtain ⟨a, b, c, d⟩ := inv.hist g hg2
    refine ⟨?_, ?_, ?_, ?_⟩
    · show (s.evs ++ [Ev.write s.gen m l₁.length]).countP (isSenderEv g) = 1
      rw [countP_snoc_false _ _ (by simp only [isSenderEv])]
      exact a
    · show (s.evs ++ [Ev.write s.gen m l₁.length]).countP (isNotifyEv g) = 1
      rw [countP_snoc_false _ _ (by simp only [isNotifyEv])]
      exact b
    · show (s.evs ++ [Ev.write s.gen m l₁.length]).countP (isTransmitEv g) +
          (l₁ ++ pc' :: l₂).countP (isSbTransmit g) = 1
      rw [countP_snoc_false _ _ (by simp only [isTransmitEv]),
        hEq (isSbTransmit g) rfl (f12 g)]
      exact c
    · intro t
      show (s.evs ++ [Ev.write s.gen m l₁.length]).countP (isWriteEv g t) ≤ 1
      rw [countP_snoc_false _ _ (by simp only [isWriteEv, hgb, Bool.false_and])]
      exact d t
  · intro q hq g c hql
    rcases hmem q hq with rfl | h
    · rw [f13] at hql
      exact absurd hql (by simp)
    · exact inv.hsb q h g c hql
  · intro q hq g c hql
    rcases hmem q hq with rfl | h
    · rw [f14] at hql
      exact absurd hql (by simp)
    · exact inv.htr q h g c hql
  · intro t
    show (s.evs ++ [Ev.write s.gen m l₁.length]).countP (isWriteEv s.gen t) +
        (l₁ ++ pc' :: l₂).countP (isHolder t) = (if t < s.valid then 1 else 0)
    have h2 := hHol t
    have h3 := inv.hslot t
    by_cases h : m = t
    · subst h
      rw [countP_snoc_true _ _ (by simp [isWriteEv])]
      rw [if_pos rfl] at h2
      omega
    · rw [countP_snoc_false _ _ (by simp [isWriteEv, h])]
      rw [if_neg h] at h2
      omega
  · intro hr hv h1 h2 h3
    have hr2 : s.reg = false := hr
    have hv2 : 0 < s.valid := hv
    have h1b : (l₁ ++ pc' :: l₂).countP isSbClearRegAny = 0 := h1
    have h2b : (l₁ ++ pc' :: l₂).countP isSbClearCWAny = 0 := h2
    have h3b : (l₁ ++ pc' :: l₂).countP isSbClearCAAny = 0 := h3
    rw [hEq isSbClearRegAny rfl f9] at h1b
    rw [hEq isSbClearCWAny rfl f10] at h2b
    rw [hEq isSbClearCAAny rfl f11] at h3b
    have hq := inv.hreg0 hr2 hv2 h1b h2b h3b
    show 0 < (l₁ ++ pc' :: l₂).countP (isHolder 0) + (l₁ ++ pc' :: l₂).countP isReg0 +
        (l₁ ++ pc' :: l₂).countP isFullStore + (l₁ ++ pc' :: l₂).countP isFullReg
    have hh0 := hHol 0
    rw [hR0, hEq isFullStore rfl f5, hEq isFullReg rfl f7]
    omega
  · rcases inv.hphase with hp | hp | hp
    · left
      obtain ⟨o1, o2, o3, o4, o5, o6, o7, o8, o9, o10, o11⟩ := hp
      refine ⟨o1, o2, ?_, ?_, ?_, ?_, ?_, ?_, ?_, ?_, ?_⟩
      · show (s.evs ++ [Ev.write s.gen m l₁.length]).countP (isSenderEv s.gen) = 0
        rw [countP_snoc_false _ _ (by simp only [isSenderEv])]
        exact o3
      · show (l₁ ++ pc' :: l₂).countP isFullStore = 0
        rw [hEq isFullStore rfl f5]
        exact o4
      · show (l₁ ++ pc' :: l₂).countP isFullTail = 0
        rw [hEq isFullTail rfl f6]
        exact o5
      · show (l₁ ++ pc' :: l₂).countP isSbSpinAny = 0
        rw [hEq isSbSpinAny rfl f8]
        exact o6
      · show (l₁ ++ pc' :: l₂).countP isSbClearRegAny = 0
        rw [hEq isSbClearRegAny rfl f9]
        exact o7
      · show (l₁ ++ pc' :: l₂).countP isSbClearCWAny = 0
        rw [hEq isSbClearCWAny rfl f10]
        exact o8
      · show (l₁ ++ pc' :: l₂).countP isSbClearCAAny = 0
        rw [hEq isSbClearCAAny rfl f11]
        exact o9
      · show (s.evs ++ [Ev.write s.gen m l₁.length]).countP (isNotifyEv s.gen) =
            (if s.reg then 1 else 0)
        rw [countP_snoc_false _ _ (by simp only [isNotifyEv])]
        exact o10
      · show s.cw + (l₁ ++ pc' :: l₂).countP isHolderAny +
            (l₁ ++ pc' :: l₂).countP isPreIncr = s.valid
        omega
    · right; left
      obtain ⟨w1, w2, w3, w4, w5, w6, w7, w8, w9, w10, w11, w12, w13⟩ := hp
      refine ⟨w1, ?_, w3, ?_, ?_, ?_, ?_, ?_, ?_, ?_, ?_, ?_, ?_⟩
      · show s.ca + (l₁ ++ pc' :: l₂).countP isPassed ≤ mc + ns
        rw [hEq isPassed rfl f1]
        exact w2
      · show (s.evs ++ [Ev.write s.gen m l₁.length]).countP (isFullwinEv s.gen) = 1
        rw [countP_snoc_false _ _ (by simp only [isFullwinEv])]
        exact w4
      · show (s.evs ++ [Ev.write s.gen m l₁.length]).countP (isStealEv s.gen) = 0
        rw [countP_snoc_false _ _ (by simp only [isStealEv])]
        exact w5
      · show (l₁ ++ pc' :: l₂).countP isFullStore +
            (l₁ ++ pc' :: l₂).countP (isHolder (mc - 1)) = 1
        have hhm := hHol (mc - 1)
        rw [if_neg hnf] at hhm
        rw [hEq isFullStore rfl f5]
        omega
      · show (l₁ ++ pc' :: l₂).countP isFullTail = 0
        rw [hEq isFullTail rfl f6]
        exact w7
      · show (l₁ ++ pc' :: l₂).countP isSbSpinAny = 0
        rw [hEq isSbSpinAny rfl f8]
        exact w8
      · show (l₁ ++ pc' :: l₂).countP isSbClearRegAny = 0
        rw [hEq isSbClearRegAny rfl f9]
        exact w9
      · show (l₁ ++ pc' :: l₂).countP isSbClearCWAny = 0
        rw [hEq isSbClearCWAny rfl f10]
        exact w10
      · show (l₁ ++ pc' :: l₂).countP isSbClearCAAny = 0
        rw [hEq isSbClearCAAny rfl f11]
        exact w11
      · show (s.evs ++ [Ev.write s.gen m l₁.length]).countP (isNotifyEv s.gen) =
            (if s.reg then 1 else 0)
        rw [countP_snoc_false _ _ (by simp only [isNotifyEv])]
        exact w12
      · show s.cw + (l₁ ++ pc' :: l₂).countP isHolderAny +
            (l₁ ++ pc' :: l₂).countP isPreIncr = s.valid
        omega
    · right; right
      obtain ⟨a1, a2, a3, a4, a4b, a5⟩ := hp
      refine ⟨a1, ?_, ?_, ?_, ?_, ?_⟩
      · show s.ca + (l₁ ++ pc' :: l₂).countP isPassed ≤ sender_active + ns
        rw [hEq isPassed rfl f1]
        exact a2
      · rcases a3 with ⟨c1, c2, c3⟩ | ⟨c1, c2, c3, c4, c5⟩
        · left
          refine ⟨?_, ?_, c3⟩
          · show (s.evs ++ [Ev.write s.gen m l₁.length]).countP (isFullwinEv s.gen) = 1
            rw [countP_snoc_false _ _ (by simp only [isFullwinEv])]
            exact c1
          · show (s.evs ++ [Ev.write s.gen m l₁.length]).countP (isStealEv s.gen) = 0
            rw [countP_snoc_false _ _ (by simp only [isStealEv])]
            exact c2
        · right
          refine ⟨?_, ?_, c3, c4, ?_⟩
          · show (s.evs ++ [Ev.write s.gen m l₁.length]).countP (isFullwinEv s.gen) = 0
            rw [countP_snoc_false _ _ (by simp only [isFullwinEv])]
            exact c1
          · show (s.evs ++ [Ev.write s.gen m l₁.length]).countP (isStealEv s.gen) = 1
            rw [countP_snoc_false _ _ (by simp only [isStealEv])]
            exact c2
          · show (l₁ ++ pc' :: l₂).countP isFullTail = 0
            rw [hEq isFullTail rfl f6]
            exact c5
      · show (l₁ ++ pc' :: l₂).countP isFullStore = 0
        rw [hEq isFullStore rfl f5]
        exact a4
      · show (l₁ ++ pc' :: l₂).countP (isHolder (mc - 1)) = 0
        have hhm := hHol (mc - 1)
        rw [if_neg hnf] at hhm
        omega
      · rcases a5 with b | b | b | b
        · left
          obtain ⟨b1, b2, b3, b4, b5, b6⟩ := b
          refine ⟨?_, ?_, ?_, ?_, ?_, ?_⟩
          · show (l₁ ++ pc' :: l₂).countP isFullTail +
                (l₁ ++ pc' :: l₂).countP isSbSpinAny = 1
            rw [hEq isFullTail rfl f6, hEq isSbSpinAny rfl f8]
            exact b1
          · show (l₁ ++ pc' :: l₂).countP isSbClearRegAny = 0
            rw [hEq isSbClearRegAny rfl f9]
            exact b2
          · show (l₁ ++ pc' :: l₂).countP isSbClearCWAny = 0
            rw [hEq isSbClearCWAny rfl f10]
            exact b3
          · show (l₁ ++ pc' :: l₂).countP isSbClearCAAny = 0
            rw [hEq isSbClearCAAny rfl f11]
            exact b4
          · show (s.evs ++ [Ev.write s.gen m l₁.length]).countP (isNotifyEv s.gen) =
                (if s.reg then 1 else 0)
            rw [countP_snoc_false _ _ (by simp only [isNotifyEv])]
            exact b5
          · show s.cw + (l₁ ++ pc' :: l₂).countP isHolderAny +
                (l₁ ++ pc' :: l₂).countP isPreIncr = s.valid
            omega
        · exfalso
          obtain ⟨b1, b2, b3, b4, b5, b6, b7, b8, b9, b10⟩ := b
          omega
        · exfalso
          obtain ⟨b1, b2, b3, b4, b5, b6, b7, b8, b9, b10⟩ := b
          omega
        · exfalso
          obtain ⟨b1, b2, b3, b4, b5, b6, b7, b8, b9, b10⟩ := b
          omega

theorem step_sWrite {mc ns : Nat} (hb : mc + ns ≤ count_mask) {s core : CSt}
    {l₁ l₂ : List APC} {pc' : APC} {m : Nat}
    (inv : CInv mc ns s) (hag : s.agents = l₁ ++ APC.sWrite m :: l₂)
    (hstep : astep mc s l₁.length (APC.sWrite m) = some (core, pc')) :
    CInv mc ns { core with agents := l₁ ++ pc' :: l₂ } := by
  have hHolm : 0 < s.agents.countP (isHolder m) := by
    rw [hag]
    exact countP_pos_of_mid _ l₁ l₂ (by simp [isHolder])
  have hmval : m < s.valid := by
    by_contra h
    have h2 := inv.hslot m
    rw [if_neg h] at h2
    omega
  have hslotm : s.evs.countP (isWriteEv s.gen m) + s.agents.countP (isHolder m) = 1 := by
    have h := inv.hslot m
    rw [if_pos hmval] at h
    exact h
  have hholm1 : s.agents.countP (isHolder m) = 1 := by omega
  have hmcm : m &&& count_mask = m :=
    and_count_mask_of_le (by have := inv.hvalid; omega)
  simp only [astep] at hstep
  rw [hmcm] at hstep
  split at hstep
  case isTrue hfull =>
    cases hstep
    have hW : PhaseW mc ns s := by
      rcases inv.hphase with hp | hp | hp
      · exfalso
        have h1 : s.ca = s.valid := hp.1
        have h2 : s.ca < mc := hp.2.1
        omega
      · exact hp
      · exfalso
        have h4b := hp.2.2.2.2.1
        rw [← hfull] at h4b
        omega
    obtain ⟨w1, w2, w3, w4, w5, w6, w7, w8, w9, w10, w11, w12, w13⟩ := hW
    have hEq : ∀ p : APC → Bool, p (APC.sWrite m) = false → p APC.sFullStore = false →
        (l₁ ++ APC.sFullStore :: l₂).countP p = s.agents.countP p := by
      intro p h1 h2
      rw [hag, countP_mid, countP_mid, h1, h2]
    have hHol : ∀ t, (l₁ ++ APC.sFullStore :: l₂).countP (isHolder t) +
        (if m = t then 1 else 0) = s.agents.countP (isHolder t) := by
      intro t
      rw [hag, countP_mid, countP_mid]
      by_cases h : m = t
      · subst h
        simp [isHolder]
      · simp [isHolder, h]
    have hHolAny : (l₁ ++ APC.sFullStore :: l₂).countP isHolderAny + 1 =
        s.agents.countP isHolderAny := by
      rw [hag, countP_mid, countP_mid]
      simp [isHolderAny]
    have hPre : (l₁ ++ APC.sFullStore :: l₂).countP isPreIncr =
        s.agents.countP isPreIncr + 1 := by
      rw [hag, countP_mid, countP_mid]
      simp [isPreIncr]
    have hFS : (l₁ ++ APC.sFullStore :: l₂).countP isFullStore =
        s.agents.countP isFullStore + 1 := by
      rw [hag, countP_mid, countP_mid]
      simp [isFullStore]
    have hmem : ∀ q ∈ l₁ ++ APC.sFullStore :: l₂, q = APC.sFullStore ∨ q ∈ s.agents :=
      fun q hq => by
      rcases mem_mid_cases hq (APC.sWrite m) with h | h
      · exact Or.inl h
      · exact Or.inr (hag ▸ h)
    refine ⟨hlen_swap hag _ inv.hlen, ?_, ?_, ?_, ?_, ?_, ?_, ?_, inv.hvalid, ?_⟩
    · intro ev hev
      rw [List.mem_append] at hev
      rcases hev with h | h
      · exact inv.hev_le ev h
      · simp at h; subst h; simp [evGen]
    · intro ev hev
      rw [List.mem_append] at hev
      rcases hev with h | h
      · exact inv.hev_tr ev h
      · simp at h; subst h; simp [isTransmitAny]
    · intro g hg
      have hg2 : g < s.gen := hg
      have hgb : (s.gen == g) = false := beq_eq_false_iff_ne.mpr (by omega)
      obtain ⟨a, b, c, d⟩ := inv.hist g hg2
      refine ⟨?_, ?_, ?_, ?_⟩
      · show (s.evs ++ [Ev.write s.gen m l₁.length]).countP (isSenderEv g) = 1
        rw [countP_snoc_false _ _ (by simp only [isSenderEv])]
        exact a
      · show (s.evs ++ [Ev.write s.gen m l₁.length]).countP (isNotifyEv g) = 1
        rw [countP_snoc_false _ _ (by simp only [isNotifyEv])]
        exact b
      · show (s.evs ++ [Ev.write s.gen m l₁.length]).countP (isTransmitEv g) +
            (l₁ ++ APC.sFullStore :: l₂).countP (isSbTransmit g) = 1
        rw [countP_snoc_false _ _ (by simp only [isTransmitEv]),
          hEq (isSbTransmit g) rfl rfl]
        exact c
      · intro t
        show (s.evs ++ [Ev.write s.gen m l₁.length]).countP (isWriteEv g t) ≤ 1
        rw [countP_snoc_false _ _ (by simp only [isWriteEv, hgb, Bool.false_and])]
        exact d t
    · intro q hq g c hql
      rcases hmem q hq with rfl | h
      · simp [sbLocal] at hql
      · exact absurd (no_sb_of_zero w8 w9 w10 w11 q h g c hql) not_false
    · intro q hq g c hql
      rcases hmem q hq with rfl | h
      · simp [trLocal] at hql
      · exact inv.htr q h g c hql
    · intro t
      show (s.evs ++ [Ev.write s.gen m l₁.length]).countP (isWriteEv s.gen t) +
          (l₁ ++ APC.sFullStore :: l₂).countP (isHolder t) = (if t < s.valid then 1 else 0)
      have h2 := hHol t
      have h3 := inv.hslot t
      by_cases h : m = t
      · subst h
        rw [countP_snoc_true _ _ (by simp [isWriteEv])]
        rw [if_pos rfl] at h2
        omega
      · rw [countP_snoc_false _ _ (by simp [isWriteEv, h])]
        rw [if_neg h] at h2
        omega
    · intro hr hv h1 h2 h3
      show 0 < (l₁ ++ APC.sFullStore :: l₂).countP (isHolder 0) +
          (l₁ ++ APC.sFullStore :: l₂).countP isReg0 +
          (l₁ ++ APC.sFullStore :: l₂).countP isFullStore +
          (l₁ ++ APC.sFullStore :: l₂).countP isFullReg
      rw [hFS]
      omega
    · right; left
      refine ⟨w1, ?_, w3, ?_, ?_, ?_, ?_, ?_, ?_, ?_, ?_, ?_, ?_⟩
      · show s.ca + (l₁ ++ APC.sFullStore :: l₂).countP isPassed ≤ mc + ns
        rw [hEq isPassed rfl rfl]
        exact w2
      · show (s.evs ++ [Ev.write s.gen m l₁.length]).countP (isFullwinEv s.gen) = 1
        rw [countP_snoc_false _ _ (by simp only [isFullwinEv])]
        exact w4
      · show (s.evs ++ [Ev.write s.gen m l₁.length]).countP (isStealEv s.gen) = 0
        rw [countP_snoc_false _ _ (by simp only [isStealEv])]
        exact w5
      · show (l₁ ++ APC.sFullStore :: l₂).countP isFullStore +
            (l₁ ++ APC.sFullStore :: l₂).countP (isHolder (mc - 1)) = 1
        have hhm := hHol (mc - 1)
        rw [if_pos hfull] at hhm
        have hh1 : s.agents.countP (isHolder (mc - 1)) = 1 := by
          rw [← hfull]
          exact hholm1
        rw [hFS]
        omega
      · show (l₁ ++ APC.sFullStore :: l₂).countP isFullTail = 0
        rw [hEq isFullTail rfl rfl]
        exact w7
      · show (l₁ ++ APC.sFullStore :: l₂).countP isSbSpinAny = 0
        rw [hEq isSbSpinAny rfl rfl]
        exact w8
      · show (l₁ ++ APC.sFullStore :: l₂).countP isSbClearRegAny = 0
        rw [hEq isSbClearRegAny rfl rfl]
        exact w9
      · show (l₁ ++ APC.sFullStore :: l₂).countP isSbClearCWAny = 0
        rw [hEq isSbClearCWAny rfl rfl]
        exact w10
      · show (l₁ ++ APC.sFullStore :: l₂).countP isSbClearCAAny = 0
        rw [hEq isSbClearCAAny rfl rfl]
        exact w11
      · show (s.evs ++ [Ev.write s.gen m l₁.length]).countP (isNotifyEv s.gen) =
            (if s.reg then 1 else 0)
        rw [countP_snoc_false _ _ (by simp only [isNotifyEv])]
        exact w12
      · show s.cw + (l₁ ++ APC.sFullStore :: l₂).countP isHolderAny +
            (l₁ ++ APC.sFullStore :: l₂).countP isPreIncr = s.valid
        omega
  case isFalse hfull =>
    split at hstep
    case isTrue hzero =>
      cases hstep
      exact step_sWrite_nonfull inv hag hfull (Or.inl ⟨hzero, rfl⟩) hmval hholm1
    case isFalse hzero =>
      cases hstep
      exact step_sWrite_nonfull inv hag hfull (Or.inr ⟨hzero, rfl⟩) hmval hholm1

theorem step_sFullStore {mc ns : Nat} (hb : mc + ns ≤ count_mask) {s core : CSt}
    {l₁ l₂ : List APC} {pc' : APC}
    (inv : CInv mc ns s) (hag : s.agents = l₁ ++ APC.sFullStore :: l₂)
    (hstep : astep mc s l₁.length APC.sFullStore = some (core, pc')) :
    CInv mc ns { core with agents := l₁ ++ pc' :: l₂ } := by
  simp only [astep] at hstep
  cases hstep
  have hFSpos : 0 < s.agents.countP isFullStore := by
    rw [hag]
    exact countP_pos_of_mid _ l₁ l₂ rfl
  have hW : PhaseW mc ns s := by
    rcases inv.hphase with hp | hp | hp
    · exfalso
      have h := hp.2.2.2.1
      omega
    · exact hp
    · exfalso
      have h := hp.2.2.2.1
      omega
  obtain ⟨w1, w2, w3, w4, w5, w6, w7, w8, w9, w10, w11, w12, w13⟩ := hW
  have hPns : s.agents.countP isPassed ≤ ns :=
    le_trans (List.countP_le_length _) (le_of_eq inv.hlen)
  have hEq : ∀ p : APC → Bool, p APC.sFullStore = p APC.sFullReg →
      (l₁ ++ APC.sFullReg :: l₂).countP p = s.agents.countP p := fun p h => by
    rw [hag]
    exact countP_mid_swap_eq p l₁ l₂ h
  have hFSd : (l₁ ++ APC.sFullReg :: l₂).countP isFullStore + 1 =
      s.agents.countP isFullStore := by
    rw [hag, countP_mid, countP_mid]
    simp [isFullStore]
  have hFRd : (l₁ ++ APC.sFullReg :: l₂).countP isFullReg =
      s.agents.countP isFullReg + 1 := by
    rw [hag, countP_mid, countP_mid]
    simp [isFullReg]
  have hFTd : (l₁ ++ APC.sFullReg :: l₂).countP isFullTail =
      s.agents.countP isFullTail + 1 := by
    rw [hag, countP_mid, countP_mid]
    simp [isFullTail]
  have hmem : ∀ q ∈ l₁ ++ APC.sFullReg :: l₂, q = APC.sFullReg ∨ q ∈ s.agents :=
    fun q hq => by
    rcases mem_mid_cases hq APC.sFullStore with h | h
    · exact Or.inl h
    · exact Or.inr (hag ▸ h)
  refine ⟨hlen_swap hag _ inv.hlen, inv.hev_le, inv.hev_tr, ?_, ?_, ?_, ?_, ?_,
    inv.hvalid, ?_⟩
  · intro g hg
    obtain ⟨a, b, c, d⟩ := inv.hist g hg
    exact ⟨a, b, by rw [hEq (isSbTransmit g) rfl]; exact c, d⟩
  · intro q hq g c hql
    rcases hmem q hq with rfl | h
    · simp [sbLocal] at hql
    · exact absurd (no_sb_of_zero w8 w9 w10 w11 q h g c hql) not_false
  · intro q hq g c hql
    rcases hmem q hq with rfl | h
    · simp [trLocal] at hql
    · exact inv.htr q h g c hql
  · intro t
    rw [hEq (isHolder t) rfl]
    exact inv.hslot t
  · intro hr hv h1 h2 h3
    have hr2 : s.reg = false := hr
    have hv2 : 0 < s.valid := hv
    have h1b : (l₁ ++ APC.sFullReg :: l₂).countP isSbClearRegAny = 0 := h1
    have h2b : (l₁ ++ APC.sFullReg :: l₂).countP isSbClearCWAny = 0 := h2
    have h3b : (l₁ ++ APC.sFullReg :: l₂).countP isSbClearCAAny = 0 := h3
    rw [hEq isSbClearRegAny rfl] at h1b
    rw [hEq isSbClearCWAny rfl] at h2b
    rw [hEq isSbClearCAAny rfl] at h3b
    have hq := inv.hreg0 hr2 hv2 h1b h2b h3b
    show 0 < (l₁ ++ APC.sFullReg :: l₂).countP (isHolder 0) +
        (l₁ ++ APC.sFullReg :: l₂).countP isReg0 +
        (l₁ ++ APC.sFullReg :: l₂).countP isFullStore +
        (l₁ ++ APC.sFullReg :: l₂).countP isFullReg
    rw [hEq (isHolder 0) rfl, hEq isReg0 rfl]
    omega
  · right; right
    refine ⟨le_refl _, ?_, Or.inl ⟨w4, w5, w3⟩, ?_, ?_, ?_⟩
    · show sender_active + (l₁ ++ APC.sFullReg :: l₂).countP isPassed ≤ sender_active + ns
      rw [hEq isPassed rfl]
      omega
    · show (l₁ ++ APC.sFullReg :: l₂).countP isFullStore = 0
      omega
    · show (l₁ ++ APC.sFullReg :: l₂).countP (isHolder (mc - 1)) = 0
      rw [hEq (isHolder (mc - 1)) rfl]
      omega
    · left
      refine ⟨?_, ?_, ?_, ?_, w12, ?_⟩
      · show (l₁ ++ APC.sFullReg :: l₂).countP isFullTail +
            (l₁ ++ APC.sFullReg :: l₂).countP isSbSpinAny = 1
        rw [hEq isSbSpinAny rfl]
        omega
      · show (l₁ ++ APC.sFullReg :: l₂).countP isSbClearRegAny = 0
        rw [hEq isSbClearRegAny rfl]
        exact w9
      · show (l₁ ++ APC.sFullReg :: l₂).countP isSbClearCWAny = 0
        rw [hEq isSbClearCWAny rfl]
        exact w10
      · show (l₁ ++ APC.sFullReg :: l₂).countP isSbClearCAAny = 0
        rw [hEq isSbClearCAAny rfl]
        exact w11
      · show s.cw + (l₁ ++ APC.sFullReg :: l₂).countP isHolderAny +
            (l₁ ++ APC.sFullReg :: l₂).countP isPreIncr = s.valid
        rw [hEq isHolderAny rfl, hEq isPreIncr rfl]
        exact w13

theorem hphase_transport {mc ns : Nat} {s t : CSt}
    (hca : t.ca = s.ca) (hcw : t.cw = s.cw) (hreg : t.reg = s.reg)
    (hgen : t.gen = s.gen) (hvalid : t.valid = s.valid)
    (he1 : t.evs.countP (isSenderEv s.gen) = s.evs.countP (isSenderEv s.gen))
    (he2 : t.evs.countP (isFullwinEv s.gen) = s.evs.countP (isFullwinEv s.gen))
    (he3 : t.evs.countP (isStealEv s.gen) = s.evs.countP (isStealEv s.gen))
    (he4 : t.evs.countP (isNotifyEv s.gen) = s.evs.countP (isNotifyEv s.gen))
    (h1 : t.agents.countP isPassed = s.agents.countP isPassed)
    (h2 : t.agents.countP isFullStore = s.agents.countP isFullStore)
    (h3 : t.agents.countP isFullTail = s.agents.countP isFullTail)
    (h4 : t.agents.countP isSbSpinAny = s.agents.countP isSbSpinAny)
    (h5 : t.agents.countP isSbClearRegAny = s.agents.countP isSbClearRegAny)
    (h6 : t.agents.countP isSbClearCWAny = s.agents.countP isSbClearCWAny)
    (h7 : t.agents.countP isSbClearCAAny = s.agents.countP isSbClearCAAny)
    (h8 : t.agents.countP isHolderAny = s.agents.countP isHolderAny)
    (h9 : t.agents.countP isPreIncr = s.agents.countP isPreIncr)
    (h10 : t.agents.countP (isHolder (mc - 1)) = s.agents.countP (isHolder (mc - 1)))
    (hp : PhaseO mc s ∨ PhaseW mc ns s ∨ PhaseS mc ns s) :
    PhaseO mc t ∨ PhaseW mc ns t ∨ PhaseS mc ns t := by
  unfold PhaseO PhaseW PhaseS SPos
  unfold PhaseO PhaseW PhaseS SPos at hp
  rw [hca, hcw, hreg, hgen, hvalid, he1, he2, he3, he4,
    h1, h2, h3, h4, h5, h6, h7, h8, h9, h10]
  exact hp

theorem step_reg_noop {mc ns : Nat} {s : CSt} {l₁ l₂ : List APC} {pc pc' : APC}
    (inv : CInv mc ns s) (hag : s.agents = l₁ ++ pc :: l₂)
    (hregt : s.reg = true)
    (hpcs : (pc = APC.sFullReg ∧ pc' = APC.sFullIncr) ∨
      (pc = APC.sReg0 ∧ pc' = APC.sIncr)) :
    CInv mc ns { s with agents := l₁ ++ pc' :: l₂ } := by
  have hpcf : isPassed pc = isPassed pc' ∧ (∀ t, isHolder t pc = isHolder t pc') ∧
      isHolderAny pc = isHolderAny pc' ∧ isPreIncr pc = isPreIncr pc' ∧
      isFullStore pc = isFullStore pc' ∧ isFullTail pc = isFullTail pc' ∧
      isSbSpinAny pc = isSbSpinAny pc' ∧ isSbClearRegAny pc = isSbClearRegAny pc' ∧
      isSbClearCWAny pc = isSbClearCWAny pc' ∧ isSbClearCAAny pc = isSbClearCAAny pc' ∧
      (∀ g, isSbTransmit g pc = isSbTransmit g pc') ∧
      sbLocal pc' = none ∧ trLocal pc' = none := by
    rcases hpcs with ⟨rfl, rfl⟩ | ⟨rfl, rfl⟩ <;>
      exact ⟨rfl, fun t => rfl, rfl, rfl, rfl, rfl, rfl, rfl, rfl, rfl,
        fun g => rfl, rfl, rfl⟩
  obtain ⟨f1, f2, f3, f4, f5, f6, f7, f8, f9, f10, f11, f12, f13⟩ := hpcf
  have hEq : ∀ p : APC → Bool, p pc = p pc' →
      (l₁ ++ pc' :: l₂).countP p = s.agents.countP p := by
    intro p h
    rw [hag]
    exact countP_mid_swap_eq p l₁ l₂ h
  have hmem : ∀ q ∈ l₁ ++ pc' :: l₂, q = pc' ∨ q ∈ s.agents := fun q hq => by
    rcases mem_mid_cases hq pc with h | h
    · exact Or.inl h
    · exact Or.inr (hag ▸ h)
  refine ⟨hlen_swap hag _ inv.hlen, inv.hev_le, inv.hev_tr, ?_, ?_, ?_, ?_, ?_,
    inv.hvalid, ?_⟩
  · intro g hg
    obtain ⟨a, b, c, d⟩ := inv.hist g hg
    exact ⟨a, b, by rw [hEq (isSbTransmit g) (f11 g)]; exact c, d⟩
  · intro q hq g c hql
    rcases hmem q hq with rfl | h
    · rw [f12] at hql
      exact absurd hql (by simp)
    · exact inv.hsb q h g c hql
  · intro q hq g c hql
    rcases hmem q hq with rfl | h
    · rw [f13] at hql
      exact absurd hql (by simp)
    · exact inv.htr q h g c hql
  · intro t
    rw [hEq (isHolder t) (f2 t)]
    exact inv.hslot t
  · intro hr hv h1 h2 h3
    have hr2 : s.reg = false := hr
    rw [hregt] at hr2
    exact absurd hr2 (by simp)
  · exact hphase_transport (s := s) rfl rfl rfl rfl rfl rfl rfl rfl rfl
      (hEq isPassed f1) (hEq isFullStore f5)
      (hEq isFullTail f6) (hEq isSbSpinAny f7) (hEq isSbClearRegAny f8)
      (hEq isSbClearCWAny f9) (hEq isSbClearCAAny f10) (hEq isHolderAny f3)
      (hEq isPreIncr f4) (hEq (isHolder (mc - 1)) (f2 _)) inv.hphase

theorem step_notify {mc ns : Nat} {s : CSt} {l₁ l₂ : List APC} {pc pc' : APC}
    (inv : CInv mc ns s) (hag : s.agents = l₁ ++ pc :: l₂)
    (hregf : s.reg = false)
    (hpcs : (pc = APC.sFullReg ∧ pc' = APC.sFullIncr) ∨
      (pc = APC.sReg0 ∧ pc' = APC.sIncr)) :
    CInv mc ns { s with
      reg := true
      evs := s.evs ++ [Ev.notify s.gen l₁.length]
      agents := l₁ ++ pc' :: l₂ } := by
  have hpcf : isPassed pc = isPassed pc' ∧ (∀ t, isHolder t pc = isHolder t pc') ∧
      isHolderAny pc = isHolderAny pc' ∧ isPreIncr pc = isPreIncr pc' ∧
      isFullStore pc = isFullStore pc' ∧ isFullTail pc = isFullTail pc' ∧
      isSbSpinAny pc = isSbSpinAny pc' ∧ isSbClearRegAny pc = isSbClearRegAny pc' ∧
      isSbClearCWAny pc = isSbClearCWAny pc' ∧ isSbClearCAAny pc = isSbClearCAAny pc' ∧
      (∀ g, isSbTransmit g pc = isSbTransmit g pc') ∧
      sbLocal pc' = none ∧ trLocal pc' = none ∧ isPreIncr pc = true := by
    rcases hpcs with ⟨rfl, rfl⟩ | ⟨rfl, rfl⟩ <;>
      exact ⟨rfl, fun t => rfl, rfl, rfl, rfl, rfl, rfl, rfl, rfl, rfl,
        fun g => rfl, rfl, rfl, rfl⟩
  obtain ⟨f1, f2, f3, f4, f5, f6, f7, f8, f9, f10, f11, f12, f13, f14⟩ := hpcf
  have hPIpos : 0 < s.agents.countP isPreIncr := by
    rw [hag]
    exact countP_pos_of_mid _ l₁ l₂ f14
  have hEq : ∀ p : APC → Bool, p pc = p pc' →
      (l₁ ++ pc' :: l₂).countP p = s.agents.countP p := by
    intro p h
    rw [hag]
    exact countP_mid_swap_eq p l₁ l₂ h
  have hmem : ∀ q ∈ l₁ ++ pc' :: l₂, q = pc' ∨ q ∈ s.agents := fun q hq => by
    rcases mem_mid_cases hq pc with h | h
    · exact Or.inl h
    · exact Or.inr (hag ▸ h)
  refine ⟨hlen_swap hag _ inv.hlen, ?_, ?_, ?_, ?_, ?_, ?_, ?_, inv.hvalid, ?_⟩
  · intro ev hev
    rw [List.mem_append] at hev
    rcases hev with h | h
    · exact inv.hev_le ev h
    · simp at h; subst h; simp [evGen]
  · intro ev hev
    rw [List.mem_append] at hev
    rcases hev with h | h
    · exact inv.hev_tr ev h
    · simp at h; subst h; simp [isTransmitAny]
  · intro g hg
    have hg2 : g < s.gen := hg
    have hgb : (s.gen == g) = false := beq_eq_false_iff_ne.mpr (by omega)
    obtain ⟨a, b, c, d⟩ := inv.hist g hg2
    refine ⟨?_, ?_, ?_, ?_⟩
    · show (s.evs ++ [Ev.notify s.gen l₁.length]).countP (isSenderEv g) = 1
      rw [countP_snoc_false _ _ (by simp only [isSenderEv])]
      exact a
    · show (s.evs ++ [Ev.notify s.gen l₁.length]).countP (isNotifyEv g) = 1
      rw [countP_snoc_false _ _ (by simp only [isNotifyEv]; exact hgb)]
      exact b
    · show (s.evs ++ [Ev.notify s.gen l₁.length]).countP (isTransmitEv g) +
          (l₁ ++ pc' :: l₂).countP (isSbTransmit g) = 1
      rw [countP_snoc_false _ _ (by simp only [isTransmitEv]),
        hEq (isSbTransmit g) (f11 g)]
      exact c
    · intro t
      show (s.evs ++ [Ev.notify s.gen l₁.length]).countP (isWriteEv g t) ≤ 1
      rw [countP_snoc_false _ _ (by simp only [isWriteEv])]
      exact d t
  · intro q hq g c hql
    rcases hmem q hq with rfl | h
    · rw [f12] at hql
      exact absurd hql (by simp)
    · exact inv.hsb q h g c hql
  · intro q hq g c hql
    rcases hmem q hq with rfl | h
    · rw [f13] at hql
      exact absurd hql (by simp)
    · exact inv.htr q h g c hql
  · intro t
    show (s.evs ++ [Ev.notify s.gen l₁.length]).countP (isWriteEv s.gen t) +
        (l₁ ++ pc' :: l₂).countP (isHolder t) = (if t < s.valid then 1 else 0)
    rw [countP_snoc_false _ _ (by simp only [isWriteEv]), hEq (isHolder t) (f2 t)]
    exact inv.hslot t
  · intro hr hv h1 h2 h3
    have hr2 : (true : Bool) = false := hr
    exact absurd hr2 (by simp)
  · have hnotify : (s.evs ++ [Ev.notify s.gen l₁.length]).countP (isNotifyEv s.gen) =
        s.evs.countP (isNotifyEv s.gen) + 1 :=
      countP_snoc_true _ _ (by simp [isNotifyEv])
    rcases inv.hphase with hp | hp | hp
    · left
      obtain ⟨o1, o2, o3, o4, o5, o6, o7, o8, o9, o10, o11⟩ := hp
      have o10b : s.evs.countP (isNotifyEv s.gen) = 0 := by
        rw [hregf] at o10
        simpa using o10
      refine ⟨o1, o2, ?_, ?_, ?_, ?_, ?_, ?_, ?_, ?_, ?_⟩
      · show (s.evs ++ [Ev.notify s.gen l₁.length]).countP (isSenderEv s.gen) = 0
        rw [countP_snoc_false _ _ (by simp only [isSenderEv])]
        exact o3
      · show (l₁ ++ pc' :: l₂).countP isFullStore = 0
        rw [hEq isFullStore f5]
        exact o4
      · show (l₁ ++ pc' :: l₂).countP isFullTail = 0
        rw [hEq isFullTail f6]
        exact o5
      · show (l₁ ++ pc' :: l₂).countP isSbSpinAny = 0
        rw [hEq isSbSpinAny f7]
        exact o6
      · show (l₁ ++ pc' :: l₂).countP isSbClearRegAny = 0
        rw [hEq isSbClearRegAny f8]
        exact o7
      · show (l₁ ++ pc' :: l₂).countP isSbClearCWAny = 0
        rw [hEq isSbClearCWAny f9]
        exact o8
      · show (l₁ ++ pc' :: l₂).countP isSbClearCAAny = 0
        rw [hEq isSbClearCAAny f10]
        exact o9
      · show (s.evs ++ [Ev.notify s.gen l₁.length]).countP (isNotifyEv s.gen) =
            (if (true : Bool) then 1 else 0)
        rw [hnotify, o10b]
        simp
      · show s.cw + (l₁ ++ pc' :: l₂).countP isHolderAny +
            (l₁ ++ pc' :: l₂).countP isPreIncr = s.valid
        rw [hEq isHolderAny f3, hEq isPreIncr f4]
        exact o11
    · right; left
      obtain ⟨w1, w2, w3, w4, w5, w6, w7, w8, w9, w10, w11, w12, w13⟩ := hp
      have w12b : s.evs.countP (isNotifyEv s.gen) = 0 := by
        rw [hregf] at w12
        simpa using w12
      refine ⟨w1, ?_, w3, ?_, ?_, ?_, ?_, ?_, ?_, ?_, ?_, ?_, ?_⟩
      · show s.ca + (l₁ ++ pc' :: l₂).countP isPassed ≤ mc + ns
        rw [hEq isPassed f1]
        exact w2
      · show (s.evs ++ [Ev.notify s.gen l₁.length]).countP (isFullwinEv s.gen) = 1
        rw [countP_snoc_false _ _ (by simp only [isFullwinEv])]
        exact w4
      · show (s.evs ++ [Ev.notify s.gen l₁.length]).countP (isStealEv s.gen) = 0
        rw [countP_snoc_false _ _ (by simp only [isStealEv])]
        exact w5
      · show (l₁ ++ pc' :: l₂).countP isFullStore +
            (l₁ ++ pc' :: l₂).countP (isHolder (mc - 1)) = 1
        rw [hEq isFullStore f5, hEq (isHolder (mc - 1)) (f2 _)]
        exact w6
      · show (l₁ ++ pc' :: l₂).countP isFullTail = 0
        rw [hEq isFullTail f6]
        exact w7
      · show (l₁ ++ pc' :: l₂).countP isSbSpinAny = 0
        rw [hEq isSbSpinAny f7]
        exact w8
      · show (l₁ ++ pc' :: l₂).countP isSbClearRegAny = 0
        rw [hEq isSbClearRegAny f8]
        exact w9
      · show (l₁ ++ pc' :: l₂).countP isSbClearCWAny = 0
        rw [hEq isSbClearCWAny f9]
        exact w10
      · show (l₁ ++ pc' :: l₂).countP isSbClearCAAny = 0
        rw [hEq isSbClearCAAny f10]
        exact w11
      · show (s.evs ++ [Ev.notify s.gen l₁.length]).countP (isNotifyEv s.gen) =
            (if (true : Bool) then 1 else 0)
        rw [hnotify, w12b]
        simp
      · show s.cw + (l₁ ++ pc' :: l₂).countP isHolderAny +
            (l₁ ++ pc' :: l₂).countP isPreIncr = s.valid
        rw [hEq isHolderAny f3, hEq isPreIncr f4]
        exact w13
    · right; right
      obtain ⟨a1, a2, a3, a4, a4b, a5⟩ := hp
      have hS1 : s.agents.countP isFullTail + s.agents.countP isSbSpinAny = 1 ∧
          s.agents.countP isSbClearRegAny = 0 ∧ s.agents.countP isSbClearCWAny = 0 ∧
          s.agents.countP isSbClearCAAny = 0 ∧
          s.evs.countP (isNotifyEv s.gen) = (if s.reg then 1 else 0) ∧
          s.cw + s.agents.countP isHolderAny + s.agents.countP isPreIncr = s.valid := by
        rcases a5 with b | b | b | b
        · exact b
        · exfalso
          have := b.2.2.2.2.2.2.2.2.2
          omega
        · exfalso
          have := b.2.2.2.2.2.2.2.2.2
          omega
        · exfalso
          have := b.2.2.2.2.2.2.2.2.2
          omega
      obtain ⟨b1, b2, b3, b4, b5, b6⟩ := hS1
      have b5b : s.evs.countP (isNotifyEv s.gen) = 0 := by
        rw [hregf] at b5
        simpa using b5
      refine ⟨a1, ?_, ?_, ?_, ?_, ?_⟩
      · show s.ca + (l₁ ++ pc' :: l₂).countP isPassed ≤ sender_active + ns
        rw [hEq isPassed f1]
        exact a2
      · rcases a3 with ⟨c1, c2, c3⟩ | ⟨c1, c2, c3, c4, c5⟩
        · left
          refine ⟨?_, ?_, c3⟩
          · show (s.evs ++ [Ev.notify s.gen l₁.length]).countP (isFullwinEv s.gen) = 1
            rw [countP_snoc_false _ _ (by simp only [isFullwinEv])]
            exact c1
          · show (s.evs ++ [Ev.notify s.gen l₁.length]).countP (isStealEv s.gen) = 0
            rw [countP_snoc_false _ _ (by simp only [isStealEv])]
            exact c2
        · right
          refine ⟨?_, ?_, c3, c4, ?_⟩
          · show (s.evs ++ [Ev.notify s.gen l₁.length]).countP (isFullwinEv s.gen) = 0
            rw [countP_snoc_false _ _ (by simp only [isFullwinEv])]
            exact c1
          · show (s.evs ++ [Ev.notify s.gen l₁.length]).countP (isStealEv s.gen) = 1
            rw [countP_snoc_false _ _ (by simp only [isStealEv])]
            exact c2
          · show (l₁ ++ pc' :: l₂).countP isFullTail = 0
            rw [hEq isFullTail f6]
            exact c5
      · show (l₁ ++ pc' :: l₂).countP isFullStore = 0
        rw [hEq isFullStore f5]
        exact a4
      · show (l₁ ++ pc' :: l₂).countP (isHolder (mc - 1)) = 0
        rw [hEq (isHolder (mc - 1)) (f2 _)]
        exact a4b
      · left
        refine ⟨?_, ?_, ?_, ?_, ?_, ?_⟩
        · show (l₁ ++ pc' :: l₂).countP isFullTail +
              (l₁ ++ pc' :: l₂).countP isSbSpinAny = 1
          rw [hEq isFullTail f6, hEq isSbSpinAny f7]
          exact b1
        · show (l₁ ++ pc' :: l₂).countP isSbClearRegAny = 0
          rw [hEq isSbClearRegAny f8]
          exact b2
        · show (l₁ ++ pc' :: l₂).countP isSbClearCWAny = 0
          rw [hEq isSbClearCWAny f9]
          exact b3
        · show (l₁ ++ pc' :: l₂).countP isSbClearCAAny = 0
          rw [hEq isSbClearCAAny f10]
          exact b4
        · show (s.evs ++ [Ev.notify s.gen l₁.length]).countP (isNotifyEv s.gen) =
              (if (true : Bool) then 1 else 0)
          rw [hnotify, b5b]
          simp
        · show s.cw + (l₁ ++ pc' :: l₂).countP isHolderAny +
              (l₁ ++ pc' :: l₂).countP isPreIncr = s.valid
          rw [hEq isHolderAny f3, hEq isPreIncr f4]
          exact b6

theorem step_sFullReg {mc ns : Nat} {s core : CSt} {l₁ l₂ : List APC} {pc' : APC}
    (inv : CInv mc ns s) (hag : s.agents = l₁ ++ APC.sFullReg :: l₂)
    (hstep : astep mc s l₁.length APC.sFullReg = some (core, pc')) :
    CInv mc ns { core with agents := l₁ ++ pc' :: l₂ } := by
  simp only [astep] at hstep
  split at hstep
  case isTrue hregt =>
    cases hstep
    exact step_reg_noop inv hag hregt (Or.inl ⟨rfl, rfl⟩)
  case isFalse hregt =>
    have hregf : s.reg = false := by
      revert hregt
      cases s.reg <;> simp
    cases hstep
    exact step_notify inv hag hregf (Or.inl ⟨rfl, rfl⟩)

theorem step_sReg0 {mc ns : Nat} {s core : CSt} {l₁ l₂ : List APC} {pc' : APC}
    (inv : CInv mc ns s) (hag : s.agents = l₁ ++ APC.sReg0 :: l₂)
    (hstep : astep mc s l₁.length APC.sReg0 = some (core, pc')) :
    CInv mc ns { core with agents := l₁ ++ pc' :: l₂ } := by
  simp only [astep] at hstep
  split at hstep
  case isTrue hregt =>
    cases hstep
    exact step_reg_noop inv hag hregt (Or.inr ⟨rfl, rfl⟩)
  case isFalse hregt =>
    have hregf : s.reg = false := by
      revert hregt
      cases s.reg <;> simp
    cases hstep
    exact step_notify inv hag hregf (Or.inr ⟨rfl, rfl⟩)

theorem step_sFullIncr {mc ns : Nat} {s core : CSt} {l₁ l₂ : List APC} {pc' : APC}
    (inv : CInv mc ns s) (hag : s.agents = l₁ ++ APC.sFullIncr :: l₂)
    (hstep : astep mc s l₁.length APC.sFullIncr = some (core, pc')) :
    CInv mc ns { core with agents := l₁ ++ pc' :: l₂ } := by
  simp only [astep] at hstep
  cases hstep
  have hFT : 0 < s.agents.countP isFullTail := by
    rw [hag]
    exact countP_pos_of_mid _ l₁ l₂ rfl
  have hS : PhaseS mc ns s := by
    rcases inv.hphase with hp | hp | hp
    · exfalso
      have h := hp.2.2.2.2.1
      omega
    · exfalso
      have h := hp.2.2.2.2.2.2.1
      omega
    · exact hp
  obtain ⟨a1, a2, a3, a4, a4b, a5⟩ := hS
  have hS1 : s.agents.countP isFullTail + s.agents.countP isSbSpinAny = 1 ∧
      s.agents.countP isSbClearRegAny = 0 ∧ s.agents.countP isSbClearCWAny = 0 ∧
      s.agents.countP isSbClearCAAny = 0 ∧
      s.evs.countP (isNotifyEv s.gen) = (if s.reg then 1 else 0) ∧
      s.cw + s.agents.countP isHolderAny + s.agents.countP isPreIncr = s.valid := by
    rcases a5 with b | b | b | b
    · exact b
    · exfalso
      have := b.1
      omega
    · exfalso
      have := b.1
      omega
    · exfalso
      have := b.1
      omega
  obtain ⟨b1, b2, b3, b4, b5, b6⟩ := hS1
  have hvm : s.valid = mc := by
    rcases a3 with ⟨c1, c2, c3⟩ | ⟨c1, c2, c3, c4, c5⟩
    · exact c3
    · omega
  have hEq : ∀ p : APC → Bool, p APC.sFullIncr = p (APC.sbSpin s.gen mc) →
      (l₁ ++ APC.sbSpin s.gen mc :: l₂).countP p = s.agents.countP p := fun p h => by
    rw [hag]
    exact countP_mid_swap_eq p l₁ l₂ h
  have hFTd : (l₁ ++ APC.sbSpin s.gen mc :: l₂).countP isFullTail + 1 =
      s.agents.countP isFullTail := by
    rw [hag, countP_mid, countP_mid]
    simp [isFullTail, isSbSpinAny]
  have hSSd : (l₁ ++ APC.sbSpin s.gen mc :: l₂).countP isSbSpinAny =
      s.agents.countP isSbSpinAny + 1 := by
    rw [hag, countP_mid, countP_mid]
    simp [isSbSpinAny]
  have hPrd : (l₁ ++ APC.sbSpin s.gen mc :: l₂).countP isPreIncr + 1 =
      s.agents.countP isPreIncr := by
    rw [hag, countP_mid, countP_mid]
    simp [isPreIncr]
  have hmem : ∀ q ∈ l₁ ++ APC.sbSpin s.gen mc :: l₂,
      q = APC.sbSpin s.gen mc ∨ q ∈ s.agents := fun q hq => by
    rcases mem_mid_cases hq APC.sFullIncr with h | h
    · exact Or.inl h
    · exact Or.inr (hag ▸ h)
  refine ⟨hlen_swap hag _ inv.hlen, inv.hev_le, inv.hev_tr, ?_, ?_, ?_, ?_, ?_,
    inv.hvalid, ?_⟩
  · intro g hg
    obtain ⟨a, b, c, d⟩ := inv.hist g hg
    exact ⟨a, b, by rw [hEq (isSbTransmit g) rfl]; exact c, d⟩
  · intro q hq g c hql
    rcases hmem q hq with rfl | h
    · simp [sbLocal] at hql
      obtain ⟨h1, h2⟩ := hql
      refine ⟨?_, ?_⟩
      · show g = s.gen
        omega
      · show c = s.valid
        omega
    · exact inv.hsb q h g c hql
  · intro q hq g c hql
    rcases hmem q hq with rfl | h
    · simp [trLocal] at hql
    · exact inv.htr q h g c hql
  · intro t
    rw [hEq (isHolder t) rfl]
    exact inv.hslot t
  · intro hr hv h1 h2 h3
    have hr2 : s.reg = false := hr
    have hv2 : 0 < s.valid := hv
    have h1b : (l₁ ++ APC.sbSpin s.gen mc :: l₂).countP isSbClearRegAny = 0 := h1
    have h2b : (l₁ ++ APC.sbSpin s.gen mc :: l₂).countP isSbClearCWAny = 0 := h2
    have h3b : (l₁ ++ APC.sbSpin s.gen mc :: l₂).countP isSbClearCAAny = 0 := h3
    rw [hEq isSbClearRegAny rfl] at h1b
    rw [hEq isSbClearCWAny rfl] at h2b
    rw [hEq isSbClearCAAny rfl] at h3b
    have hq := inv.hreg0 hr2 hv2 h1b h2b h3b
    show 0 < (l₁ ++ APC.sbSpin s.gen mc :: l₂).countP (isHolder 0) +
        (l₁ ++ APC.sbSpin s.gen mc :: l₂).countP isReg0 +
        (l₁ ++ APC.sbSpin s.gen mc :: l₂).countP isFullStore +
        (l₁ ++ APC.sbSpin s.gen mc :: l₂).countP isFullReg
    rw [hEq (isHolder 0) rfl, hEq isReg0 rfl, hEq isFullStore rfl, hEq isFullReg rfl]
    omega
  · right; right
    refine ⟨a1, ?_, ?_, ?_, ?_, ?_⟩
    · show s.ca + (l₁ ++ APC.sbSpin s.gen mc :: l₂).countP isPassed ≤ sender_active + ns
      rw [hEq isPassed rfl]
      exact a2
    · rcases a3 with ⟨c1, c2, c3⟩ | ⟨c1, c2, c3, c4, c5⟩
      · exact Or.inl ⟨c1, c2, c3⟩
      · exact absurd c5 (by omega)
    · show (l₁ ++ APC.sbSpin s.gen mc :: l₂).countP isFullStore = 0
      rw [hEq isFullStore rfl]
      exact a4
    · show (l₁ ++ APC.sbSpin s.gen mc :: l₂).countP (isHolder (mc - 1)) = 0
      rw [hEq (isHolder (mc - 1)) rfl]
      exact a4b
    · left
      refine ⟨?_, ?_, ?_, ?_, b5, ?_⟩
      · show (l₁ ++ APC.sbSpin s.gen mc :: l₂).countP isFullTail +
            (l₁ ++ APC.sbSpin s.gen mc :: l₂).countP isSbSpinAny = 1
        omega
      · show (l₁ ++ APC.sbSpin s.gen mc :: l₂).countP isSbClearRegAny = 0
        rw [hEq isSbClearRegAny rfl]
        exact b2
      · show (l₁ ++ APC.sbSpin s.gen mc :: l₂).countP isSbClearCWAny = 0
        rw [hEq isSbClearCWAny rfl]
        exact b3
      · show (l₁ ++ APC.sbSpin s.gen mc :: l₂).countP isSbClearCAAny = 0
        rw [hEq isSbClearCAAny rfl]
        exact b4
      · show s.cw + 1 + (l₁ ++ APC.sbSpin s.gen mc :: l₂).countP isHolderAny +
            (l₁ ++ APC.sbSpin s.gen mc :: l₂).countP isPreIncr = s.valid
        rw [hEq isHolderAny rfl]
        omega

theorem step_sIncr {mc ns : Nat} {s core : CSt} {l₁ l₂ : List APC} {pc' : APC}
    (inv : CInv mc ns s) (hag : s.agents = l₁ ++ APC.sIncr :: l₂)
    (hstep : astep mc s l₁.length APC.sIncr = some (core, pc')) :
    CInv mc ns { core with agents := l₁ ++ pc' :: l₂ } := by
  simp only [astep] at hstep
  cases hstep
  have hPI : 0 < s.agents.countP isPreIncr := by
    rw [hag]
    exact countP_pos_of_mid _ l₁ l₂ rfl
  have hEq : ∀ p : APC → Bool, p APC.sIncr = p APC.done →
      (l₁ ++ APC.done :: l₂).countP p = s.agents.countP p := fun p h => by
    rw [hag]
    exact countP_mid_swap_eq p l₁ l₂ h
  have hPrd : (l₁ ++ APC.done :: l₂).countP isPreIncr + 1 =
      s.agents.countP isPreIncr := by
    rw [hag, countP_mid, countP_mid]
    simp [isPreIncr]
  have hmem : ∀ q ∈ l₁ ++ APC.done :: l₂, q = APC.done ∨ q ∈ s.agents := fun q hq => by
    rcases mem_mid_cases hq APC.sIncr with h | h
    · exact Or.inl h
    · exact Or.inr (hag ▸ h)
  refine ⟨hlen_swap hag _ inv.hlen, inv.hev_le, inv.hev_tr, ?_, ?_, ?_, ?_, ?_,
    inv.hvalid, ?_⟩
  · intro g hg
    obtain ⟨a, b, c, d⟩ := inv.hist g hg
    exact ⟨a, b, by rw [hEq (isSbTransmit g) rfl]; exact c, d⟩
  · intro q hq g c hql
    rcases hmem q hq with rfl | h
    · simp [sbLocal] at hql
    · exact inv.hsb q h g c hql
  · intro q hq g c hql
    rcases hmem q hq with rfl | h
    · simp [trLocal] at hql
    · exact inv.htr q h g c hql
  · intro t
    rw [hEq (isHolder t) rfl]
    exact inv.hslot t
  · intro hr hv h1 h2 h3
    have hr2 : s.reg = false := hr
    have hv2 : 0 < s.valid := hv
    have h1b : (l₁ ++ APC.done :: l₂).countP isSbClearRegAny = 0 := h1
    have h2b : (l₁ ++ APC.done :: l₂).countP isSbClearCWAny = 0 := h2
    have h3b : (l₁ ++ APC.done :: l₂).countP isSbClearCAAny = 0 := h3
    rw [hEq isSbClearRegAny rfl] at h1b
    rw [hEq isSbClearCWAny rfl] at h2b
    rw [hEq isSbClearCAAny rfl] at h3b
    have hq := inv.hreg0 hr2 hv2 h1b h2b h3b
    show 0 < (l₁ ++ APC.done :: l₂).countP (isHolder 0) +
        (l₁ ++ APC.done :: l₂).countP isReg0 +
        (l₁ ++ APC.done :: l₂).countP isFullStore +
        (l₁ ++ APC.done :: l₂).countP isFullReg
    rw [hEq (isHolder 0) rfl, hEq isReg0 rfl, hEq isFullStore rfl, hEq isFullReg rfl]
    omega
  · rcases inv.hphase with hp | hp | hp
    · left
      obtain ⟨o1, o2, o3, o4, o5, o6, o7, o8, o9, o10, o11⟩ := hp
      refine ⟨o1, o2, o3, ?_, ?_, ?_, ?_, ?_, ?_, o10, ?_⟩
      · show (l₁ ++ APC.done :: l₂).countP isFullStore = 0
        rw [hEq isFullStore rfl]
        exact o4
      · show (l₁ ++ APC.done :: l₂).countP isFullTail = 0
        rw [hEq isFullTail rfl]
        exact o5
      · show (l₁ ++ APC.done :: l₂).countP isSbSpinAny = 0
        rw [hEq isSbSpinAny rfl]
        exact o6
      · show (l₁ ++ APC.done :: l₂).countP isSbClearRegAny = 0
        rw [hEq isSbClearRegAny rfl]
        exact o7
      · show (l₁ ++ APC.done :: l₂).countP isSbClearCWAny = 0
        rw [hEq isSbClearCWAny rfl]
        exact o8
      · show (l₁ ++ APC.done :: l₂).countP isSbClearCAAny = 0
        rw [hEq isSbClearCAAny rfl]
        exact o9
      · show s.cw + 1 + (l₁ ++ APC.done :: l₂).countP isHolderAny +
            (l₁ ++ APC.done :: l₂).countP isPreIncr = s.valid
        rw [hEq isHolderAny rfl]
        omega
    · right; left
      obtain ⟨w1, w2, w3, w4, w5, w6, w7, w8, w9, w10, w11, w12, w13⟩ := hp
      refine ⟨w1, ?_, w3, w4, w5, ?_, ?_, ?_, ?_, ?_, ?_, w12, ?_⟩
      · show s.ca + (l₁ ++ APC.done :: l₂).countP isPassed ≤ mc + ns
        rw [hEq isPassed rfl]
        exact w2
      · show (l₁ ++ APC.done :: l₂).countP isFullStore +
            (l₁ ++ APC.done :: l₂).countP (isHolder (mc - 1)) = 1
        rw [hEq isFullStore rfl, hEq (isHolder (mc - 1)) rfl]
        exact w6
      · show (l₁ ++ APC.done :: l₂).countP isFullTail = 0
        rw [hEq isFullTail rfl]
        exact w7
      · show (l₁ ++ APC.done :: l₂).countP isSbSpinAny = 0
        rw [hEq isSbSpinAny rfl]
        exact w8
      · show (l₁ ++ APC.done :: l₂).countP isSbClearRegAny = 0
        rw [hEq isSbClearRegAny rfl]
        exact w9
      · show (l₁ ++ APC.done :: l₂).countP isSbClearCWAny = 0
        rw [hEq isSbClearCWAny rfl]
        exact w10
      · show (l₁ ++ APC.done :: l₂).countP isSbClearCAAny = 0
        rw [hEq isSbClearCAAny rfl]
        exact w11
      · show s.cw + 1 + (l₁ ++ APC.done :: l₂).countP isHolderAny +
            (l₁ ++ APC.done :: l₂).countP isPreIncr = s.valid
        rw [hEq isHolderAny rfl]
        omega
    · right; right
      obtain ⟨a1, a2, a3, a4, a4b, a5⟩ := hp
      have hS1 : s.agents.countP isFullTail + s.agents.countP isSbSpinAny = 1 ∧
          s.agents.countP isSbClearRegAny = 0 ∧ s.agents.countP isSbClearCWAny = 0 ∧
          s.agents.countP isSbClearCAAny = 0 ∧
          s.evs.countP (isNotifyEv s.gen) = (if s.reg then 1 else 0) ∧
          s.cw + s.agents.countP isHolderAny + s.agents.countP isPreIncr = s.valid := by
        rcases a5 with b | b | b | b
        · exact b
        · exfalso
          have := b.2.2.2.2.2.2.2.2.2
          omega
        · exfalso
          have := b.2.2.2.2.2.2.2.2.2
          omega
        · exfalso
          have := b.2.2.2.2.2.2.2.2.2
          omega
      obtain ⟨b1, b2, b3, b4, b5, b6⟩ := hS1
      refine ⟨a1, ?_, ?_, ?_, ?_, ?_⟩
      · show s.ca + (l₁ ++ APC.done :: l₂).countP isPassed ≤ sender_active + ns
        rw [hEq isPassed rfl]
        exact a2
      · rcases a3 with ⟨c1, c2, c3⟩ | ⟨c1, c2, c3, c4, c5⟩
        · exact Or.inl ⟨c1, c2, c3⟩
        · refine Or.inr ⟨c1, c2, c3, c4, ?_⟩
          show (l₁ ++ APC.done :: l₂).countP isFullTail = 0
          rw [hEq isFullTail rfl]
          exact c5
      · show (l₁ ++ APC.done :: l₂).countP isFullStore = 0
        rw [hEq isFullStore rfl]
        exact a4
      · show (l₁ ++ APC.done :: l₂).countP (isHolder (mc - 1)) = 0
        rw [hEq (isHolder (mc - 1)) rfl]
        exact a4b
      · left
        refine ⟨?_, ?_, ?_, ?_, b5, ?_⟩
        · show (l₁ ++ APC.done :: l₂).countP isFullTail +
              (l₁ ++ APC.done :: l₂).countP isSbSpinAny = 1
          rw [hEq isFullTail rfl, hEq isSbSpinAny rfl]
          exact b1
        · show (l₁ ++ APC.done :: l₂).countP isSbClearRegAny = 0
          rw [hEq isSbClearRegAny rfl]
          exact b2
        · show (l₁ ++ APC.done :: l₂).countP isSbClearCWAny = 0
          rw [hEq isSbClearCWAny rfl]
          exact b3
        · show (l₁ ++ APC.done :: l₂).countP isSbClearCAAny = 0
          rw [hEq isSbClearCAAny rfl]
          exact b4
        · show s.cw + 1 + (l₁ ++ APC.done :: l₂).countP isHolderAny +
              (l₁ ++ APC.done :: l₂).countP isPreIncr = s.valid
          rw [hEq isHolderAny rfl]
          omega

theorem step_fCAS_steal {mc ns : Nat} (hb : mc + ns ≤ count_mask) {s core : CSt}
    {l₁ l₂ : List APC} {pc' : APC} {m : Nat}
    (inv : CInv mc ns s) (hag : s.agents = l₁ ++ APC.fCAS m :: l₂)
    (hca : s.ca = m) (hm : 0 < m ∧ m < mc)
    (hstep : astep mc s l₁.length (APC.fCAS m) = some (core, pc')) :
    CInv mc ns { core with agents := l₁ ++ pc' :: l₂ } := by
  simp only [astep] at hstep
  rw [if_pos hca] at hstep
  cases hstep
  have hO : PhaseO mc s := by
    rcases inv.hphase with hp | hp | hp
    · exact hp
    · exfalso
      have h1 := hp.1
      omega
    · exfalso
      have h1 := hp.1
      have hsa : count_mask < sender_active := by decide
      omega
  obtain ⟨o1, o2, o3, o4, o5, o6, o7, o8, o9, o10, o11⟩ := hO
  have hvm : s.valid = m := by omega
  have hsplit := countP_sender_split s.gen s.evs
  have hPns : s.agents.countP isPassed ≤ ns :=
    le_trans (List.countP_le_length _) (le_of_eq inv.hlen)
  have hEq : ∀ p : APC → Bool, p (APC.fCAS m) = p (APC.sbSpin s.gen m) →
      (l₁ ++ APC.sbSpin s.gen m :: l₂).countP p = s.agents.countP p := fun p h => by
    rw [hag]
    exact countP_mid_swap_eq p l₁ l₂ h
  have hSSd : (l₁ ++ APC.sbSpin s.gen m :: l₂).countP isSbSpinAny =
      s.agents.countP isSbSpinAny + 1 := by
    rw [hag, countP_mid, countP_mid]
    simp [isSbSpinAny]
  have hmem : ∀ q ∈ l₁ ++ APC.sbSpin s.gen m :: l₂,
      q = APC.sbSpin s.gen m ∨ q ∈ s.agents := fun q hq => by
    rcases mem_mid_cases hq (APC.fCAS m) with h | h
    · exact Or.inl h
    · exact Or.inr (hag ▸ h)
  refine ⟨hlen_swap hag _ inv.hlen, ?_, ?_, ?_, ?_, ?_, ?_, ?_, inv.hvalid, ?_⟩
  · intro ev hev
    rw [List.mem_append] at hev
    rcases hev with h | h
    · exact inv.hev_le ev h
    · simp at h; subst h; simp [evGen]
  · intro ev hev
    rw [List.mem_append] at hev
    rcases hev with h | h
    · exact inv.hev_tr ev h
    · simp at h; subst h; simp [isTransmitAny]
  · intro g hg
    have hg2 : g < s.gen := hg
    have hgb : (s.gen == g) = false := beq_eq_false_iff_ne.mpr (by omega)
    obtain ⟨a, b, c, d⟩ := inv.hist g hg2
    refine ⟨?_, ?_, ?_, ?_⟩
    · show (s.evs ++ [Ev.steal s.gen l₁.length]).countP (isSenderEv g) = 1
      rw [countP_snoc_false _ _ (by simp only [isSenderEv]; exact hgb)]
      exact a
    · show (s.evs ++ [Ev.steal s.gen l₁.length]).countP (isNotifyEv g) = 1
      rw [countP_snoc_false _ _ (by simp only [isNotifyEv])]
      exact b
    · show (s.evs ++ [Ev.steal s.gen l₁.length]).countP (isTransmitEv g) +
          (l₁ ++ APC.sbSpin s.gen m :: l₂).countP (isSbTransmit g) = 1
      rw [countP_snoc_false _ _ (by simp only [isTransmitEv]),
        hEq (isSbTransmit g) rfl]
      exact c
    · intro t
      show (s.evs ++ [Ev.steal s.gen l₁.length]).countP (isWriteEv g t) ≤ 1
      rw [countP_snoc_false _ _ (by simp only [isWriteEv])]
      exact d t
  · intro q hq g c hql
    rcases hmem q hq with rfl | h
    · simp [sbLocal] at hql
      obtain ⟨h1, h2⟩ := hql
      refine ⟨?_, ?_⟩
      · show g = s.gen
        omega
      · show c = s.valid
        omega
    · exact inv.hsb q h g c hql
  · intro q hq g c hql
    rcases hmem q hq with rfl | h
    · simp [trLocal] at hql
    · exact inv.htr q h g c hql
  · intro t
    show (s.evs ++ [Ev.steal s.gen l₁.length]).countP (isWriteEv s.gen t) +
        (l₁ ++ APC.sbSpin s.gen m :: l₂).countP (isHolder t) = (if t < s.valid then 1 else 0)
    rw [countP_snoc_false _ _ (by simp only [isWriteEv]), hEq (isHolder t) rfl]
    exact inv.hslot t
  · intro hr hv h1 h2 h3
    have hr2 : s.reg = false := hr
    have hv2 : 0 < s.valid := hv
    have h1b : (l₁ ++ APC.sbSpin s.gen m :: l₂).countP isSbClearRegAny = 0 := h1
    have h2b : (l₁ ++ APC.sbSpin s.gen m :: l₂).countP isSbClearCWAny = 0 := h2
    have h3b : (l₁ ++ APC.sbSpin s.gen m :: l₂).countP isSbClearCAAny = 0 := h3
    rw [hEq isSbClearRegAny rfl] at h1b
    rw [hEq isSbClearCWAny rfl] at h2b
    rw [hEq isSbClearCAAny rfl] at h3b
    have hq := inv.hreg0 hr2 hv2 h1b h2b h3b
    show 0 < (l₁ ++ APC.sbSpin s.gen m :: l₂).countP (isHolder 0) +
        (l₁ ++ APC.sbSpin s.gen m :: l₂).countP isReg0 +
        (l₁ ++ APC.sbSpin s.gen m :: l₂).countP isFullStore +
        (l₁ ++ APC.sbSpin s.gen m :: l₂).countP isFullReg
    rw [hEq (isHolder 0) rfl, hEq isReg0 rfl, hEq isFullStore rfl, hEq isFullReg rfl]
    omega
  · right; right
    refine ⟨le_refl _, ?_, ?_, ?_, ?_, ?_⟩
    · show sender_active + (l₁ ++ APC.sbSpin s.gen m :: l₂).countP isPassed ≤
          sender_active + ns
      rw [hEq isPassed rfl]
      omega
    · refine Or.inr ⟨?_, ?_, ?_, ?_, ?_⟩
      · show (s.evs ++ [Ev.steal s.gen l₁.length]).countP (isFullwinEv s.gen) = 0
        rw [countP_snoc_false _ _ (by simp only [isFullwinEv])]
        omega
      · show (s.evs ++ [Ev.steal s.gen l₁.length]).countP (isStealEv s.gen) = 1
        rw [countP_snoc_true _ _ (by simp [isStealEv])]
        omega
      · show 0 < s.valid
        omega
      · show s.valid < mc
        omega
      · show (l₁ ++ APC.sbSpin s.gen m :: l₂).countP isFullTail = 0
        rw [hEq isFullTail rfl]
        exact o5
    · show (l₁ ++ APC.sbSpin s.gen m :: l₂).countP isFullStore = 0
      rw [hEq isFullStore rfl]
      exact o4
    · show (l₁ ++ APC.sbSpin s.gen m :: l₂).countP (isHolder (mc - 1)) = 0
      rw [hEq (isHolder (mc - 1)) rfl]
      have hmt := inv.hslot (mc - 1)
      rw [if_neg (by omega : ¬(mc - 1 < s.valid))] at hmt
      omega
    · left
      refine ⟨?_, ?_, ?_, ?_, ?_, ?_⟩
      · show (l₁ ++ APC.sbSpin s.gen m :: l₂).countP isFullTail +
            (l₁ ++ APC.sbSpin s.gen m :: l₂).countP isSbSpinAny = 1
        rw [hEq isFullTail rfl]
        omega
      · show (l₁ ++ APC.sbSpin s.gen m :: l₂).countP isSbClearRegAny = 0
        rw [hEq isSbClearRegAny rfl]
        exact o7
      · show (l₁ ++ APC.sbSpin s.gen m :: l₂).countP isSbClearCWAny = 0
        rw [hEq isSbClearCWAny rfl]
        exact o8
      · show (l₁ ++ APC.sbSpin s.gen m :: l₂).countP isSbClearCAAny = 0
        rw [hEq isSbClearCAAny rfl]
        exact o9
      · show (s.evs ++ [Ev.steal s.gen l₁.length]).countP (isNotifyEv s.gen) =
            (if s.reg then 1 else 0)
        rw [countP_snoc_false _ _ (by simp only [isNotifyEv])]
        exact o10
      · show s.cw + (l₁ ++ APC.sbSpin s.gen m :: l₂).countP isHolderAny +
            (l₁ ++ APC.sbSpin s.gen m :: l₂).countP isPreIncr = s.valid
        rw [hEq isHolderAny rfl, hEq isPreIncr rfl]
        exact o11

theorem reg0_le_preIncr (l : List APC) : l.countP isReg0 ≤ l.countP isPreIncr :=
  countP_le_countP l (fun a ha => by cases a <;> simp_all [isReg0, isPreIncr])

theorem fullStore_le_preIncr (l : List APC) : l.countP isFullStore ≤ l.countP isPreIncr :=
  countP_le_countP l (fun a ha => by cases a <;> simp_all [isFullStore, isPreIncr])

theorem fullReg_le_preIncr (l : List APC) : l.countP isFullReg ≤ l.countP isPreIncr :=
  countP_le_countP l (fun a ha => by cases a <;> simp_all [isFullReg, isPreIncr])

theorem step_sbSpin {mc ns : Nat} (h0 : 0 < mc) {s core : CSt} {l₁ l₂ : List APC}
    {pc' : APC} {g c : Nat}
    (inv : CInv mc ns s) (hag : s.agents = l₁ ++ APC.sbSpin g c :: l₂)
    (hstep : astep mc s l₁.length (APC.sbSpin g c) = some (core, pc')) :
    CInv mc ns { core with agents := l₁ ++ pc' :: l₂ } := by
  simp only [astep] at hstep
  split at hstep
  case isTrue hcw =>
    cases hstep
    have hmemself : APC.sbSpin g c ∈ s.agents := by
      rw [hag]
      exact List.mem_append.mpr (Or.inr (List.mem_cons_self _ _))
    obtain ⟨hg, hc⟩ := inv.hsb _ hmemself g c rfl
    have hSS : 0 < s.agents.countP isSbSpinAny := by
      rw [hag]
      exact countP_pos_of_mid _ l₁ l₂ rfl
    have hS : PhaseS mc ns s := by
      rcases inv.hphase with hp | hp | hp
      · exfalso
        have h := hp.2.2.2.2.2.1
        omega
      · exfalso
        have h := hp.2.2.2.2.2.2.2.1
        omega
      · exact hp
    obtain ⟨a1, a2, a3, a4, a4b, a5⟩ := hS
    have hS1 : s.agents.countP isFullTail + s.agents.countP isSbSpinAny = 1 ∧
        s.agents.countP isSbClearRegAny = 0 ∧ s.agents.countP isSbClearCWAny = 0 ∧
        s.agents.countP isSbClearCAAny = 0 ∧
        s.evs.countP (isNotifyEv s.gen) = (if s.reg then 1 else 0) ∧
        s.cw + s.agents.countP isHolderAny + s.agents.countP isPreIncr = s.valid := by
      rcases a5 with b | b | b | b
      · exact b
      · exfalso
        have := b.2.1
        omega
      · exfalso
        have := b.2.1
        omega
      · exfalso
        have := b.2.1
        omega
    obtain ⟨b1, b2, b3, b4, b5, b6⟩ := hS1
    have hHA : s.agents.countP isHolderAny = 0 := by omega
    have hPI : s.agents.countP isPreIncr = 0 := by omega
    have hvpos : 0 < s.valid := by
      rcases a3 with ⟨c1, c2, c3⟩ | ⟨c1, c2, c3, c4, c5⟩
      · omega
      · exact c3
    have hreg : s.reg = true := by
      by_contra hrf
      have hrf2 : s.reg = false := by
        revert hrf
        cases s.reg <;> simp
      have hcl := inv.hreg0 hrf2 hvpos b2 b3 b4
      have m1 := holder_le_holderAny 0 s.agents
      have m2 := reg0_le_preIncr s.agents
      have m3 := fullStore_le_preIncr s.agents
      have m4 := fullReg_le_preIncr s.agents
      omega
    have hEq : ∀ p : APC → Bool, p (APC.sbSpin g c) = p (APC.sbClearReg g c) →
        (l₁ ++ APC.sbClearReg g c :: l₂).countP p = s.agents.countP p := fun p h => by
      rw [hag]
      exact countP_mid_swap_eq p l₁ l₂ h
    have hSSd : (l₁ ++ APC.sbClearReg g c :: l₂).countP isSbSpinAny + 1 =
        s.agents.countP isSbSpinAny := by
      rw [hag, countP_mid, countP_mid]
      simp [isSbSpinAny, isSbClearRegAny]
    have hCRd : (l₁ ++ APC.sbClearReg g c :: l₂).countP isSbClearRegAny =
        s.agents.countP isSbClearRegAny + 1 := by
      rw [hag, countP_mid, countP_mid]
      simp [isSbClearRegAny]
    have hmem : ∀ q ∈ l₁ ++ APC.sbClearReg g c :: l₂,
        q = APC.sbClearReg g c ∨ q ∈ s.agents := fun q hq => by
      rcases mem_mid_cases hq (APC.sbSpin g c) with h | h
      · exact Or.inl h
      · exact Or.inr (hag ▸ h)
    refine ⟨hlen_swap hag _ inv.hlen, inv.hev_le, inv.hev_tr, ?_, ?_, ?_, ?_, ?_,
      inv.hvalid, ?_⟩
    · intro g2 hg2
      obtain ⟨a, b, c2, d⟩ := inv.hist g2 hg2
      exact ⟨a, b, by rw [hEq (isSbTransmit g2) rfl]; exact c2, d⟩
    · intro q hq g2 c2 hql
      rcases hmem q hq with rfl | h
      · simp [sbLocal] at hql
        obtain ⟨h1, h2⟩ := hql
        refine ⟨?_, ?_⟩
        · show g2 = s.gen
          omega
        · show c2 = s.valid
          omega
      · exact inv.hsb q h g2 c2 hql
    · intro q hq g2 c2 hql
      rcases hmem q hq with rfl | h
      · simp [trLocal] at hql
      · exact inv.htr q h g2 c2 hql
    · intro t
      rw [hEq (isHolder t) rfl]
      exact inv.hslot t
    · intro hr hv h1 h2 h3
      have hr2 : s.reg = false := hr
      rw [hreg] at hr2
      exact absurd hr2 (by simp)
    · right; right
      refine ⟨a1, ?_, ?_, ?_, ?_, ?_⟩
      · show s.ca + (l₁ ++ APC.sbClearReg g c :: l₂).countP isPassed ≤ sender_active + ns
        rw [hEq isPassed rfl]
        exact a2
      · rcases a3 with ⟨c1, c2, c3⟩ | ⟨c1, c2, c3, c4, c5⟩
        · exact Or.inl ⟨c1, c2, c3⟩
        · refine Or.inr ⟨c1, c2, c3, c4, ?_⟩
          show (l₁ ++ APC.sbClearReg g c :: l₂).countP isFullTail = 0
          rw [hEq isFullTail rfl]
          exact c5
      · show (l₁ ++ APC.sbClearReg g c :: l₂).countP isFullStore = 0
        rw [hEq isFullStore rfl]
        exact a4
      · show (l₁ ++ APC.sbClearReg g c :: l₂).countP (isHolder (mc - 1)) = 0
        rw [hEq (isHolder (mc - 1)) rfl]
        exact a4b
      · right; left
        refine ⟨?_, ?_, ?_, ?_, ?_, ?_, ?_, ?_, ?_, ?_⟩
        · show (l₁ ++ APC.sbClearReg g c :: l₂).countP isFullTail = 0
          rw [hEq isFullTail rfl]
          omega
        · show (l₁ ++ APC.sbClearReg g c :: l₂).countP isSbSpinAny = 0
          omega
        · show (l₁ ++ APC.sbClearReg g c :: l₂).countP isSbClearRegAny = 1
          omega
        · show (l₁ ++ APC.sbClearReg g c :: l₂).countP isSbClearCWAny = 0
          rw [hEq isSbClearCWAny rfl]
          exact b3
        · show (l₁ ++ APC.sbClearReg g c :: l₂).countP isSbClearCAAny = 0
          rw [hEq isSbClearCAAny rfl]
          exact b4
        · show s.reg = true
          exact hreg
        · show s.evs.countP (isNotifyEv s.gen) = 1
          rw [hreg] at b5
          simpa using b5
        · show s.cw = s.valid
          omega
        · show (l₁ ++ APC.sbClearReg g c :: l₂).countP isHolderAny = 0
          rw [hEq isHolderAny rfl]
          exact hHA
        · show (l₁ ++ APC.sbClearReg g c :: l₂).countP isPreIncr = 0
          rw [hEq isPreIncr rfl]
          exact hPI
  case isFalse =>
    exact absurd hstep (by simp)

theorem step_sbClearReg {mc ns : Nat} {s core : CSt} {l₁ l₂ : List APC}
    {pc' : APC} {g c : Nat}
    (inv : CInv mc ns s) (hag : s.agents = l₁ ++ APC.sbClearReg g c :: l₂)
    (hstep : astep mc s l₁.length (APC.sbClearReg g c) = some (core, pc')) :
    CInv mc ns { core with agents := l₁ ++ pc' :: l₂ } := by
  simp only [astep] at hstep
  cases hstep
  have hmemself : APC.sbClearReg g c ∈ s.agents := by
    rw [hag]
    exact List.mem_append.mpr (Or.inr (List.mem_cons_self _ _))
  obtain ⟨hg, hc⟩ := inv.hsb _ hmemself g c rfl
  have hCR : 0 < s.agents.countP isSbClearRegAny := by
    rw [hag]
    exact countP_pos_of_mid _ l₁ l₂ rfl
  have hS : PhaseS mc ns s := by
    rcases inv.hphase with hp | hp | hp
    · exfalso
      have h := hp.2.2.2.2.2.2.1
      omega
    · exfalso
      have h := hp.2.2.2.2.2.2.2.2.1
      omega
    · exact hp
  obtain ⟨a1, a2, a3, a4, a4b, a5⟩ := hS
  have hS2 : s.agents.countP isFullTail = 0 ∧ s.agents.countP isSbSpinAny = 0 ∧
      s.agents.countP isSbClearRegAny = 1 ∧ s.agents.countP isSbClearCWAny = 0 ∧
      s.agents.countP isSbClearCAAny = 0 ∧
      s.reg = true ∧ s.evs.countP (isNotifyEv s.gen) = 1 ∧
      s.cw = s.valid ∧ s.agents.countP isHolderAny = 0 ∧
      s.agents.countP isPreIncr = 0 := by
    rcases a5 with b | b | b | b
    · exfalso
      have := b.2.1
      omega
    · exact b
    · exfalso
      have := b.2.2.1
      omega
    · exfalso
      have := b.2.2.1
      omega
  obtain ⟨b1, b2, b3, b4, b5, b6, b7, b8, b9, b10⟩ := hS2
  have hEq : ∀ p : APC → Bool, p (APC.sbClearReg g c) = p (APC.sbClearCW g c) →
      (l₁ ++ APC.sbClearCW g c :: l₂).countP p = s.agents.countP p := fun p h => by
    rw [hag]
    exact countP_mid_swap_eq p l₁ l₂ h
  have hCRd : (l₁ ++ APC.sbClearCW g c :: l₂).countP isSbClearRegAny + 1 =
      s.agents.countP isSbClearRegAny := by
    rw [hag, countP_mid, countP_mid]
    simp [isSbClearRegAny, isSbClearCWAny]
  have hCWd : (l₁ ++ APC.sbClearCW g c :: l₂).countP isSbClearCWAny =
      s.agents.countP isSbClearCWAny + 1 := by
    rw [hag, countP_mid, countP_mid]
    simp [isSbClearCWAny]
  have hmem : ∀ q ∈ l₁ ++ APC.sbClearCW g c :: l₂,
      q = APC.sbClearCW g c ∨ q ∈ s.agents := fun q hq => by
    rcases mem_mid_cases hq (APC.sbClearReg g c) with h | h
    · exact Or.inl h
    · exact Or.inr (hag ▸ h)
  refine ⟨hlen_swap hag _ inv.hlen, inv.hev_le, inv.hev_tr, ?_, ?_, ?_, ?_, ?_,
    inv.hvalid, ?_⟩
  · intro g2 hg2
    obtain ⟨a, b, c2, d⟩ := inv.hist g2 hg2
    exact ⟨a, b, by rw [hEq (isSbTransmit g2) rfl]; exact c2, d⟩
  · intro q hq g2 c2 hql
    rcases hmem q hq with rfl | h
    · simp [sbLocal] at hql
      obtain ⟨h1, h2⟩ := hql
      refine ⟨?_, ?_⟩
      · show g2 = s.gen
        omega
      · show c2 = s.valid
        omega
    · exact inv.hsb q h g2 c2 hql
  · intro q hq g2 c2 hql
    rcases hmem q hq with rfl | h
    · simp [trLocal] at hql
    · exact inv.htr q h g2 c2 hql
  · intro t
    rw [hEq (isHolder t) rfl]
    exact inv.hslot t
  · intro hr hv h1 h2 h3
    exfalso
    have h2b : (l₁ ++ APC.sbClearCW g c :: l₂).countP isSbClearCWAny = 0 := h2
    omega
  · right; right
    refine ⟨a1, ?_, ?_, ?_, ?_, ?_⟩
    · show s.ca + (l₁ ++ APC.sbClearCW g c :: l₂).countP isPassed ≤ sender_active + ns
      rw [hEq isPassed rfl]
      exact a2
    · rcases a3 with ⟨c1, c2, c3⟩ | ⟨c1, c2, c3, c4, c5⟩
      · exact Or.inl ⟨c1, c2, c3⟩
      · refine Or.inr ⟨c1, c2, c3, c4, ?_⟩
        show (l₁ ++ APC.sbClearCW g c :: l₂).countP isFullTail = 0
        rw [hEq isFullTail rfl]
        exact c5
    · show (l₁ ++ APC.sbClearCW g c :: l₂).countP isFullStore = 0
      rw [hEq isFullStore rfl]
      exact a4
    · show (l₁ ++ APC.sbClearCW g c :: l₂).countP (isHolder (mc - 1)) = 0
      rw [hEq (isHolder (mc - 1)) rfl]
      exact a4b
    · right; right; left
      refine ⟨?_, ?_, ?_, ?_, ?_, ?_, b7, b8, ?_, ?_⟩
      · show (l₁ ++ APC.sbClearCW g c :: l₂).countP isFullTail = 0
        rw [hEq isFullTail rfl]
        exact b1
      · show (l₁ ++ APC.sbClearCW g c :: l₂).countP isSbSpinAny = 0
        rw [hEq isSbSpinAny rfl]
        exact b2
      · show (l₁ ++ APC.sbClearCW g c :: l₂).countP isSbClearRegAny = 0
        omega
      · show (l₁ ++ APC.sbClearCW g c :: l₂).countP isSbClearCWAny = 1
        omega
      · show (l₁ ++ APC.sbClearCW g c :: l₂).countP isSbClearCAAny = 0
        rw [hEq isSbClearCAAny rfl]
        exact b5
      · show (false : Bool) = false
        rfl
      · show (l₁ ++ APC.sbClearCW g c :: l₂).countP isHolderAny = 0
        rw [hEq isHolderAny rfl]
        exact b9
      · show (l₁ ++ APC.sbClearCW g c :: l₂).countP isPreIncr = 0
        rw [hEq isPreIncr rfl]
        exact b10

theorem step_sbClearCW {mc ns : Nat} {s core : CSt} {l₁ l₂ : List APC}
    {pc' : APC} {g c : Nat}
    (inv : CInv mc ns s) (hag : s.agents = l₁ ++ APC.sbClearCW g c :: l₂)
    (hstep : astep mc s l₁.length (APC.sbClearCW g c) = some (core, pc')) :
    CInv mc ns { core with agents := l₁ ++ pc' :: l₂ } := by
  simp only [astep] at hstep
  cases hstep
  have hmemself : APC.sbClearCW g c ∈ s.agents := by
    rw [hag]
    exact List.mem_append.mpr (Or.inr (List.mem_cons_self _ _))
  obtain ⟨hg, hc⟩ := inv.hsb _ hmemself g c rfl
  have hCW : 0 < s.agents.countP isSbClearCWAny := by
    rw [hag]
    exact countP_pos_of_mid _ l₁ l₂ rfl
  have hS : PhaseS mc ns s := by
    rcases inv.hphase with hp | hp | hp
    · exfalso
      have h := hp.2.2.2.2.2.2.2.1
      omega
    · exfalso
      have h := hp.2.2.2.2.2.2.2.2.2.1
      omega
    · exact hp
  obtain ⟨a1, a2, a3, a4, a4b, a5⟩ := hS
  have hS3 : s.agents.countP isFullTail = 0 ∧ s.agents.countP isSbSpinAny = 0 ∧
      s.agents.countP isSbClearRegAny = 0 ∧ s.agents.countP isSbClearCWAny = 1 ∧
      s.agents.countP isSbClearCAAny = 0 ∧
      s.reg = false ∧ s.evs.countP (isNotifyEv s.gen) = 1 ∧
      s.cw = s.valid ∧ s.agents.countP isHolderAny = 0 ∧
      s.agents.countP isPreIncr = 0 := by
    rcases a5 with b | b | b | b
    · exfalso
      have := b.2.2.1
      omega
    · exfalso
      have := b.2.2.2.1
      omega
    · exact b
    · exfalso
      have := b.2.2.2.1
      omega
  obtain ⟨b1, b2, b3, b4, b5, b6, b7, b8, b9, b10⟩ := hS3
  have hEq : ∀ p : APC → Bool, p (APC.sbClearCW g c) = p (APC.sbClearCA g c) →
      (l₁ ++ APC.sbClearCA g c :: l₂).countP p = s.agents.countP p := fun p h => by
    rw [hag]
    exact countP_mid_swap_eq p l₁ l₂ h
  have hCWd : (l₁ ++ APC.sbClearCA g c :: l₂).countP isSbClearCWAny + 1 =
      s.agents.countP isSbClearCWAny := by
    rw [hag, countP_mid, countP_mid]
    simp [isSbClearCWAny, isSbClearCAAny]
  have hCAd : (l₁ ++ APC.sbClearCA g c :: l₂).countP isSbClearCAAny =
      s.agents.countP isSbClearCAAny + 1 := by
    rw [hag, countP_mid, countP_mid]
    simp [isSbClearCAAny]
  have hmem : ∀ q ∈ l₁ ++ APC.sbClearCA g c :: l₂,
      q = APC.sbClearCA g c ∨ q ∈ s.agents := fun q hq => by
    rcases mem_mid_cases hq (APC.sbClearCW g c) with h | h
    · exact Or.inl h
    · exact Or.inr (hag ▸ h)
  refine ⟨hlen_swap hag _ inv.hlen, inv.hev_le, inv.hev_tr, ?_, ?_, ?_, ?_, ?_,
    inv.hvalid, ?_⟩
  · intro g2 hg2
    obtain ⟨a, b, c2, d⟩ := inv.hist g2 hg2
    exact ⟨a, b, by rw [hEq (isSbTransmit g2) rfl]; exact c2, d⟩
  · intro q hq g2 c2 hql
    rcases hmem q hq with rfl | h
    · simp [sbLocal] at hql
      obtain ⟨h1, h2⟩ := hql
      refine ⟨?_, ?_⟩
      · show g2 = s.gen
        omega
      · show c2 = s.valid
        omega
    · exact inv.hsb q h g2 c2 hql
  · intro q hq g2 c2 hql
    rcases hmem q hq with rfl | h
    · simp [trLocal] at hql
    · exact inv.htr q h g2 c2 hql
  · intro t
    rw [hEq (isHolder t) rfl]
    exact inv.hslot t
  · intro hr hv h1 h2 h3
    exfalso
    have h3b : (l₁ ++ APC.sbClearCA g c :: l₂).countP isSbClearCAAny = 0 := h3
    omega
  · right; right
    refine ⟨a1, ?_, ?_, ?_, ?_, ?_⟩
    · show s.ca + (l₁ ++ APC.sbClearCA g c :: l₂).countP isPassed ≤ sender_active + ns
      rw [hEq isPassed rfl]
      exact a2
    · rcases a3 with ⟨c1, c2, c3⟩ | ⟨c1, c2, c3, c4, c5⟩
      · exact Or.inl ⟨c1, c2, c3⟩
      · refine Or.inr ⟨c1, c2, c3, c4, ?_⟩
        show (l₁ ++ APC.sbClearCA g c :: l₂).countP isFullTail = 0
        rw [hEq isFullTail rfl]
        exact c5
    · show (l₁ ++ APC.sbClearCA g c :: l₂).countP isFullStore = 0
      rw [hEq isFullStore rfl]
      exact a4
    · show (l₁ ++ APC.sbClearCA g c :: l₂).countP (isHolder (mc - 1)) = 0
      rw [hEq (isHolder (mc - 1)) rfl]
      exact a4b
    · right; right; right
      refine ⟨?_, ?_, ?_, ?_, ?_, ?_, b7, ?_, ?_, ?_⟩
      · show (l₁ ++ APC.sbClearCA g c :: l₂).countP isFullTail = 0
        rw [hEq isFullTail rfl]
        exact b1
      · show (l₁ ++ APC.sbClearCA g c :: l₂).countP isSbSpinAny = 0
        rw [hEq isSbSpinAny rfl]
        exact b2
      · show (l₁ ++ APC.sbClearCA g c :: l₂).countP isSbClearRegAny = 0
        rw [hEq isSbClearRegAny rfl]
        exact b3
      · show (l₁ ++ APC.sbClearCA g c :: l₂).countP isSbClearCWAny = 0
        omega
      · show (l₁ ++ APC.sbClearCA g c :: l₂).countP isSbClearCAAny = 1
        omega
      · show s.reg = false
        exact b6
      · show (0 : Nat) = 0
        rfl
      · show (l₁ ++ APC.sbClearCA g c :: l₂).countP isHolderAny = 0
        rw [hEq isHolderAny rfl]
        exact b9
      · show (l₁ ++ APC.sbClearCA g c :: l₂).countP isPreIncr = 0
        rw [hEq isPreIncr rfl]
        exact b10

theorem step_sbClearCA {mc ns : Nat} (h0 : 0 < mc) {s core : CSt} {l₁ l₂ : List APC}
    {pc' : APC} {g c : Nat}
    (inv : CInv mc ns s) (hag : s.agents = l₁ ++ APC.sbClearCA g c :: l₂)
    (hstep : astep mc s l₁.length (APC.sbClearCA g c) = some (core, pc')) :
    CInv mc ns { core with agents := l₁ ++ pc' :: l₂ } := by
  simp only [astep] at hstep
  cases hstep
  have hmemself : APC.sbClearCA g c ∈ s.agents := by
    rw [hag]
    exact List.mem_append.mpr (Or.inr (List.mem_cons_self _ _))
  obtain ⟨hg, hc⟩ := inv.hsb _ hmemself g c rfl
  have hCA : 0 < s.agents.countP isSbClearCAAny := by
    rw [hag]
    exact countP_pos_of_mid _ l₁ l₂ rfl
  have hS : PhaseS mc ns s := by
    rcases inv.hphase with hp | hp | hp
    · exfalso
      have h := hp.2.2.2.2.2.2.2.2.1
      omega
    · exfalso
      have h := hp.2.2.2.2.2.2.2.2.2.2.1
      omega
    · exact hp
  obtain ⟨a1, a2, a3, a4, a4b, a5⟩ := hS
  have hS4 : s.agents.countP isFullTail = 0 ∧ s.agents.countP isSbSpinAny = 0 ∧
      s.agents.countP isSbClearRegAny = 0 ∧ s.agents.countP isSbClearCWAny = 0 ∧
      s.agents.countP isSbClearCAAny = 1 ∧
      s.reg = false ∧ s.evs.countP (isNotifyEv s.gen) = 1 ∧
      s.cw = 0 ∧ s.agents.countP isHolderAny = 0 ∧
      s.agents.countP isPreIncr = 0 := by
    rcases a5 with b | b | b | b
    · exfalso
      have := b.2.2.2.1
      omega
    · exfalso
      have := b.2.2.2.2.1
      omega
    · exfalso
      have := b.2.2.2.2.1
      omega
    · exact b
  obtain ⟨b1, b2, b3, b4, b5, b6, b7, b8, b9, b10⟩ := hS4
  have hsplit := countP_sender_split s.gen s.evs
  have hEq : ∀ p : APC → Bool, p (APC.sbClearCA g c) = p (APC.sbTransmit g c) →
      (l₁ ++ APC.sbTransmit g c :: l₂).countP p = s.agents.countP p := fun p h => by
    rw [hag]
    exact countP_mid_swap_eq p l₁ l₂ h
  have hCAd : (l₁ ++ APC.sbTransmit g c :: l₂).countP isSbClearCAAny + 1 =
      s.agents.countP isSbClearCAAny := by
    rw [hag, countP_mid, countP_mid]
    simp [isSbClearCAAny, isSbTransmit]
  have hnew : ∀ p : Nat → Ev → Bool,
      (∀ ev, p (s.gen + 1) ev = true → evGen ev = s.gen + 1) →
      s.evs.countP (p (s.gen + 1)) = 0 := fun p hp =>
    countP_zero_of_gen_lt hp (fun ev hev => by have := inv.hev_le ev hev; omega)
      (by omega)
  have hmem : ∀ q ∈ l₁ ++ APC.sbTransmit g c :: l₂,
      q = APC.sbTransmit g c ∨ q ∈ s.agents := fun q hq => by
    rcases mem_mid_cases hq (APC.sbClearCA g c) with h | h
    · exact Or.inl h
    · exact Or.inr (hag ▸ h)
  refine ⟨hlen_swap hag _ inv.hlen, ?_, ?_, ?_, ?_, ?_, ?_, ?_, ?_, ?_⟩
  · intro ev hev
    have := inv.hev_le ev hev
    show evGen ev ≤ s.gen + 1
    omega
  · intro ev hev h
    have := inv.hev_tr ev hev h
    show evGen ev < s.gen + 1
    omega
  · intro g2 hg2
    have hg2b : g2 < s.gen + 1 := hg2
    have hcases : g2 < s.gen ∨ g2 = s.gen := by omega
    rcases hcases with hlt | rfl
    · obtain ⟨a, b, c2, d⟩ := inv.hist g2 hlt
      have hne : (g == g2) = false := beq_eq_false_iff_ne.mpr (by omega)
      refine ⟨a, b, ?_, d⟩
      show s.evs.countP (isTransmitEv g2) +
          (l₁ ++ APC.sbTransmit g c :: l₂).countP (isSbTransmit g2) = 1
      rw [hEq (isSbTransmit g2) (by simp only [isSbTransmit]; rw [hne])]
      exact c2
    · have htz : s.evs.countP (isTransmitEv s.gen) = 0 := by
        rw [List.countP_eq_zero]
        intro ev hev hp
        have h2 := inv.hev_tr ev hev
        cases ev <;> simp [isTransmitEv] at hp
        have h3 := h2 (by simp [isTransmitAny])
        simp [evGen] at h3
        omega
      have hstz : s.agents.countP (isSbTransmit s.gen) = 0 := by
        rw [List.countP_eq_zero]
        intro q hq hp
        cases q <;> simp [isSbTransmit] at hp
        rename_i g3 c3
        have := inv.htr _ hq g3 c3 rfl
        omega
      have hstd : (l₁ ++ APC.sbTransmit g c :: l₂).countP (isSbTransmit s.gen) =
          s.agents.countP (isSbTransmit s.gen) + 1 := by
        rw [hag, countP_mid, countP_mid]
        simp [isSbTransmit, hg]
      refine ⟨?_, ?_, ?_, ?_⟩
      · show s.evs.countP (isSenderEv s.gen) = 1
        rcases a3 with ⟨c1, c2, _⟩ | ⟨c1, c2, _, _, _⟩ <;> omega
      · show s.evs.countP (isNotifyEv s.gen) = 1
        omega
      · show s.evs.countP (isTransmitEv s.gen) +
            (l₁ ++ APC.sbTransmit g c :: l₂).countP (isSbTransmit s.gen) = 1
        omega
      · intro t
        show s.evs.countP (isWriteEv s.gen t) ≤ 1
        have hsl := inv.hslot t
        by_cases ht : t < s.valid
        · rw [if_pos ht] at hsl
          omega
        · rw [if_neg ht] at hsl
          omega
  · intro q hq g2 c2 hql
    refine absurd (no_sb_of_zero ?_ ?_ ?_ ?_ q hq g2 c2 hql) not_false
    · show (l₁ ++ APC.sbTransmit g c :: l₂).countP isSbSpinAny = 0
      rw [hEq isSbSpinAny rfl]
      exact b2
    · show (l₁ ++ APC.sbTransmit g c :: l₂).countP isSbClearRegAny = 0
      rw [hEq isSbClearRegAny rfl]
      exact b3
    · show (l₁ ++ APC.sbTransmit g c :: l₂).countP isSbClearCWAny = 0
      rw [hEq isSbClearCWAny rfl]
      exact b4
    · show (l₁ ++ APC.sbTransmit g c :: l₂).countP isSbClearCAAny = 0
      omega
  · intro q hq g2 c2 hql
    rcases hmem q hq with rfl | h
    · simp [trLocal] at hql
      obtain ⟨h1, h2⟩ := hql
      show g2 < s.gen + 1
      omega
    · have := inv.htr q h g2 c2 hql
      show g2 < s.gen + 1
      omega
  · intro t
    show s.evs.countP (isWriteEv (s.gen + 1) t) +
        (l₁ ++ APC.sbTransmit g c :: l₂).countP (isHolder t) =
        (if t < 0 then 1 else 0)
    rw [if_neg (Nat.not_lt_zero t)]
    have hw : s.evs.countP (isWriteEv (s.gen + 1) t) = 0 :=
      hnew (fun g2 => isWriteEv g2 t) (fun ev h => by
        cases ev <;> simp [isWriteEv, evGen] at h ⊢
        omega)
    have hh := holder_le_holderAny t s.agents
    have hhe : (l₁ ++ APC.sbTransmit g c :: l₂).countP (isHolder t) =
        s.agents.countP (isHolder t) := hEq (isHolder t) rfl
    omega
  · intro hr hv h1 h2 h3
    have hv2 : (0 : Nat) < 0 := hv
    omega
  · show (0 : Nat) ≤ mc
    omega
  · left
    refine ⟨rfl, ?_, ?_, ?_, ?_, ?_, ?_, ?_, ?_, ?_, ?_⟩
    · show (0 : Nat) < mc
      omega
    · show s.evs.countP (isSenderEv (s.gen + 1)) = 0
      exact hnew isSenderEv (fun ev h => by
        cases ev <;> simp [isSenderEv, evGen] at h ⊢ <;> omega)
    · show (l₁ ++ APC.sbTransmit g c :: l₂).countP isFullStore = 0
      rw [hEq isFullStore rfl]
      exact a4
    · show (l₁ ++ APC.sbTransmit g c :: l₂).countP isFullTail = 0
      rw [hEq isFullTail rfl]
      exact b1
    · show (l₁ ++ APC.sbTransmit g c :: l₂).countP isSbSpinAny = 0
      rw [hEq isSbSpinAny rfl]
      exact b2
    · show (l₁ ++ APC.sbTransmit g c :: l₂).countP isSbClearRegAny = 0
      rw [hEq isSbClearRegAny rfl]
      exact b3
    · show (l₁ ++ APC.sbTransmit g c :: l₂).countP isSbClearCWAny = 0
      rw [hEq isSbClearCWAny rfl]
      exact b4
    · show (l₁ ++ APC.sbTransmit g c :: l₂).countP isSbClearCAAny = 0
      omega
    · show s.evs.countP (isNotifyEv (s.gen + 1)) = (if s.reg then 1 else 0)
      rw [b6]
      simp only [Bool.false_eq_true, if_false]
      exact hnew isNotifyEv (fun ev h => by
        cases ev <;> simp [isNotifyEv, evGen] at h ⊢ <;> omega)
    · show s.cw + (l₁ ++ APC.sbTransmit g c :: l₂).countP isHolderAny +
          (l₁ ++ APC.sbTransmit g c :: l₂).countP isPreIncr = 0
      rw [hEq isHolderAny rfl, hEq isPreIncr rfl]
      omega

theorem step_sbTransmit {mc ns : Nat} {s core : CSt} {l₁ l₂ : List APC}
    {pc' : APC} {g c : Nat}
    (inv : CInv mc ns s) (hag : s.agents = l₁ ++ APC.sbTransmit g c :: l₂)
    (hstep : astep mc s l₁.length (APC.sbTransmit g c) = some (core, pc')) :
    CInv mc ns { core with agents := l₁ ++ pc' :: l₂ } := by
  simp only [astep] at hstep
  cases hstep
  have hmemself : APC.sbTransmit g c ∈ s.agents := by
    rw [hag]
    exact List.mem_append.mpr (Or.inr (List.mem_cons_self _ _))
  have hgl : g < s.gen := inv.htr _ hmemself g c rfl
  have hEq : ∀ p : APC → Bool, p (APC.sbTransmit g c) = p APC.done →
      (l₁ ++ APC.done :: l₂).countP p = s.agents.countP p := fun p h => by
    rw [hag]
    exact countP_mid_swap_eq p l₁ l₂ h
  have hSTd : (l₁ ++ APC.done :: l₂).countP (isSbTransmit g) + 1 =
      s.agents.countP (isSbTransmit g) := by
    rw [hag, countP_mid, countP_mid]
    simp [isSbTransmit]
  have hmem : ∀ q ∈ l₁ ++ APC.done :: l₂, q = APC.done ∨ q ∈ s.agents := fun q hq => by
    rcases mem_mid_cases hq (APC.sbTransmit g c) with h | h
    · exact Or.inl h
    · exact Or.inr (hag ▸ h)
  have hgeb : (g == s.gen) = false := beq_eq_false_iff_ne.mpr (by omega)
  refine ⟨hlen_swap hag _ inv.hlen, ?_, ?_, ?_, ?_, ?_, ?_, ?_, inv.hvalid, ?_⟩
  · intro ev hev
    rw [List.mem_append] at hev
    rcases hev with h | h
    · exact inv.hev_le ev h
    · simp at h
      subst h
      show evGen (Ev.transmit g l₁.length c) ≤ s.gen
      simp [evGen]
      omega
  · intro ev hev h
    rw [List.mem_append] at hev
    rcases hev with h2 | h2
    · exact inv.hev_tr ev h2 h
    · simp at h2
      subst h2
      show evGen (Ev.transmit g l₁.length c) < s.gen
      simp [evGen]
      omega
  · intro g2 hg2
    have hg2b : g2 < s.gen := hg2
    have hgb : (s.gen == g2) = false := beq_eq_false_iff_ne.mpr (by omega)
    obtain ⟨a, b, c2, d⟩ := inv.hist g2 hg2b
    refine ⟨?_, ?_, ?_, ?_⟩
    · show (s.evs ++ [Ev.transmit g l₁.length c]).countP (isSenderEv g2) = 1
      rw [countP_snoc_false _ _ (by simp only [isSenderEv])]
      exact a
    · show (s.evs ++ [Ev.transmit g l₁.length c]).countP (isNotifyEv g2) = 1
      rw [countP_snoc_false _ _ (by simp only [isNotifyEv])]
      exact b
    · show (s.evs ++ [Ev.transmit g l₁.length c]).countP (isTransmitEv g2) +
          (l₁ ++ APC.done :: l₂).countP (isSbTransmit g2) = 1
      by_cases hgg : g2 = g
      · subst hgg
        rw [countP_snoc_true _ _ (by simp [isTransmitEv])]
        omega
      · have hne : (g == g2) = false := beq_eq_false_iff_ne.mpr (by omega)
        have hf : isTransmitEv g2 (Ev.transmit g l₁.length c) = false := by
          simp only [isTransmitEv]
          rw [hne]
        rw [countP_snoc_false _ _ hf,
          hEq (isSbTransmit g2) (by simp only [isSbTransmit]; rw [hne])]
        exact c2
    · intro t
      show (s.evs ++ [Ev.transmit g l₁.length c]).countP (isWriteEv g2 t) ≤ 1
      rw [countP_snoc_false _ _ (by simp only [isWriteEv])]
      exact d t
  · intro q hq g2 c2 hql
    rcases hmem q hq with rfl | h
    · simp [sbLocal] at hql
    · exact inv.hsb q h g2 c2 hql
  · intro q hq g2 c2 hql
    rcases hmem q hq with rfl | h
    · simp [trLocal] at hql
    · exact inv.htr q h g2 c2 hql
  · intro t
    show (s.evs ++ [Ev.transmit g l₁.length c]).countP (isWriteEv s.gen t) +
        (l₁ ++ APC.done :: l₂).countP (isHolder t) = (if t < s.valid then 1 else 0)
    rw [countP_snoc_false _ _ (by simp only [isWriteEv]), hEq (isHolder t) rfl]
    exact inv.hslot t
  · intro hr hv h1 h2 h3
    have hr2 : s.reg = false := hr
    have hv2 : 0 < s.valid := hv
    have h1b : (l₁ ++ APC.done :: l₂).countP isSbClearRegAny = 0 := h1
    have h2b : (l₁ ++ APC.done :: l₂).countP isSbClearCWAny = 0 := h2
    have h3b : (l₁ ++ APC.done :: l₂).countP isSbClearCAAny = 0 := h3
    rw [hEq isSbClearRegAny rfl] at h1b
    rw [hEq isSbClearCWAny rfl] at h2b
    rw [hEq isSbClearCAAny rfl] at h3b
    have hq := inv.hreg0 hr2 hv2 h1b h2b h3b
    show 0 < (l₁ ++ APC.done :: l₂).countP (isHolder 0) +
        (l₁ ++ APC.done :: l₂).countP isReg0 +
        (l₁ ++ APC.done :: l₂).countP isFullStore +
        (l₁ ++ APC.done :: l₂).countP isFullReg
    rw [hEq (isHolder 0) rfl, hEq isReg0 rfl, hEq isFullStore rfl, hEq isFullReg rfl]
    omega
  · refine hphase_transport (s := s) rfl rfl rfl rfl rfl ?_ ?_ ?_ ?_
      (hEq isPassed rfl) (hEq isFullStore rfl) (hEq isFullTail rfl)
      (hEq isSbSpinAny rfl) (hEq isSbClearRegAny rfl) (hEq isSbClearCWAny rfl)
      (hEq isSbClearCAAny rfl) (hEq isHolderAny rfl) (hEq isPreIncr rfl)
      (hEq (isHolder (mc - 1)) rfl) inv.hphase
    · show (s.evs ++ [Ev.transmit g l₁.length c]).countP (isSenderEv s.gen) =
          s.evs.countP (isSenderEv s.gen)
      exact countP_snoc_false _ _ (by simp only [isSenderEv])
    · show (s.evs ++ [Ev.transmit g l₁.length c]).countP (isFullwinEv s.gen) =
          s.evs.countP (isFullwinEv s.gen)
      exact countP_snoc_false _ _ (by simp only [isFullwinEv])
    · show (s.evs ++ [Ev.transmit g l₁.length c]).countP (isStealEv s.gen) =
          s.evs.countP (isStealEv s.gen)
      exact countP_snoc_false _ _ (by simp only [isStealEv])
    · show (s.evs ++ [Ev.transmit g l₁.length c]).countP (isNotifyEv s.gen) =
          s.evs.countP (isNotifyEv s.gen)
      exact countP_snoc_false _ _ (by simp only [isNotifyEv])

theorem astep_fcas_guard {mc : Nat} {st core : CSt} {aid : Nat} {pc pc' : APC}
    (h : astep mc st aid pc = some (core, pc')) :
    ∀ m, pc' = APC.fCAS m → 0 < m ∧ m < mc := by
  intro m hm
  subst hm
  cases pc with
  | sSpin =>
    simp only [astep] at h
    split at h
    · cases h
    · cases h
  | sPassed =>
    simp only [astep] at h
    split at h
    · cases h
    · split at h
      · cases h
      · split at h
        · cases h
        · cases h
  | sWrite m0 =>
    simp only [astep] at h
    split at h
    · cases h
    · split at h
      · cases h
      · cases h
  | sFullStore =>
    simp only [astep] at h
    cases h
  | sFullReg =>
    simp only [astep] at h
    split at h
    · cases h
    · cases h
  | sFullIncr =>
    simp only [astep] at h
    cases h
  | sReg0 =>
    simp only [astep] at h
    split at h
    · cases h
    · cases h
  | sIncr =>
    simp only [astep] at h
    cases h
  | fLoad =>
    simp only [astep] at h
    cases h
  | fCheck m1 =>
    simp only [astep] at h
    split at h
    · cases h
    · split at h
      case isTrue hlt =>
        cases h
        exact hlt
      case isFalse =>
        cases h
  | fStoreLA m1 =>
    simp only [astep] at h
    cases h
  | fCAS m1 =>
    simp only [astep] at h
    split at h
    · cases h
    · split at h
      case isTrue hlt =>
        cases h
        exact hlt
      case isFalse =>
        cases h
  | sbSpin g c =>
    simp only [astep] at h
    split at h
    · cases h
    · cases h
  | sbClearReg g c =>
    simp only [astep] at h
    cases h
  | sbClearCW g c =>
    simp only [astep] at h
    cases h
  | sbClearCA g c =>
    simp only [astep] at h
    cases h
  | sbTransmit g c =>
    simp only [astep] at h
    cases h
  | done =>
    simp only [astep] at h
    cases h

theorem fcasInv_step {mc : Nat} {s t : CSt} (hstep : CStep mc s t)
    (hinv : ∀ pc ∈ s.agents, ∀ m, pc = APC.fCAS m → 0 < m ∧ m < mc) :
    ∀ pc ∈ t.agents, ∀ m, pc = APC.fCAS m → 0 < m ∧ m < mc := by
  rcases hstep with ⟨hag, hst⟩
  rename_i core l₁ l₂ pc pc'
  intro q hq m hqe
  have hq2 : q ∈ l₁ ++ pc' :: l₂ := hq
  rcases mem_mid_cases hq2 pc with rfl | h
  · exact astep_fcas_guard hst m hqe
  · exact hinv q (hag ▸ h) m hqe

theorem fcasInv_init (mc nsend nflush : Nat) :
    ∀ pc ∈ (cinit nsend nflush).agents, ∀ m, pc = APC.fCAS m → 0 < m ∧ m < mc := by
  intro pc hpc m hqe
  simp only [cinit, List.mem_append] at hpc
  rcases hpc with h | h
  · rw [List.eq_of_mem_replicate h] at hqe
    cases hqe
  · rw [List.eq_of_mem_replicate h] at hqe
    cases hqe

theorem cinv_step {mc ns : Nat} (hb : mc + ns ≤ count_mask) (h0 : 0 < mc) {s t : CSt}
    (inv : CInv mc ns s)
    (hfc : ∀ pc ∈ s.agents, ∀ m, pc = APC.fCAS m → 0 < m ∧ m < mc)
    (hstep : CStep mc s t) : CInv mc ns t := by
  rcases hstep with ⟨hag, hst⟩
  rename_i core l₁ l₂ pc pc'
  cases pc with
  | sSpin => exact step_sSpin hb inv hag hst
  | sPassed => exact step_sPassed hb inv hag hst
  | sWrite m => exact step_sWrite hb inv hag hst
  | sFullStore => exact step_sFullStore hb inv hag hst
  | sFullReg => exact step_sFullReg inv hag hst
  | sFullIncr => exact step_sFullIncr inv hag hst
  | sReg0 => exact step_sReg0 inv hag hst
  | sIncr => exact step_sIncr inv hag hst
  | fLoad => exact step_neutral_dispatch inv hag rfl hst (Or.inl rfl)
  | fCheck m => exact step_neutral_dispatch inv hag rfl hst (Or.inr (Or.inl ⟨m, rfl⟩))
  | fStoreLA m =>
    exact step_neutral_dispatch inv hag rfl hst (Or.inr (Or.inr (Or.inl ⟨m, rfl⟩)))
  | fCAS m =>
    by_cases hca : s.ca = m
    · have hm := hfc (APC.fCAS m)
        (by rw [hag]; exact List.mem_append.mpr (Or.inr (List.mem_cons_self _ _))) m rfl
      exact step_fCAS_steal hb inv hag hca hm hst
    · exact step_neutral_dispatch inv hag rfl hst
        (Or.inr (Or.inr (Or.inr (Or.inl ⟨m, rfl, hca⟩))))
  | sbSpin g c => exact step_sbSpin h0 inv hag hst
  | sbClearReg g c => exact step_sbClearReg inv hag hst
  | sbClearCW g c => exact step_sbClearCW inv hag hst
  | sbClearCA g c => exact step_sbClearCA h0 inv hag hst
  | sbTransmit g c => exact step_sbTransmit inv hag hst
  | done =>
    exact step_neutral_dispatch inv hag rfl hst (Or.inr (Or.inr (Or.inr (Or.inr rfl))))

theorem cinv_reach {mc nsend nflush : Nat}
    (hb : mc + (nsend + nflush) ≤ count_mask) (h0 : 0 < mc) {t : CSt}
    (hr : CReach mc (cinit nsend nflush) t) :
    CInv mc (nsend + nflush) t ∧
      (∀ pc ∈ t.agents, ∀ m, pc = APC.fCAS m → 0 < m ∧ m < mc) := by
  induction hr with
  | refl => exact ⟨cinv_init mc nsend nflush h0, fcasInv_init mc nsend nflush⟩
  | tail hr2 hstep ih =>
    exact ⟨cinv_step hb h0 ih.1 ih.2 hstep, fcasInv_step hstep ih.2⟩

/-- C6: Under any interleaving of concurrent `send` calls and flush bodies on one
destination buffer (model `cinit`/`CStep`/`CReach` of lines 344-389 and 404-432,
with the ghost events recording full-path wins, CAS steals, slot writes,
termination-detector notifications and batch handoffs), every reachable state
satisfies: each generation has at most one sender-claim event (full win or
steal); no two sends write the same slot of the same generation; and every
completed generation has exactly one sender, exactly one termination-detector
notification, and exactly one batch handoff to the transport (either already
transmitted or held by the sender about to transmit). -/
theorem C6_single_sender_per_generation (mc nsend nflush : Nat) (h0 : 0 < mc)
    (hb : mc + (nsend + nflush) ≤ count_mask) (t : CSt)
    (hr : CReach mc (cinit nsend nflush) t) :
    (∀ g, t.evs.countP (isSenderEv g) ≤ 1) ∧
    (∀ g slot, t.evs.countP (isWriteEv g slot) ≤ 1) ∧
    (∀ g, g < t.gen →
      t.evs.countP (isSenderEv g) = 1 ∧
      t.evs.countP (isNotifyEv g) = 1 ∧
      t.evs.countP (isTransmitEv g) + t.agents.countP (isSbTransmit g) = 1) := by
  obtain ⟨inv, -⟩ := cinv_reach hb h0 hr
  refine ⟨?_, ?_, ?_⟩
  · intro g
    rcases Nat.lt_trichotomy g t.gen with hlt | rfl | hgt
    · exact le_of_eq (inv.hist g hlt).1
    · have hsplit := countP_sender_split t.gen t.evs
      rcases inv.hphase with hp | hp | hp
      · have h3 := hp.2.2.1
        omega
      · have h4 := hp.2.2.2.1
        have h5 := hp.2.2.2.2.1
        omega
      · have h3 := hp.2.2.1
        rcases h3 with ⟨c1, c2, _⟩ | ⟨c1, c2, _, _, _⟩ <;> omega
    · have hz : t.evs.countP (isSenderEv g) = 0 :=
        countP_zero_of_gen_lt
          (fun ev h => by cases ev <;> simp [isSenderEv, evGen] at h ⊢ <;> omega)
          (fun ev hev => by have := inv.hev_le ev hev; omega) (by omega)
      omega
  · intro g slot
    rcases Nat.lt_trichotomy g t.gen with hlt | rfl | hgt
    · exact (inv.hist g hlt).2.2.2 slot
    · have hsl := inv.hslot slot
      by_cases hs : slot < t.valid
      · rw [if_pos hs] at hsl
        omega
      · rw [if_neg hs] at hsl
        omega
    · have hz : t.evs.countP (isWriteEv g slot) = 0 :=
        countP_zero_of_gen_lt (p := fun g2 => isWriteEv g2 slot)
          (fun ev h => by cases ev <;> simp [isWriteEv, evGen] at h ⊢; omega)
          (fun ev hev => by have := inv.hev_le ev hev; omega) (by omega)
      omega
  · intro g hg
    obtain ⟨a, b, c, d⟩ := inv.hist g hg
    exact ⟨a, b, c⟩

/-- Witness for C6 at the concrete instance of a capacity-2 buffer with one
sending agent and no flusher, at the initial state. -/
theorem C6_witness :
    ((0 : Nat) < 2 ∧ 2 + (1 + 0) ≤ count_mask ∧
      CReach 2 (cinit 1 0) (cinit 1 0)) ∧
    ((∀ g, (cinit 1 0).evs.countP (isSenderEv g) ≤ 1) ∧
     (∀ g slot, (cinit 1 0).evs.countP (isWriteEv g slot) ≤ 1) ∧
     (∀ g, g < (cinit 1 0).gen →
       (cinit 1 0).evs.countP (isSenderEv g) = 1 ∧
       (cinit 1 0).evs.countP (isNotifyEv g) = 1 ∧
       (cinit 1 0).evs.countP (isTransmitEv g) +
         (cinit 1 0).agents.countP (isSbTransmit g) = 1)) :=
  ⟨⟨by decide, by decide, CReach.refl⟩,
    C6_single_sender_per_generation 2 1 0 (by decide) (by decide)
      (cinit 1 0) CReach.refl⟩

end AMPP
